import Mathlib

namespace TtWeave

/-!
Verification development for the tt-weave WEB parsing and prettifying core.

The Rust sources shallow-embedded here are `src/weblang.rs`, `src/prettify.rs`,
`src/weblang/expr.rs`, `src/weblang/statement.rs`, `src/weblang/webtype.rs`,
`src/weblang/const_declaration.rs`, `src/weblang/label_declaration.rs` and
`src/weblang/modulified_declaration.rs`.  Several helper modules of the
repository (`weblang/base.rs`, `weblang/comment.rs`, `weblang/define.rs`,
`weblang/format.rs`, `weblang/forward_declaration.rs`,
`weblang/function_definition.rs`, `weblang/module_reference.rs`,
`weblang/preprocessor_directive.rs`, `weblang/program_definition.rs`,
`weblang/standalone.rs`, `weblang/type_declaration.rs`,
`weblang/var_declaration.rs`) are not available; the definitions that stand in
for them are modelled from the specification and are marked as such in their
doc comments.

Machine integers: the Rust code uses `usize` arithmetic.  Quantities that can
only grow (byte offsets, lengths) are embedded as `Nat`; the `Prettifier`
width/indent bookkeeping, where the interesting question is precisely whether
subtraction can underflow, is embedded as `Int`, with `usize::saturating_sub`
embedded explicitly as a clamped subtraction.
-/

/-! ## Token model

Modelled from the spec (section 3 "Token" and section 4.1 "Grammar
primitives"): the token type itself lives in the missing `weblang/base.rs`.
The constructor set is the one referenced by the parsers in the available
sources; spans are collapsed to the underlying strings (`StringSpan` and
`SpanValue` become plain payloads), since the tree is zero-copy in Rust only
for lifetime reasons.
-/

/-- Reserved words of the WEB Pascal dialect, as referenced by the sources. -/

inductive PascalReservedWord where
  | And | Array | Begin | Case | Const | Div | Do | Else | End | File
  | For | Forward | Function | Goto | If | In | Label | Mod | Nil | Not
  | Of | Or | Packed | Procedure | Program | Record | Then | To
  | Type | Var | While | Xclause
  deriving DecidableEq, Repr

/-- Delimiter kinds, as referenced by the sources. -/

inductive DelimiterKind where
  | Paren
  | SquareBracket
  | MetaComment
  deriving DecidableEq, Repr

/-- Pascal tokens.  Modelled from the spec: the definition lives in the
missing `weblang/base.rs`; the constructors are exactly those the available
parsers match on, plus markers for the `@d`/`@f` and preprocessor forms whose
parsers are also modelled from the spec. -/

inductive PascalToken where
  | Identifier (s : String)
  | FormattedIdentifier (s : String) (rw : PascalReservedWord)
  | ReservedWord (rw : PascalReservedWord)
  | IntLiteral (n : Nat)
  | StringLiteral (s : String)
  | Hash (s : String)
  | StringPoolChecksum
  | Plus | Minus | Times | Divide
  | Greater | GreaterEquals | Less | LessEquals | Equals | NotEquals
  | Semicolon | Colon | Comma | Period | DoubleDot | Caret | Gets
  | Equivalence
  | OpenDelimiter (k : DelimiterKind)
  | CloseDelimiter (k : DelimiterKind)
  | Formatting
  | ForcedEol
  | TexString (s : String)
  | DefineMarker
  | FormatMarker
  | PreprocDirectiveMarker (s : String)
  deriving DecidableEq, Repr

/-- One piece of a typeset comment.  Modelled from the spec: defined in the
missing `weblang/base.rs`/`weblang/comment.rs`. -/

inductive TypesetComment where
  | Pascal (toks : List PascalToken)
  | Tex (s : String)
  deriving DecidableEq, Repr

/-- Tokens of the WEB input stream: Pascal tokens, typeset comments and module
references.  Modelled from the spec (the type lives in the missing
`weblang/base.rs`); the three constructors are the ones the available sources
match on. -/

inductive WebToken where
  | Pascal (t : PascalToken)
  | Comment (c : List TypesetComment)
  | ModuleReference (s : String)
  deriving DecidableEq, Repr

/-! ## Parser combinators

The Rust code parses with `nom` over a token slice.  A parser takes the
remaining input and either fails or returns the new remainder together with a
value; `nom`'s error kinds only ever select between alternatives, so failure
is collapsed to `none`. -/

/-- Embedded type of `nom` parsers over the token stream. -/

def P (α : Type) : Type :=
  List WebToken → Option (List WebToken × α)

/-- Parser that always fails. -/

def pfail {α : Type} : P α :=
  fun _ => none

/-- Parser that consumes nothing and returns a value. -/

def ppure {α : Type} (a : α) : P α :=
  fun i => some (i, a)

/-- Sequencing of parsers, mirroring `nom` tuples. -/

def pbind {α β : Type} (p : P α) (f : α → P β) : P β :=
  fun i =>
    match p i with
    | some (i', a) => f a i'
    | none => none

/-- Mapped parser, mirroring `nom::combinator::map`. -/

def pmap {α β : Type} (f : α → β) (p : P α) : P β :=
  fun i =>
    match p i with
    | some (i', a) => some (i', f a)
    | none => none

/-- Two-way alternative, mirroring `nom::branch::alt` pairwise. -/

def palt {α : Type} (p q : P α) : P α :=
  fun i =>
    match p i with
    | some r => some r
    | none => q i

/-- First-match alternative over a list of parsers, mirroring
`nom::branch::alt` applied to a tuple of alternatives in order. -/

def paltList {α : Type} : List (P α) → P α
  | [] => pfail
  | p :: rest => palt p (paltList rest)

/-- Optional parser, mirroring `nom::combinator::opt` (never fails). -/

def popt {α : Type} (p : P α) : P (Option α) :=
  fun i =>
    match p i with
    | some (i', a) => some (i', some a)
    | none => some (i, none)

/-- Fuel-bounded iteration of a step function on (input, accumulator).  The
Rust loops (`nom`'s `many0`/`many1`/`separated_list` and the explicit tail
loop in `parse_expr`) iterate until the step fails; every step consumes at
least one token, so fuel `input.length + 1` is always sufficient (this
sufficiency is proved below, in the theorem settling the termination claim). -/

def iterStep {σ : Type} (step : List WebToken → σ → Option (List WebToken × σ)) :
    Nat → List WebToken → σ → List WebToken × σ
  | 0, i, a => (i, a)
  | f + 1, i, a =>
    match step i a with
    | some (i', a') => iterStep step f i' a'
    | none => (i, a)

/-- Collector step used by the repetition combinators: run the element parser
once and append its result. -/

def collectStep {α : Type} (p : P α) :
    List WebToken → List α → Option (List WebToken × List α) :=
  fun i acc =>
    match p i with
    | some (i', a) => some (i', acc ++ [a])
    | none => none

/-- Zero-or-more repetition, mirroring `nom::multi::many0` for parsers that
consume input on success. -/

def many0P {α : Type} (p : P α) : P (List α) :=
  fun i => some (iterStep (collectStep p) (i.length + 1) i [])

/-- One-or-more repetition, mirroring `nom::multi::many1` for parsers that
consume input on success. -/

def many1P {α : Type} (p : P α) : P (List α) :=
  pbind p fun a => fun i => some (iterStep (collectStep p) (i.length + 1) i [a])

/-- Step for separated lists: parse a separator, then an element; on failure
of either, backtrack to before the separator (as `nom` does). -/

def sepStep {α β : Type} (sep : P β) (p : P α) :
    List WebToken → List α → Option (List WebToken × List α) :=
  fun i acc =>
    match sep i with
    | some (i1, _) =>
      match p i1 with
      | some (i2, a) => some (i2, acc ++ [a])
      | none => none
    | none => none

/-- One-or-more separated list, mirroring `nom::multi::separated_list1`. -/

def sepList1 {α β : Type} (sep : P β) (p : P α) : P (List α) :=
  pbind p fun a => fun i => some (iterStep (sepStep sep p) (i.length + 1) i [a])

/-- Zero-or-more separated list, mirroring `nom::multi::separated_list0`. -/

def sepList0 {α β : Type} (sep : P β) (p : P α) : P (List α) :=
  palt (sepList1 sep p) (ppure [])

/-- Longest-prefix consumer, mirroring `nom::bytes::complete::take_while`
specialized to the token stream (the result tokens are discarded by the only
use site). -/

def take_while (pred : WebToken → Bool) : P Unit
  | [] => some ([], ())
  | t :: rest =>
    if pred t then take_while pred rest else some (t :: rest, ())

/-! ### Consumption properties of the combinators

`NonIncreasing p` says a successful parse never lengthens the remainder;
`Consuming p` says it strictly consumes.  These are the facts behind the
termination claim. -/

/-- Successful parses leave a remainder no longer than the input. -/

def NonIncreasing {α : Type} (p : P α) : Prop :=
  ∀ i r v, p i = some (r, v) → r.length ≤ i.length

/-- Successful parses strictly consume input. -/

def Consuming {α : Type} (p : P α) : Prop :=
  ∀ i r v, p i = some (r, v) → r.length < i.length

/-! ## Grammar primitives

Modelled from the spec (section 4.1): these live in the missing
`weblang/base.rs`.  Each primitive examines the next token of the cursor and
either consumes it or fails; they are all written through `tokGate`, the
common "inspect one token" shape. -/

/-- Common shape of the one-token primitives: inspect the head token, consume
it when `check` accepts it. -/

def tokGate {α : Type} (check : WebToken → Option α) : P α :=
  fun i =>
    match i with
    | [] => none
    | t :: r =>
      match check t with
      | some a => some (r, a)
      | none => none

/-- Cursor primitive: take the next token.  Modelled from the spec
(`next_token` in the missing `weblang/base.rs`). -/

def next_token : P WebToken :=
  tokGate fun t => some t

/-- Exact-token match.  Modelled from the spec (`pascal_token` in the missing
`weblang/base.rs`). -/

def pascal_token (t : PascalToken) : P PascalToken :=
  tokGate fun wt =>
    match wt with
    | .Pascal pt => if pt = t then some pt else none
    | _ => none

/-- Reserved-word match.  Modelled from the spec (`reserved_word` in the
missing `weblang/base.rs`). -/

def reserved_word (rw : PascalReservedWord) : P PascalToken :=
  tokGate fun wt =>
    match wt with
    | .Pascal (.ReservedWord rw') =>
      if rw' = rw then some (PascalToken.ReservedWord rw') else none
    | _ => none

/-- Identifier match returning the name.  Modelled from the spec
(`identifier` in the missing `weblang/base.rs`). -/

def identifier : P String :=
  tokGate fun wt =>
    match wt with
    | .Pascal (.Identifier s) => some s
    | _ => none

/-- Identifier match returning the token.  Modelled from the spec
(`identifier_as_token` in the missing `weblang/base.rs`). -/

def identifier_as_token : P PascalToken :=
  tokGate fun wt =>
    match wt with
    | .Pascal (.Identifier s) => some (PascalToken.Identifier s)
    | _ => none

/-- Integer-literal match.  Modelled from the spec (`int_literal` in the
missing `weblang/base.rs`). -/

def int_literal : P PascalToken :=
  tokGate fun wt =>
    match wt with
    | .Pascal (.IntLiteral n) => some (PascalToken.IntLiteral n)
    | _ => none

/-- Open-delimiter match.  Modelled from the spec (`open_delimiter` in the
missing `weblang/base.rs`). -/

def open_delimiter (k : DelimiterKind) : P PascalToken :=
  tokGate fun wt =>
    match wt with
    | .Pascal (.OpenDelimiter k') =>
      if k' = k then some (PascalToken.OpenDelimiter k') else none
    | _ => none

/-- Close-delimiter match.  Modelled from the spec (`close_delimiter` in the
missing `weblang/base.rs`). -/

def close_delimiter (k : DelimiterKind) : P PascalToken :=
  tokGate fun wt =>
    match wt with
    | .Pascal (.CloseDelimiter k') =>
      if k' = k then some (PascalToken.CloseDelimiter k') else none
    | _ => none

/-- Formatted-identifier-like match.  Modelled from the spec (section 4.1:
matches an ordinary identifier that the lexer tagged as behaving like the
given reserved word; `formatted_identifier_like` in the missing
`weblang/base.rs`). -/

def formatted_identifier_like (rw : PascalReservedWord) : P PascalToken :=
  tokGate fun wt =>
    match wt with
    | .Pascal (.FormattedIdentifier s rw') =>
      if rw' = rw then some (PascalToken.FormattedIdentifier s rw') else none
    | _ => none

/-- Comment match.  Modelled from the spec (`comment` in the missing
`weblang/base.rs`/`weblang/comment.rs`). -/

def comment : P (List TypesetComment) :=
  tokGate fun wt =>
    match wt with
    | .Comment c => some c
    | _ => none

/-- Module-reference match.  Modelled from the spec (`module_reference` in
the missing `weblang/module_reference.rs`). -/

def module_reference : P String :=
  tokGate fun wt =>
    match wt with
    | .ModuleReference s => some s
    | _ => none

/-- Helper of `merged_string_literals`: absorb further adjacent
string-literal tokens into an accumulated text. -/

def mergeMore : List WebToken → String → List WebToken × String
  | .Pascal (.StringLiteral s2) :: r, acc => mergeMore r (acc ++ s2)
  | i, acc => (i, acc)

/-- Merged string literal.  Modelled from the spec (section 4.1: a
string-literal matcher "merging adjacent string-literal tokens split by
source-level line continuation"; lives in the missing `weblang/base.rs`). -/

def merged_string_literals : P PascalToken :=
  fun i =>
    match i with
    | .Pascal (.StringLiteral s) :: r =>
      let m := mergeMore r s
      some (m.1, PascalToken.StringLiteral m.2)
    | _ => none

/-- End-of-define peek.  Modelled from the spec: several toplevel special
forms "peek at the end of the input" (`peek_end_of_define` in the missing
`weblang/define.rs`); it succeeds, consuming nothing, exactly on exhausted
input. -/

def peek_end_of_define : P Unit :=
  fun i =>
    match i with
    | [] => some ([], ())
    | _ => none

/-! ## Expression grammar (`src/weblang/expr.rs`)

The Rust `WebExpr` wraps each composite variant in a payload struct
(`WebBinaryExpr` and friends); those structs are flattened into constructor
arguments here, with the field order preserved. -/

mutual

/-- A WEB expression (`WebExpr` in `expr.rs`); payload structs flattened. -/

inductive WebExpr where
  | Binary (lhs : WebExpr) (op : PascalToken) (rhs : WebExpr)
  | PrefixUnary (op : PascalToken) (inner : WebExpr)
  | PostfixUnary (inner : WebExpr) (op : PascalToken)
  | Token (t : PascalToken)
  | Call (target : WebExpr) (args : List WebExpr)
  | Index (target : WebExpr) (args : List WebIndexTerm)
  | Field (item : WebExpr) (field : String)
  | Format (inner : WebExpr) (width : PascalToken)
  | Paren (inner : WebExpr)

/-- One term of an index-argument list (`WebIndexTerm` in `expr.rs`). -/

inductive WebIndexTerm where
  | Expr (e : WebExpr)
  | Range (lo : WebExpr) (hi : WebExpr)

end

/-- Accumulated left-recursive tail (`LeftRecursiveTail` in `expr.rs`). -/

inductive LeftRecursiveTail where
  | Binary (op : PascalToken) (rhs : WebExpr)
  | PostfixUnary (op : PascalToken)
  | Call (args : List WebExpr)
  | Index (args : List WebIndexTerm)
  | Field (field : String)
  | Format (width : PascalToken)

/-- Fold a matched tail onto the accumulated head expression
(`LeftRecursiveTail::finalize`). -/

def LeftRecursiveTail.finalize : LeftRecursiveTail → WebExpr → WebExpr
  | .Binary op rhs, head => .Binary head op rhs
  | .PostfixUnary op, head => .PostfixUnary head op
  | .Call args, head => .Call head args
  | .Index args, head => .Index head args
  | .Field f, head => .Field head f
  | .Format w, head => .Format head w

/-- Token classes accepted by `parse_token_expr` (the match arm in
`expr.rs`). -/

def isTokenExprTok : PascalToken → Bool
  | .Identifier _ => true
  | .FormattedIdentifier _ .Nil => true
  | .Hash _ => true
  | .IntLiteral _ => true
  | .StringPoolChecksum => true
  | _ => false

/-- Token classes accepted by `prefix_unary_expr_op`. -/

def isPrefixUnaryOpTok : PascalToken → Bool
  | .Plus => true
  | .Minus => true
  | .ReservedWord .Not => true
  | _ => false

/-- Token classes accepted by `binary_expr_op`. -/

def isBinaryOpTok : PascalToken → Bool
  | .Plus | .Minus | .Times | .Divide => true
  | .Greater | .GreaterEquals | .Less | .LessEquals | .Equals | .NotEquals => true
  | .ReservedWord .And | .ReservedWord .Div => true
  | .ReservedWord .Mod | .ReservedWord .Or => true
  | _ => false

/-- Token classes accepted by `postfix_unary_expr_op`. -/

def isPostfixUnaryOpTok : PascalToken → Bool
  | .Caret => true
  | _ => false

/-- Atom parser `parse_token_expr` of `expr.rs`. -/

def parse_token_expr : P WebExpr :=
  tokGate fun wt =>
    match wt with
    | .Pascal pt => if isTokenExprTok pt then some (WebExpr.Token pt) else none
    | _ => none

/-- Operator gate `prefix_unary_expr_op` of `expr.rs`. -/

def prefix_unary_expr_op : P PascalToken :=
  tokGate fun wt =>
    match wt with
    | .Pascal pt => if isPrefixUnaryOpTok pt then some pt else none
    | _ => none

/-- Operator gate `binary_expr_op` of `expr.rs`. -/

def binary_expr_op : P PascalToken :=
  tokGate fun wt =>
    match wt with
    | .Pascal pt => if isBinaryOpTok pt then some pt else none
    | _ => none

/-- Operator gate `postfix_unary_expr_op` of `expr.rs`. -/

def postfix_unary_expr_op : P PascalToken :=
  tokGate fun wt =>
    match wt with
    | .Pascal pt => if isPostfixUnaryOpTok pt then some pt else none
    | _ => none

/-- Advancing form `parse_paren_expr` of `expr.rs`, parameterized by the
recursive expression parser. -/

def parse_paren_expr (pe : P WebExpr) : P WebExpr :=
  pbind (pascal_token (.OpenDelimiter .Paren)) fun _ =>
  pbind pe fun e =>
  pbind (pascal_token (.CloseDelimiter .Paren)) fun _ =>
  ppure (WebExpr.Paren e)

/-- Advancing form `parse_prefix_unary_expr` of `expr.rs`. -/

def parse_prefix_unary_expr (pe : P WebExpr) : P WebExpr :=
  pbind prefix_unary_expr_op fun op =>
  pmap (fun inner => WebExpr.PrefixUnary op inner) pe

/-- Tail `binary_tail` of `expr.rs`: a binary operator, then the full
expression parser for the right operand. -/

def binary_tail (pe : P WebExpr) : P LeftRecursiveTail :=
  pbind binary_expr_op fun op =>
  pmap (fun rhs => LeftRecursiveTail.Binary op rhs) pe

/-- Tail `postfix_unary_tail` of `expr.rs`. -/

def postfix_unary_tail : P LeftRecursiveTail :=
  pmap LeftRecursiveTail.PostfixUnary postfix_unary_expr_op

/-- Tail `call_tail` of `expr.rs`. -/

def call_tail (pe : P WebExpr) : P LeftRecursiveTail :=
  pbind (open_delimiter .Paren) fun _ =>
  pbind (sepList0 (pascal_token .Comma) pe) fun args =>
  pbind (close_delimiter .Paren) fun _ =>
  ppure (LeftRecursiveTail.Call args)

/-- Index term `range_index_term` of `expr.rs`. -/

def range_index_term (pe : P WebExpr) : P WebIndexTerm :=
  pbind parse_token_expr fun e1 =>
  pbind (pascal_token .DoubleDot) fun _ =>
  pmap (fun e2 => WebIndexTerm.Range e1 e2) pe

/-- Index term `index_term` of `expr.rs`. -/

def index_term (pe : P WebExpr) : P WebIndexTerm :=
  palt (range_index_term pe) (pmap WebIndexTerm.Expr pe)

/-- Tail `index_tail` of `expr.rs`. -/

def index_tail (pe : P WebExpr) : P LeftRecursiveTail :=
  pbind (open_delimiter .SquareBracket) fun _ =>
  pbind (sepList0 (pascal_token .Comma) (index_term pe)) fun args =>
  pbind (close_delimiter .SquareBracket) fun _ =>
  ppure (LeftRecursiveTail.Index args)

/-- Tail `field_tail` of `expr.rs`. -/

def field_tail : P LeftRecursiveTail :=
  pbind (pascal_token .Period) fun _ =>
  pmap LeftRecursiveTail.Field identifier

/-- Tail `format_tail` of `expr.rs`. -/

def format_tail : P LeftRecursiveTail :=
  pbind (pascal_token .Colon) fun _ =>
  pmap LeftRecursiveTail.Format int_literal

/-- One iteration of the tail-accumulation loop of `parse_expr`: try the six
left-recursive tails in the order of `expr.rs` and fold the match onto the
accumulated expression. -/

def exprTailStep (pe : P WebExpr) :
    List WebToken → WebExpr → Option (List WebToken × WebExpr) :=
  fun i e =>
    match paltList [binary_tail pe, call_tail pe, index_tail pe,
        field_tail, format_tail, postfix_unary_tail] i with
    | some (i', t) => some (i', t.finalize e)
    | none => none

/-- The expression parser `parse_expr` of `expr.rs`.  The Rust function
recurses with an advanced input; the embedding adds fuel, decremented at each
nesting level, and every claim-level use supplies fuel that is proved (or
checked) sufficient.  The unbounded Rust tail loop becomes `iterStep` with
fuel `input.length + 1`, which the strict-consumption theorem below shows is
its fixed point. -/

def parse_expr : Nat → P WebExpr
  | 0 => pfail
  | f + 1 => fun i =>
    match paltList [parse_prefix_unary_expr (parse_expr f),
        parse_paren_expr (parse_expr f),
        pmap WebExpr.Token merged_string_literals,
        parse_token_expr] i with
    | some (i', e) => some (iterStep (exprTailStep (parse_expr f)) (i'.length + 1) i' e)
    | none => none

/-- One iteration of the tail loop of `parse_lhs_expr` (call, index and field
tails only). -/

def lhsTailStep (pe : P WebExpr) :
    List WebToken → WebExpr → Option (List WebToken × WebExpr) :=
  fun i e =>
    match paltList [call_tail pe, index_tail pe, field_tail] i with
    | some (i', t) => some (i', t.finalize e)
    | none => none

/-- The assignment-target parser `parse_lhs_expr` of `expr.rs`: a token atom
head, then the narrowed tail set. -/

def parse_lhs_expr (f : Nat) : P WebExpr :=
  fun i =>
    match parse_token_expr i with
    | some (i', e) => some (iterStep (lhsTailStep (parse_expr f)) (i'.length + 1) i' e)
    | none => none

/-! ## Statement grammar (`src/weblang/statement.rs`)

Payload structs (`WebBlock`, `WebAssignment`, ...) are flattened into
constructor arguments with field order preserved.  The preprocessor-directive
payload lives in the missing `weblang/preprocessor_directive.rs` and is
modelled as its text. -/

mutual

/-- A WEB statement (`WebStatement` in `statement.rs`). -/

inductive WebStatement where
  | ModuleReference (s : String)
  | Block (opener : PascalToken) (stmts : List WebStatement)
      (closer : PascalToken) (post_comment : Option (List TypesetComment))
  | Assignment (lhs : WebExpr) (rhs : WebExpr)
      (comment : Option (List TypesetComment))
  | PreprocessorDirective (d : String)
  | Goto (label : String) (comment : Option (List TypesetComment))
  | If (test : WebExpr) (then_ : WebStatement) (else_ : Option WebStatement)
  | While (test : WebExpr) (do_ : WebStatement)
  | For (var : String) (start : WebExpr) (stop : WebExpr) (do_ : WebStatement)
  | Loop (keyword : String) (do_ : WebStatement)
  | Label (s : String)
  | Case (var : String) (items : List WebCaseItem)
  | Expr (e : WebExpr) (comment : Option (List TypesetComment))
  | SpecialFreeCase (matches_ : List PascalToken) (stmt : WebStatement)

/-- One arm of a `case` statement (`WebCaseItem` in `statement.rs`). -/

inductive WebCaseItem where
  | ModuleReference (s : String)
  | Standard (matches_ : List PascalToken) (stmt : WebStatement)
      (comment : Option (List TypesetComment))
  | OtherCases (tag : String) (stmt : WebStatement)
      (comment : Option (List TypesetComment))

end

/-- Block opener (`block_opener` in `statement.rs`): `begin` or a formatted
identifier behaving like it. -/

def block_opener : P PascalToken :=
  tokGate fun wt =>
    match wt with
    | .Pascal (.ReservedWord .Begin) => some (PascalToken.ReservedWord .Begin)
    | .Pascal (.FormattedIdentifier s .Begin) =>
      some (PascalToken.FormattedIdentifier s .Begin)
    | _ => none

/-- Block closer (`block_closer` in `statement.rs`): `end` or a formatted
identifier behaving like it. -/

def block_closer : P PascalToken :=
  tokGate fun wt =>
    match wt with
    | .Pascal (.ReservedWord .End) => some (PascalToken.ReservedWord .End)
    | .Pascal (.FormattedIdentifier s .End) =>
      some (PascalToken.FormattedIdentifier s .End)
    | _ => none

/-- Loop-introducing formatted identifier (`loop_like_identifier` in
`statement.rs`): a formatted identifier tagged `Xclause`. -/

def loop_like_identifier : P String :=
  tokGate fun wt =>
    match wt with
    | .Pascal (.FormattedIdentifier s .Xclause) => some s
    | _ => none

/-- Case terminator (`parse_case_terminator` in `statement.rs`): a formatted
identifier behaving like `end`. -/

def parse_case_terminator : P String :=
  tokGate fun wt =>
    match wt with
    | .Pascal (.FormattedIdentifier s .End) => some s
    | _ => none

/-- Other-cases tag (`parse_other_cases_tag` in `statement.rs`): a formatted
identifier behaving like `else`. -/

def parse_other_cases_tag : P String :=
  tokGate fun wt =>
    match wt with
    | .Pascal (.FormattedIdentifier s .Else) => some s
    | _ => none

/-- Case-match token (`case_match_token` in `statement.rs`). -/

def case_match_token : P PascalToken :=
  tokGate fun wt =>
    match wt with
    | .Pascal (.Identifier s) => some (PascalToken.Identifier s)
    | .Pascal (.IntLiteral n) => some (PascalToken.IntLiteral n)
    | _ => none

/-- Preprocessor directive.  Modelled from the spec: the parser lives in the
missing `weblang/preprocessor_directive.rs`; it recognizes a dedicated token
of the stream. -/

def parse_preprocessor_directive_base : P String :=
  tokGate fun wt =>
    match wt with
    | .Pascal (.PreprocDirectiveMarker s) => some s
    | _ => none

/-- Statement `parse_mod_ref_statement` of `statement.rs`. -/

def parse_mod_ref_statement : P WebStatement :=
  pbind module_reference fun s =>
  pbind (popt (pascal_token .Semicolon)) fun _ =>
  ppure (WebStatement.ModuleReference s)

/-- Statement `parse_block` of `statement.rs`, parameterized by the recursive
statement parser. -/

def parse_block (psb : P WebStatement) : P WebStatement :=
  pbind block_opener fun op =>
  pbind (many0P psb) fun stmts =>
  pbind block_closer fun cl =>
  pbind (popt (pascal_token .Semicolon)) fun _ =>
  pbind (popt comment) fun pc =>
  ppure (WebStatement.Block op stmts cl pc)

/-- Statement `parse_goto` of `statement.rs`. -/

def parse_goto : P WebStatement :=
  pbind (reserved_word .Goto) fun _ =>
  pbind identifier fun label =>
  pbind (popt (pascal_token .Semicolon)) fun _ =>
  pbind (popt comment) fun c =>
  ppure (WebStatement.Goto label c)

/-- Statement `parse_if` of `statement.rs`. -/

def parse_if (pe : P WebExpr) (psb : P WebStatement) : P WebStatement :=
  pbind (reserved_word .If) fun _ =>
  pbind pe fun test =>
  pbind (reserved_word .Then) fun _ =>
  pbind psb fun then_ =>
  pbind (popt (pbind (reserved_word .Else) fun _ => psb)) fun else_ =>
  ppure (WebStatement.If test then_ else_)

/-- Statement `parse_while` of `statement.rs`. -/

def parse_while (pe : P WebExpr) (psb : P WebStatement) : P WebStatement :=
  pbind (reserved_word .While) fun _ =>
  pbind pe fun test =>
  pbind (reserved_word .Do) fun _ =>
  pmap (fun do_ => WebStatement.While test do_) psb

/-- Statement `parse_for` of `statement.rs`. -/

def parse_for (pe : P WebExpr) (psb : P WebStatement) : P WebStatement :=
  pbind (reserved_word .For) fun _ =>
  pbind identifier fun var =>
  pbind (pascal_token .Gets) fun _ =>
  pbind pe fun start =>
  pbind (reserved_word .To) fun _ =>
  pbind pe fun stop =>
  pbind (reserved_word .Do) fun _ =>
  pmap (fun do_ => WebStatement.For var start stop do_) psb

/-- Statement `parse_loop` of `statement.rs`. -/

def parse_loop (psb : P WebStatement) : P WebStatement :=
  pbind loop_like_identifier fun kw =>
  pmap (fun do_ => WebStatement.Loop kw do_) psb

/-- Statement `parse_label` of `statement.rs`. -/

def parse_label : P WebStatement :=
  pbind identifier fun s =>
  pbind (pascal_token .Colon) fun _ =>
  ppure (WebStatement.Label s)

/-- Case arm `parse_mod_ref_case_item` of `statement.rs`. -/

def parse_mod_ref_case_item : P WebCaseItem :=
  pbind module_reference fun s =>
  pbind (popt (pascal_token .Semicolon)) fun _ =>
  ppure (WebCaseItem.ModuleReference s)

/-- Case arm `parse_other_cases_item` of `statement.rs`. -/

def parse_other_cases_item (psb : P WebStatement) : P WebCaseItem :=
  pbind parse_other_cases_tag fun tag =>
  pbind psb fun stmt =>
  pbind (popt (pascal_token .Semicolon)) fun _ =>
  pbind (popt comment) fun c =>
  ppure (WebCaseItem.OtherCases tag stmt c)

/-- Case arm `parse_standard_case_item` of `statement.rs`. -/

def parse_standard_case_item (psb : P WebStatement) : P WebCaseItem :=
  pbind (sepList1 (pascal_token .Comma) (palt merged_string_literals case_match_token))
    fun ms =>
  pbind (pascal_token .Colon) fun _ =>
  pbind psb fun stmt =>
  pbind (popt (pascal_token .Semicolon)) fun _ =>
  pbind (popt comment) fun c =>
  ppure (WebCaseItem.Standard ms stmt c)

/-- Statement `parse_case` of `statement.rs`.  The Rust wraps the arm
alternative in a `debug` combinator, which only logs and is the identity on
the parse result. -/

def parse_case (psb : P WebStatement) : P WebStatement :=
  pbind (reserved_word .Case) fun _ =>
  pbind identifier fun var =>
  pbind (reserved_word .Of) fun _ =>
  pbind (many1P (paltList [parse_mod_ref_case_item, parse_other_cases_item psb,
      parse_standard_case_item psb])) fun items =>
  pbind parse_case_terminator fun _ =>
  pbind (popt (pascal_token .Semicolon)) fun _ =>
  ppure (WebStatement.Case var items)

/-- Statement `parse_assignment` of `statement.rs`. -/

def parse_assignment (f : Nat) : P WebStatement :=
  pbind (parse_lhs_expr f) fun lhs =>
  pbind (pascal_token .Gets) fun _ =>
  pbind (parse_expr f) fun rhs =>
  pbind (popt (pascal_token .Semicolon)) fun _ =>
  pbind (popt comment) fun c =>
  ppure (WebStatement.Assignment lhs rhs c)

/-- Statement `parse_special_free_case` of `statement.rs`. -/

def parse_special_free_case (psb : P WebStatement) : P WebStatement :=
  pbind (sepList1 (pascal_token .Comma) merged_string_literals) fun ms =>
  pbind (pascal_token .Colon) fun _ =>
  pbind psb fun stmt =>
  pbind (popt (pascal_token .Semicolon)) fun _ =>
  ppure (WebStatement.SpecialFreeCase ms stmt)

/-- Statement `parse_expr_statement` of `statement.rs`. -/

def parse_expr_statement (pe : P WebExpr) : P WebStatement :=
  pbind pe fun e =>
  pbind (popt (pascal_token .Semicolon)) fun _ =>
  pbind (popt comment) fun c =>
  ppure (WebStatement.Expr e c)

/-- The statement parser `parse_statement_base` of `statement.rs`: the
alternatives in source order.  Fuel is decremented at each recursive nesting
level, as for `parse_expr`. -/

def parse_statement_base : Nat → P WebStatement
  | 0 => pfail
  | f + 1 =>
    paltList [parse_mod_ref_statement,
      parse_block (parse_statement_base f),
      pmap WebStatement.PreprocessorDirective parse_preprocessor_directive_base,
      parse_goto,
      parse_if (parse_expr f) (parse_statement_base f),
      parse_while (parse_expr f) (parse_statement_base f),
      parse_for (parse_expr f) (parse_statement_base f),
      parse_case (parse_statement_base f),
      parse_assignment f,
      parse_label,
      parse_loop (parse_statement_base f),
      parse_special_free_case (parse_statement_base f),
      parse_expr_statement (parse_expr f)]

/-! ## Type grammar (`src/weblang/webtype.rs`)

The payload structs `WebArrayType` and `WebRecordType` are flattened into the
`Array` and `Record` constructors with field order preserved. -/

/-- Bound of a range type (`RangeBound` in `webtype.rs`). -/

inductive RangeBound where
  | Literal (t : PascalToken)
  | Symbolic1 (s : String)
  | Symbolic2 (s : String) (op : PascalToken) (t : PascalToken)
  | UnarySymbolic (op : PascalToken) (s : String)

mutual

/-- A WEB type (`WebType` in `webtype.rs`). -/

inductive WebType where
  | Integer
  | Real
  | Boolean
  | Range (lo : RangeBound) (hi : RangeBound)
  | PackedFileOf (s : String)
  | Array (is_packed : Bool) (axes : List WebType) (element : WebType)
  | Record (is_packed : Bool) (fields : List WebRecordField)
  | UserDefined (s : String)
  | Pointer (inner : WebType)

/-- One field of a record type (`WebRecordField` in `webtype.rs`). -/

inductive WebRecordField where
  | mk (names : List PascalToken) (ty : WebType)
      (comment : Option (List TypesetComment))

end

/-- The `named` helper of `webtype.rs`: an identifier equal to a fixed
name. -/

def named (name : String) (value : WebType) : P WebType :=
  pbind identifier fun sv =>
  if sv = name then ppure value else pfail

/-- Type parser `parse_pointer` of `webtype.rs`. -/

def parse_pointer (pt : P WebType) : P WebType :=
  pbind (pascal_token .Caret) fun _ =>
  pmap WebType.Pointer pt

/-- Type parser `parse_unary_range_bound` of `webtype.rs`. -/

def parse_unary_range_bound : P RangeBound :=
  pbind (palt (pascal_token .Plus) (pascal_token .Minus)) fun op =>
  pmap (fun s => RangeBound.UnarySymbolic op s) identifier

/-- Type parser `parse_binary_range_bound` of `webtype.rs`. -/

def parse_binary_range_bound : P RangeBound :=
  pbind identifier fun s =>
  pbind (palt (pascal_token .Plus) (pascal_token .Minus)) fun op =>
  pmap (fun t => RangeBound.Symbolic2 s op t) int_literal

/-- Type parser `parse_range_bound` of `webtype.rs`. -/

def parse_range_bound : P RangeBound :=
  paltList [pmap RangeBound.Literal int_literal,
    pmap RangeBound.Literal merged_string_literals,
    parse_binary_range_bound,
    pmap RangeBound.Symbolic1 identifier,
    parse_unary_range_bound]

/-- Type parser `parse_range` of `webtype.rs`. -/

def parse_range : P WebType :=
  pbind parse_range_bound fun lo =>
  pbind (pascal_token .DoubleDot) fun _ =>
  pmap (fun hi => WebType.Range lo hi) parse_range_bound

/-- Type parser `parse_packed_file_of` of `webtype.rs`. -/

def parse_packed_file_of : P WebType :=
  pbind (reserved_word .Packed) fun _ =>
  pbind (reserved_word .File) fun _ =>
  pbind (reserved_word .Of) fun _ =>
  pmap WebType.PackedFileOf identifier

/-- Type parser `parse_array` of `webtype.rs`. -/

def parse_array (pt : P WebType) : P WebType :=
  pbind (popt (reserved_word .Packed)) fun pk =>
  pbind (reserved_word .Array) fun _ =>
  pbind (pascal_token (.OpenDelimiter .SquareBracket)) fun _ =>
  pbind (sepList0 (pascal_token .Comma) pt) fun axes =>
  pbind (pascal_token (.CloseDelimiter .SquareBracket)) fun _ =>
  pbind (reserved_word .Of) fun _ =>
  pmap (fun el => WebType.Array pk.isSome axes el) pt

/-- Record-field parser `parse_record_field` of `webtype.rs`. -/

def parse_record_field (pt : P WebType) : P WebRecordField :=
  pbind (sepList1 (pascal_token .Comma) identifier_as_token) fun names =>
  pbind (pascal_token .Colon) fun _ =>
  pbind pt fun ty =>
  pbind (pascal_token .Semicolon) fun _ =>
  pbind (popt comment) fun c =>
  ppure (WebRecordField.mk names ty c)

/-- Type parser `parse_record` of `webtype.rs`. -/

def parse_record (pt : P WebType) : P WebType :=
  pbind (popt (reserved_word .Packed)) fun pk =>
  pbind (reserved_word .Record) fun _ =>
  pbind (many1P (parse_record_field pt)) fun fields =>
  pbind (reserved_word .End) fun _ =>
  ppure (WebType.Record pk.isSome fields)

/-- The type parser `parse_type` of `webtype.rs`, alternatives in source
order; fuel as for `parse_expr`. -/

def parse_type : Nat → P WebType
  | 0 => pfail
  | f + 1 =>
    paltList [named ("integer") .Integer,
      named ("real") .Real,
      named ("boolean") .Boolean,
      parse_pointer (parse_type f),
      parse_packed_file_of,
      parse_record (parse_type f),
      parse_array (parse_type f),
      parse_range,
      pmap WebType.UserDefined identifier]

/-! ## Toplevel productions (`src/weblang.rs`)

Declaration payload structs.  Those marked "modelled" belong to repository
modules that are not in the available sources and are modelled from the spec
(section 4.4); the shape chosen is the coarsest one consistent with the
spec's description, and no claim below depends on their internals. -/

/-- Payload of a `@d` definition.  Modelled from the spec: `weblang/define.rs`
is missing; a macro definition's tail is a toplevel of its own and runs to the
end of the fragment, so the body is kept as its raw tokens. -/

structure WebDefine where
  body : List WebToken

/-- Payload of a `@f` format definition.  Modelled from the spec:
`weblang/format.rs` is missing. -/

structure WebFormat where
  body : List WebToken

/-- Payload of a program definition.  Modelled from the spec:
`weblang/program_definition.rs` is missing. -/

structure WebProgramDefinition where
  body : List WebToken

/-- Payload of a standalone token.  Modelled from the spec and the enum doc in
`weblang.rs` ("a single Pascal token, with optional comment");
`weblang/standalone.rs` is missing. -/

structure WebStandalone where
  token : PascalToken
  comment : Option (List TypesetComment)

/-- Payload of a label declaration (`WebLabelDeclaration` in
`label_declaration.rs`). -/

structure WebLabelDeclaration where
  name : String
  comment : Option (List TypesetComment)

/-- Payload of a modulified declaration (`WebModulifiedDeclaration` in
`modulified_declaration.rs`). -/

structure WebModulifiedDeclaration where
  kind : PascalReservedWord
  module_ : String

/-- Payload of a function definition.  Modelled from the spec:
`weblang/function_definition.rs` is missing; the body is kept coarse. -/

structure WebFunctionDefinition where
  kind : PascalToken
  name : String
  body : List WebToken

/-- Payload of a constant declaration (`WebConstantDeclaration` in
`const_declaration.rs`). -/

structure WebConstantDeclaration where
  name : String
  value : PascalToken
  comment : Option (List TypesetComment)

/-- Payload of a variable declaration.  Modelled from the spec:
`weblang/var_declaration.rs` is missing; a variable declaration is a
comma-separated name list, a colon, a type and a semicolon. -/

structure WebVarDeclaration where
  names : List String
  ty : WebType
  comment : Option (List TypesetComment)

/-- Payload of a type declaration.  Modelled from the spec:
`weblang/type_declaration.rs` is missing. -/

structure WebTypeDeclaration where
  name : String
  ty : WebType
  comment : Option (List TypesetComment)

/-- Payload of a forward declaration.  Modelled from the spec:
`weblang/forward_declaration.rs` is missing; `procedure`/`function`, a name, a
semicolon, the `forward` word and an optional semicolon. -/

structure WebForwardDeclaration where
  kind : PascalToken
  name : String

/-- One term of a special list literal (`SpecialListLiteralTerm` in
`weblang.rs`). -/

inductive SpecialListLiteralTerm where
  | Single (t : PascalToken)
  | Range (t1 : PascalToken) (t2 : PascalToken)
  | Unary (t1 : PascalToken) (t2 : PascalToken)

/-- A toplevel WEB production (`WebToplevel` in `weblang.rs`). -/

inductive WebToplevel where
  | Define (d : WebDefine)
  | Format (f : WebFormat)
  | Standalone (s : WebStandalone)
  | ProgramDefinition (pd : WebProgramDefinition)
  | LabelDeclaration (ld : WebLabelDeclaration)
  | ModulifiedDeclaration (md : WebModulifiedDeclaration)
  | FunctionDefinition (fd : WebFunctionDefinition)
  | ConstDeclaration (cd : WebConstantDeclaration)
  | VarDeclaration (vd : WebVarDeclaration)
  | TypeDeclaration (td : WebTypeDeclaration)
  | ForwardDeclaration (fd : WebForwardDeclaration)
  | Statement (stmt : WebStatement) (comment : Option (List TypesetComment))
  | Empty
  | SpecialParenTwoIdent (id1 : String) (id2 : String)
  | SpecialEmptyBrackets
  | SpecialRelationalExpr (op : PascalToken) (e : WebExpr)
  | SpecialRange (e1 : WebExpr) (e2 : WebExpr)
  | SpecialIfdefFunction (beg : PascalToken) (fd : WebFunctionDefinition)
      (end_ : PascalToken)
  | SpecialIfdefForward (beg : PascalToken) (fd : WebForwardDeclaration)
      (end_ : PascalToken)
  | SpecialIfdefVarDeclaration (c1 : Option (List TypesetComment))
      (beg : PascalToken) (vds : List WebVarDeclaration)
      (end_ : PascalToken) (c2 : Option (List TypesetComment))
  | SpecialCommentedOut (stmt : WebStatement)
  | SpecialListLiteral (is_square : Bool) (terms : List SpecialListLiteralTerm)
  | SpecialIdentInListLiteral (id : String) (terms : List SpecialListLiteralTerm)
  | SpecialListLiteralAssignment (lhs : List SpecialListLiteralTerm)
      (rhs : List SpecialListLiteralTerm)
  | SpecialInlineDefine (lhs : WebExpr) (rhs : WebExpr)
  | SpecialCommaExprs (exprs : List WebExpr) (trailing_comma : Bool)
  | SpecialArrayMacro (e1 : WebExpr) (e2 : WebExpr) (id : String)
  | SpecialFloatEquality (id : String) (frac : PascalToken)
  | SpecialCoeffArray (name : String) (coeff : PascalToken) (base : PascalToken)
  | SpecialImbalancedEnd
  | SpecialExprPeriod (e : WebExpr)

/-- Helper of the modelled missing parsers: swallow the rest of the fragment
as a coarse body. -/

def swallowRest : P (List WebToken) :=
  fun i => some ([], i)

/-- Parser accepting `procedure` or `function`.  Modelled from the spec, for
the missing function/forward declaration modules. -/

def proc_or_func : P PascalToken :=
  tokGate fun wt =>
    match wt with
    | .Pascal (.ReservedWord .Procedure) => some (PascalToken.ReservedWord .Procedure)
    | .Pascal (.ReservedWord .Function) => some (PascalToken.ReservedWord .Function)
    | _ => none

/-- Macro definition.  Modelled from the spec (section 4.4 "macro-define"):
`weblang/define.rs` is missing; gated on the `@d` marker, the tail (a toplevel
of its own) kept coarse. -/

def parse_define : P WebToplevel :=
  pbind (pascal_token .DefineMarker) fun _ =>
  pmap (fun body => WebToplevel.Define ⟨body⟩) swallowRest

/-- Format definition.  Modelled from the spec (section 4.4 "format-define"):
`weblang/format.rs` is missing; gated on the `@f` marker. -/

def parse_format : P WebToplevel :=
  pbind (pascal_token .FormatMarker) fun _ =>
  pmap (fun body => WebToplevel.Format ⟨body⟩) swallowRest

/-- Program definition.  Modelled from the spec (section 4.4
"program-definition"): `weblang/program_definition.rs` is missing; gated on
the `program` reserved word. -/

def parse_program_definition : P WebToplevel :=
  pbind (reserved_word .Program) fun _ =>
  pmap (fun body => WebToplevel.ProgramDefinition ⟨body⟩) swallowRest

/-- Label declaration parser (`parse_label_declaration` in
`label_declaration.rs`). -/

def parse_label_declaration : P WebToplevel :=
  pbind (reserved_word .Label) fun _ =>
  pbind identifier fun name =>
  pbind (pascal_token .Semicolon) fun _ =>
  pbind (popt comment) fun c =>
  ppure (WebToplevel.LabelDeclaration ⟨name, c⟩)

/-- Declaration keyword gate of `parse_modulified_declaration`
(`modulified_declaration.rs`): `const`, `type` or `var`. -/

def declaration_keyword : P PascalReservedWord :=
  tokGate fun wt =>
    match wt with
    | .Pascal (.ReservedWord .Const) => some PascalReservedWord.Const
    | .Pascal (.ReservedWord .Type) => some PascalReservedWord.Type
    | .Pascal (.ReservedWord .Var) => some PascalReservedWord.Var
    | _ => none

/-- Modulified declaration parser (`parse_modulified_declaration` in
`modulified_declaration.rs`): a declaration keyword followed by a module
reference. -/

def parse_modulified_declaration : P WebToplevel :=
  pbind declaration_keyword fun kind =>
  pmap (fun m => WebToplevel.ModulifiedDeclaration ⟨kind, m⟩) module_reference

/-- Forward declaration base.  Modelled from the spec (section 4.4
"forward-decl"): `weblang/forward_declaration.rs` is missing. -/

def parse_forward_declaration_base : P WebForwardDeclaration :=
  pbind proc_or_func fun kind =>
  pbind identifier fun name =>
  pbind (pascal_token .Semicolon) fun _ =>
  pbind (reserved_word .Forward) fun _ =>
  pbind (popt (pascal_token .Semicolon)) fun _ =>
  ppure (WebForwardDeclaration.mk kind name)

/-- Forward declaration toplevel.  Modelled from the spec:
`weblang/forward_declaration.rs` is missing. -/

def parse_forward_declaration : P WebToplevel :=
  pmap WebToplevel.ForwardDeclaration parse_forward_declaration_base

/-- Function definition base.  Modelled from the spec (section 4.4
"function-def"): `weblang/function_definition.rs` is missing; gated on
`procedure`/`function` and a name, body kept coarse. -/

def parse_function_definition_base : P WebFunctionDefinition :=
  pbind proc_or_func fun kind =>
  pbind identifier fun name =>
  pmap (fun body => WebFunctionDefinition.mk kind name body) swallowRest

/-- Function definition toplevel.  Modelled from the spec:
`weblang/function_definition.rs` is missing. -/

def parse_function_definition : P WebToplevel :=
  pmap WebToplevel.FunctionDefinition parse_function_definition_base

/-- Constant declaration parser (`parse_constant_declaration` in
`const_declaration.rs`): an identifier, `=`, an integer literal, `;` and an
optional comment — with no `const` keyword, which at toplevel belongs to the
modulified-declaration production instead. -/

def parse_constant_declaration : P WebToplevel :=
  pbind identifier fun name =>
  pbind (pascal_token .Equals) fun _ =>
  pbind int_literal fun value =>
  pbind (pascal_token .Semicolon) fun _ =>
  pbind (popt comment) fun c =>
  ppure (WebToplevel.ConstDeclaration ⟨name, value, c⟩)

/-- Variable declaration base.  Modelled from the spec (section 2
"Declaration grammars"): `weblang/var_declaration.rs` is missing; a
comma-separated name list, a colon, a type, a semicolon and an optional
comment. -/

def parse_var_declaration_base (f : Nat) : P WebVarDeclaration :=
  pbind (sepList1 (pascal_token .Comma) identifier) fun names =>
  pbind (pascal_token .Colon) fun _ =>
  pbind (parse_type f) fun ty =>
  pbind (pascal_token .Semicolon) fun _ =>
  pbind (popt comment) fun c =>
  ppure (WebVarDeclaration.mk names ty c)

/-- Variable declaration toplevel.  Modelled from the spec:
`weblang/var_declaration.rs` is missing. -/

def parse_var_declaration (f : Nat) : P WebToplevel :=
  pmap WebToplevel.VarDeclaration (parse_var_declaration_base f)

/-- Type declaration.  Modelled from the spec (section 2 "Declaration
grammars"): `weblang/type_declaration.rs` is missing; a name, `=`, a type and
a semicolon. -/

def parse_type_declaration (f : Nat) : P WebToplevel :=
  pbind identifier fun name =>
  pbind (pascal_token .Equals) fun _ =>
  pbind (parse_type f) fun ty =>
  pbind (pascal_token .Semicolon) fun _ =>
  pbind (popt comment) fun c =>
  ppure (WebToplevel.TypeDeclaration ⟨name, ty, c⟩)

/-- Statement toplevel (`parse_statement` in `statement.rs`). -/

def parse_statement (f : Nat) : P WebToplevel :=
  pbind (parse_statement_base f) fun s =>
  pbind (popt comment) fun c =>
  ppure (WebToplevel.Statement s c)

/-- Standalone token toplevel.  Modelled from the spec (section 4.4, the
"generic single-token standalone fallback"): `weblang/standalone.rs` is
missing; a single Pascal token with an optional comment. -/

def parse_standalone : P WebToplevel :=
  pbind (tokGate fun wt =>
    match wt with
    | .Pascal t => some t
    | _ => none) fun t =>
  pbind (popt comment) fun c =>
  ppure (WebToplevel.Standalone ⟨t, c⟩)

/-- Relational operator gate (`relational_ident_op` in `weblang.rs`). -/

def relational_ident_op : P PascalToken :=
  tokGate fun wt =>
    match wt with
    | .Pascal .Greater => some PascalToken.Greater
    | .Pascal .GreaterEquals => some PascalToken.GreaterEquals
    | .Pascal .Less => some PascalToken.Less
    | .Pascal .LessEquals => some PascalToken.LessEquals
    | .Pascal .Equals => some PascalToken.Equals
    | .Pascal .NotEquals => some PascalToken.NotEquals
    | _ => none

/-- Special form `parse_special_paren_two_ident` of `weblang.rs`. -/

def parse_special_paren_two_ident : P WebToplevel :=
  pbind (open_delimiter .Paren) fun _ =>
  pbind identifier fun id1 =>
  pbind identifier fun id2 =>
  pbind (close_delimiter .Paren) fun _ =>
  ppure (WebToplevel.SpecialParenTwoIdent id1 id2)

/-- Special form `parse_special_empty_brackets` of `weblang.rs`. -/

def parse_special_empty_brackets : P WebToplevel :=
  pbind (open_delimiter .SquareBracket) fun _ =>
  pbind (close_delimiter .SquareBracket) fun _ =>
  ppure WebToplevel.SpecialEmptyBrackets

/-- Special form `parse_special_relational_expr` of `weblang.rs`. -/

def parse_special_relational_expr (f : Nat) : P WebToplevel :=
  pbind relational_ident_op fun op =>
  pmap (fun e => WebToplevel.SpecialRelationalExpr op e) (parse_expr f)

/-- Special form `parse_special_range` of `weblang.rs`. -/

def parse_special_range (f : Nat) : P WebToplevel :=
  pbind (parse_expr f) fun e1 =>
  pbind (pascal_token .DoubleDot) fun _ =>
  pmap (fun e2 => WebToplevel.SpecialRange e1 e2) (parse_expr f)

/-- Special form `parse_special_ifdef_function` of `weblang.rs`. -/

def parse_special_ifdef_function : P WebToplevel :=
  pbind (formatted_identifier_like .Begin) fun beg =>
  pbind parse_function_definition_base fun fd =>
  pmap (fun en => WebToplevel.SpecialIfdefFunction beg fd en)
    (formatted_identifier_like .End)

/-- Special form `parse_special_ifdef_forward` of `weblang.rs`. -/

def parse_special_ifdef_forward : P WebToplevel :=
  pbind (formatted_identifier_like .Begin) fun beg =>
  pbind parse_forward_declaration_base fun fd =>
  pmap (fun en => WebToplevel.SpecialIfdefForward beg fd en)
    (formatted_identifier_like .End)

/-- Special form `parse_special_ifdef_var_decl` of `weblang.rs`. -/

def parse_special_ifdef_var_decl (f : Nat) : P WebToplevel :=
  pbind (popt comment) fun c1 =>
  pbind (formatted_identifier_like .Begin) fun beg =>
  pbind (many1P (parse_var_declaration_base f)) fun vds =>
  pbind (formatted_identifier_like .End) fun en =>
  pbind (popt comment) fun c2 =>
  ppure (WebToplevel.SpecialIfdefVarDeclaration c1 beg vds en c2)

/-- Special form `parse_special_commented_out` of `weblang.rs`. -/

def parse_special_commented_out (f : Nat) : P WebToplevel :=
  pbind (pascal_token (.OpenDelimiter .MetaComment)) fun _ =>
  pbind (parse_statement_base f) fun stmt =>
  pbind (pascal_token (.CloseDelimiter .MetaComment)) fun _ =>
  ppure (WebToplevel.SpecialCommentedOut stmt)

/-- List-literal term parser `int_list_term` of `weblang.rs`. -/

def int_list_term : P SpecialListLiteralTerm :=
  paltList [
    pbind int_literal fun t1 =>
      pbind (pascal_token .DoubleDot) fun _ =>
      pmap (fun t2 => SpecialListLiteralTerm.Range t1 t2) int_literal,
    pmap SpecialListLiteralTerm.Single (palt int_literal identifier_as_token),
    pbind (pascal_token .Minus) fun t1 =>
      pmap (fun t2 => SpecialListLiteralTerm.Unary t1 t2) identifier_as_token]

/-- Special form `parse_special_list_assignment` of `weblang.rs`. -/

def parse_special_list_assignment : P WebToplevel :=
  pbind (pascal_token (.OpenDelimiter .Paren)) fun _ =>
  pbind (sepList1 (pascal_token .Comma) int_list_term) fun lhs =>
  pbind (pascal_token (.CloseDelimiter .Paren)) fun _ =>
  pbind (pascal_token .Gets) fun _ =>
  pbind (pascal_token (.OpenDelimiter .Paren)) fun _ =>
  pbind (sepList1 (pascal_token .Comma) int_list_term) fun rhs =>
  pbind (pascal_token (.CloseDelimiter .Paren)) fun _ =>
  ppure (WebToplevel.SpecialListLiteralAssignment lhs rhs)

/-- Special form `parse_special_int_list` of `weblang.rs`. -/

def parse_special_int_list : P WebToplevel :=
  palt
    (pbind (pascal_token (.OpenDelimiter .SquareBracket)) fun _ =>
      pbind (sepList1 (pascal_token .Comma) int_list_term) fun terms =>
      pbind (pascal_token (.CloseDelimiter .SquareBracket)) fun _ =>
      ppure (WebToplevel.SpecialListLiteral true terms))
    (pbind (pascal_token (.OpenDelimiter .Paren)) fun _ =>
      pbind (sepList1 (pascal_token .Comma) int_list_term) fun terms =>
      pbind (pascal_token (.CloseDelimiter .Paren)) fun _ =>
      ppure (WebToplevel.SpecialListLiteral false terms))

/-- Special form `parse_special_ident_in_int_list` of `weblang.rs`. -/

def parse_special_ident_in_int_list : P WebToplevel :=
  pbind identifier fun id =>
  pbind (reserved_word .In) fun _ =>
  pbind (pascal_token (.OpenDelimiter .SquareBracket)) fun _ =>
  pbind (sepList1 (pascal_token .Comma) int_list_term) fun terms =>
  pbind (pascal_token (.CloseDelimiter .SquareBracket)) fun _ =>
  ppure (WebToplevel.SpecialIdentInListLiteral id terms)

/-- Special form `parse_special_inline_define` of `weblang.rs`. -/

def parse_special_inline_define (f : Nat) : P WebToplevel :=
  pbind (parse_expr f) fun lhs =>
  pbind (pascal_token .Equivalence) fun _ =>
  pmap (fun rhs => WebToplevel.SpecialInlineDefine lhs rhs) (parse_expr f)

/-- Special form `parse_special_comma_exprs` of `weblang.rs`: a
comma-separated expression list, an optional trailing comma, a peek at the
end of the fragment; single expressions without trailing comma are rejected
so that they stay expression statements. -/

def parse_special_comma_exprs (f : Nat) : P WebToplevel :=
  fun i =>
    match (pbind (sepList1 (pascal_token .Comma) (parse_expr f)) fun exprs =>
        pbind (popt (pascal_token .Comma)) fun tc =>
        pbind peek_end_of_define fun _ =>
        ppure (exprs, tc)) i with
    | some (i', (exprs, tc)) =>
      if exprs.length < 2 && !tc.isSome then none
      else some (i', WebToplevel.SpecialCommaExprs exprs tc.isSome)
    | none => none

/-- Special form `parse_special_array_macro` of `weblang.rs`. -/

def parse_special_array_macro (f : Nat) : P WebToplevel :=
  pbind (pascal_token (.OpenDelimiter .SquareBracket)) fun _ =>
  pbind (parse_expr f) fun e1 =>
  pbind (pascal_token .DoubleDot) fun _ =>
  pbind (parse_expr f) fun e2 =>
  pbind (pascal_token (.CloseDelimiter .SquareBracket)) fun _ =>
  pmap (fun id => WebToplevel.SpecialArrayMacro e1 e2 id) identifier

/-- Special form `parse_special_float_equality` of `weblang.rs`. -/

def parse_special_float_equality : P WebToplevel :=
  pbind identifier fun id =>
  pbind (pascal_token .Equals) fun _ =>
  pbind (pascal_token .Period) fun _ =>
  pmap (fun frac => WebToplevel.SpecialFloatEquality id frac) int_literal

/-- Special form `parse_special_coeff_array` of `weblang.rs`. -/

def parse_special_coeff_array : P WebToplevel :=
  pbind identifier fun name =>
  pbind (pascal_token (.OpenDelimiter .SquareBracket)) fun _ =>
  pbind int_literal fun coeff =>
  pbind identifier_as_token fun base =>
  pbind (pascal_token (.CloseDelimiter .SquareBracket)) fun _ =>
  ppure (WebToplevel.SpecialCoeffArray name coeff base)

/-- Special form `parse_special_imbalanced_end` of `weblang.rs`. -/

def parse_special_imbalanced_end : P WebToplevel :=
  pbind (reserved_word .End) fun _ =>
  pbind (pascal_token .Semicolon) fun _ =>
  pbind peek_end_of_define fun _ =>
  ppure WebToplevel.SpecialImbalancedEnd

/-- Special form `parse_special_expr_period` of `weblang.rs`. -/

def parse_special_expr_period (f : Nat) : P WebToplevel :=
  pbind (parse_expr f) fun e =>
  pbind (pascal_token .Period) fun _ =>
  pbind peek_end_of_define fun _ =>
  ppure (WebToplevel.SpecialExprPeriod e)

/-- Ignored-token predicate `is_ignored_token` of `weblang.rs`. -/

def is_ignored_token : WebToken → Bool
  | .Pascal .Formatting => true
  | .Pascal .ForcedEol => true
  | .Pascal (.TexString _) => true
  | _ => false

/-- The toplevel dispatcher `parse_toplevel` of `weblang.rs`: skip ignored
tokens, then try the alternatives in source order (the nested `alt` of the 18
special forms mirrors the nested `alt` call of the Rust). -/

def parse_toplevel (f : Nat) : P WebToplevel :=
  pbind (take_while is_ignored_token) fun _ =>
  paltList [parse_define,
    parse_format,
    parse_program_definition,
    parse_label_declaration,
    parse_modulified_declaration,
    parse_forward_declaration,
    parse_function_definition,
    parse_constant_declaration,
    parse_var_declaration f,
    parse_type_declaration f,
    paltList [parse_special_ifdef_forward,
      parse_special_ifdef_function,
      parse_special_ifdef_var_decl f,
      parse_special_paren_two_ident,
      parse_special_empty_brackets,
      parse_special_relational_expr f,
      parse_special_range f,
      parse_special_commented_out f,
      parse_special_array_macro f,
      parse_special_list_assignment,
      parse_special_int_list,
      parse_special_ident_in_int_list,
      parse_special_inline_define f,
      parse_special_comma_exprs f,
      parse_special_float_equality,
      parse_special_coeff_array,
      parse_special_imbalanced_end,
      parse_special_expr_period f],
    parse_statement f,
    parse_standalone]

/-- A block of WEB code (`WebCode` in `weblang.rs`). -/

structure WebCode where
  toplevels : List WebToplevel

/-- The entry point `WebCode::parse` of `weblang.rs`: zero tokens parse to a
single `Empty` toplevel; otherwise one-or-more toplevels must consume the
whole input, any remainder or failure producing no tree at all. -/

def WebCode.parse (toks : List WebToken) : Option WebCode :=
  if toks.length = 0 then
    some ⟨[WebToplevel.Empty]⟩
  else
    match many1P (parse_toplevel (toks.length + 1)) toks with
    | some (remainder, value) =>
      if remainder.length > 0 then none else some ⟨value⟩
    | none => none

/-! ## The layout engine (`src/prettify.rs`)

Style scopes are modelled as their names (the Rust wraps syntect `Scope`
values, built from these same strings).  `usize` subtraction that the Rust
performs with `saturating_sub` is embedded as a clamped `Int` subtraction;
the plain subtractions (`full_width - indent`, which would panic on
underflow) are embedded as `Int` subtraction, so that the non-negativity
claims are meaningful statements rather than artifacts of `Nat`. -/

/-- Style scope, modelled as its name string. -/

abbrev Scope := String

/-- Scope-stack operation recorded into the ops list (syntect
`ScopeStackOp`, restricted to the two shapes the prettifier emits). -/

inductive ScopeStackOp where
  | push (s : Scope)
  | pop (n : Nat)
  deriving DecidableEq, Repr

/-- TeX insert markers (`TexInsert` in `prettify.rs`); `ModuleId` is
embedded as `Nat`. -/

inductive TexInsert where
  | StartModuleReference (id : Nat)
  | EndMacro
  | XetexArrayMacroHackMarker
  | XetexArrayMacroHackBracket
  deriving DecidableEq, Repr

/-- The configured full width (`WIDTH` in `prettify.rs`). -/

def WIDTH : Int := 60

/-- Clamped subtraction, mirroring `usize::saturating_sub` on the `Int`
embedding. -/

def satSub (x y : Int) : Int :=
  max (x - y) 0

def KEYWORD_SCOPE : Scope := "keyword.control.c"

def COMMENT_SCOPE : Scope := "comment.line.c"

def STRING_LITERAL_SCOPE : Scope := "string.quoted.double"

def DECIMAL_LITERAL_SCOPE : Scope := "constant.numeric.integer.decimal"

/-- The render context (`Prettifier` in `prettify.rs`).  The text buffer is a
character list; its length is the byte offset for the inputs considered here
(ASCII). -/

structure Prettifier where
  full_width : Int
  indent : Int
  remaining_width : Int
  newline_needed : Bool
  text : List Char
  ops : List (Nat × ScopeStackOp)
  inserts : List (Nat × TexInsert)
  deriving Repr

/-- Constructor `Prettifier::new`. -/

def Prettifier.new : Prettifier :=
  { full_width := WIDTH
    indent := 0
    remaining_width := WIDTH
    newline_needed := false
    text := []
    ops := []
    inserts := [] }

/-- Width test `Prettifier::fits`: against the width remaining on a fresh
line when a newline is pending, else against the current remaining width. -/

def Prettifier.fits (p : Prettifier) (w : Nat) : Bool :=
  let eff := if p.newline_needed then p.full_width - p.indent else p.remaining_width
  decide ((w : Int) ≤ eff)

/-- Width test `Prettifier::would_fit_on_new_line`. -/

def Prettifier.would_fit_on_new_line (p : Prettifier) (w : Nat) : Bool :=
  decide ((w : Int) ≤ p.full_width - p.indent)

/-- Indent step `Prettifier::indent_block`: returns whether it took effect,
plus the updated state. -/

def Prettifier.indent_block (p : Prettifier) : Bool × Prettifier :=
  if p.full_width - p.indent > 4 then
    (true, { p with indent := p.indent + 4 })
  else
    (false, p)

/-- Dedent step `Prettifier::dedent_block`. -/

def Prettifier.dedent_block (p : Prettifier) : Bool × Prettifier :=
  if p.indent > 3 then
    (true, { p with indent := p.indent - 4 })
  else
    (false, p)

/-- Indent step `Prettifier::indent_small`. -/

def Prettifier.indent_small (p : Prettifier) : Bool × Prettifier :=
  if p.full_width - p.indent > 2 then
    (true, { p with indent := p.indent + 2 })
  else
    (false, p)

/-- Dedent step `Prettifier::dedent_small`. -/

def Prettifier.dedent_small (p : Prettifier) : Bool × Prettifier :=
  if p.indent > 1 then
    (true, { p with indent := p.indent - 2 })
  else
    (false, p)

/-- Immediate newline plus indentation (`Prettifier::newline_indent`). -/

def Prettifier.newline_indent (p : Prettifier) : Prettifier :=
  { p with
    text := p.text ++ '\n' :: List.replicate p.indent.toNat ' '
    newline_needed := false
    remaining_width := p.full_width - p.indent }

/-- Deferred-newline request (the Rust method `Prettifier::newline_needed`;
renamed with a `_set` suffix because the field carries the Rust name). -/

def Prettifier.newline_needed_set (p : Prettifier) : Prettifier :=
  { p with newline_needed := true }

/-- Lazy newline resolution (`Prettifier::maybe_newline`). -/

def Prettifier.maybe_newline (p : Prettifier) : Prettifier :=
  if p.newline_needed then p.newline_indent else p

/-- Scoped append `Prettifier::scope_push`. -/

def Prettifier.scope_push (p : Prettifier) (scope : Scope) (s : List Char) :
    Prettifier :=
  let p1 := p.maybe_newline
  let n0 := p1.text.length
  let p2 := { p1 with
    ops := p1.ops ++ [(n0, ScopeStackOp.push scope)]
    text := p1.text ++ s }
  let n1 := p2.text.length
  { p2 with
    ops := p2.ops ++ [(n1, ScopeStackOp.pop 1)]
    remaining_width := satSub p2.remaining_width ((n1 - n0 : Nat) : Int) }

/-- Scoped block `Prettifier::with_scope`. -/

def Prettifier.with_scope (p : Prettifier) (scope : Scope)
    (func : Prettifier → Prettifier) : Prettifier :=
  let n0 := p.text.length
  let p1 := { p with ops := p.ops ++ [(n0, ScopeStackOp.push scope)] }
  let p2 := func p1
  let n1 := p2.text.length
  { p2 with ops := p2.ops ++ [(n1, ScopeStackOp.pop 1)] }

/-- Keyword append `Prettifier::keyword`. -/

def Prettifier.keyword (p : Prettifier) (s : List Char) : Prettifier :=
  p.scope_push KEYWORD_SCOPE s

/-- Unscoped append `Prettifier::noscope_push`. -/

def Prettifier.noscope_push (p : Prettifier) (s : List Char) : Prettifier :=
  let p1 := p.maybe_newline
  { p1 with
    text := p1.text ++ s
    remaining_width := satSub p1.remaining_width ((s.length : Nat) : Int) }

/-- Single space append `Prettifier::space`. -/

def Prettifier.space (p : Prettifier) : Prettifier :=
  { p with
    text := p.text ++ [' ']
    remaining_width := satSub p.remaining_width 1 }

/-- Separator between toplevels `Prettifier::toplevel_separator`. -/

def Prettifier.toplevel_separator (p : Prettifier) : Prettifier :=
  ({ p with text := p.text ++ ['\n'] }).newline_indent

/-- TeX insert recording `Prettifier::insert`. -/

def Prettifier.insert (p : Prettifier) (ins : TexInsert) (text_next : Bool) :
    Prettifier :=
  let p1 := if text_next then p.maybe_newline else p
  { p1 with inserts := p1.inserts ++ [(p1.text.length, ins)] }

/-- Sentinel width for never-inline items (`NOT_INLINE` in `prettify.rs`). -/

def NOT_INLINE : Nat := 9999

/-- Sequence measurement `measure_inline_seq` of `prettify.rs`, over the
already-measured item widths: a separator of `sep_width` is charged before
every item that starts at nonzero accumulated width. -/

def measure_inline_seq (ws : List Nat) (sep_width : Nat) : Nat :=
  ws.foldl (fun n w => (if n ≠ 0 then n + sep_width else n) + w) 0

/-- Sequence rendering `render_inline_seq` of `prettify.rs`, over the
item renderers: the separator is pushed before every item but the first. -/

def render_inline_seq (items : List (Prettifier → Prettifier)) (sep : List Char)
    (dest : Prettifier) : Prettifier :=
  (items.foldl (fun (st : Bool × Prettifier) item =>
    let d := if st.1 then st.2 else st.2.noscope_push sep
    (false, item d)) (true, dest)).2

/-! ## Inline measurement and rendering

`RenderInline` is a two-method trait in the Rust; here each implementing type
gets a `measure_inline` and a `render_inline` function of the same names. -/

/-- Surface text of a reserved word.  Modelled from the spec: the token
rendering lives in the missing `weblang/base.rs`. -/

def reservedWordText : PascalReservedWord → String
  | .And => "and" | .Array => "array" | .Begin => "begin" | .Case => "case"
  | .Const => "const" | .Div => "div" | .Do => "do" | .Else => "else"
  | .End => "end" | .File => "file" | .For => "for" | .Forward => "forward"
  | .Function => "function" | .Goto => "goto" | .If => "if" | .In => "in"
  | .Label => "label" | .Mod => "mod" | .Nil => "nil" | .Not => "not"
  | .Of => "of" | .Or => "or" | .Packed => "packed"
  | .Procedure => "procedure" | .Program => "program" | .Record => "record"
  | .Then => "then" | .To => "to" | .Type => "type" | .Var => "var"
  | .While => "while" | .Xclause => "loop"

/-- Surface text of a Pascal token.  Modelled from the spec: tokens render
inline as exactly their source spelling (`RenderInline for PascalToken`
lives in the missing `weblang/base.rs`). -/

def pascalTokenText : PascalToken → List Char
  | .Identifier s => s.data
  | .FormattedIdentifier s _ => s.data
  | .ReservedWord rw => (reservedWordText rw).data
  | .IntLiteral n => (Nat.repr n).data
  | .StringLiteral s => s.data
  | .Hash s => s.data
  | .StringPoolChecksum => ("@$").data
  | .Plus => ("+").data
  | .Minus => ("-").data
  | .Times => ("*").data
  | .Divide => ("/").data
  | .Greater => (">").data
  | .GreaterEquals => (">=").data
  | .Less => ("<").data
  | .LessEquals => ("<=").data
  | .Equals => ("=").data
  | .NotEquals => ("<>").data
  | .Semicolon => (";").data
  | .Colon => (":").data
  | .Comma => (",").data
  | .Period => (".").data
  | .DoubleDot => ("..").data
  | .Caret => ("^").data
  | .Gets => (":=").data
  | .Equivalence => ("==").data
  | .OpenDelimiter .Paren => ("(").data
  | .OpenDelimiter .SquareBracket => ("[").data
  | .OpenDelimiter .MetaComment => ("@\x7b").data
  | .CloseDelimiter .Paren => (")").data
  | .CloseDelimiter .SquareBracket => ("]").data
  | .CloseDelimiter .MetaComment => ("@\x7d").data
  | .Formatting => []
  | .ForcedEol => []
  | .TexString s => s.data
  | .DefineMarker => ("@d").data
  | .FormatMarker => ("@f").data
  | .PreprocDirectiveMarker s => s.data

/-- Inline width of a Pascal token.  Modelled from the spec: a token's
inline width is the length of its surface text. -/

def PascalToken.measure_inline (t : PascalToken) : Nat :=
  (pascalTokenText t).length

/-- Inline rendering of a Pascal token.  Modelled from the spec: the token's
surface text is appended, under a literal scope for literals and the keyword
scope for reserved words. -/

def PascalToken.render_inline (t : PascalToken) (dest : Prettifier) : Prettifier :=
  match t with
  | .ReservedWord _ => dest.keyword (pascalTokenText t)
  | .IntLiteral _ => dest.scope_push DECIMAL_LITERAL_SCOPE (pascalTokenText t)
  | .StringLiteral _ => dest.scope_push STRING_LITERAL_SCOPE (pascalTokenText t)
  | _ => dest.noscope_push (pascalTokenText t)

/-- Inline width of a special list-literal term (`RenderInline for
SpecialListLiteralTerm` in `weblang.rs`). -/

def SpecialListLiteralTerm.measure_inline : SpecialListLiteralTerm → Nat
  | .Single t => t.measure_inline
  | .Range t1 t2 => t1.measure_inline + 4 + t2.measure_inline
  | .Unary t1 t2 => t1.measure_inline + t2.measure_inline

/-- Inline rendering of a special list-literal term (`weblang.rs`). -/

def SpecialListLiteralTerm.render_inline (t : SpecialListLiteralTerm)
    (dest : Prettifier) : Prettifier :=
  match t with
  | .Single t => t.render_inline dest
  | .Range t1 t2 =>
    t2.render_inline ((t1.render_inline dest).noscope_push ((" .. ").data))
  | .Unary t1 t2 => t2.render_inline (t1.render_inline dest)

/-- Inline width of a range bound (`RenderInline for RangeBound` in
`webtype.rs`). -/

def RangeBound.measure_inline : RangeBound → Nat
  | .Literal t => t.measure_inline
  | .Symbolic1 s => s.length
  | .Symbolic2 s1 op s2 => s1.length + op.measure_inline + s2.measure_inline + 4
  | .UnarySymbolic op s => op.measure_inline + s.length

/-- Inline rendering of a range bound (`webtype.rs`). -/

def RangeBound.render_inline (b : RangeBound) (dest : Prettifier) : Prettifier :=
  match b with
  | .Literal t => t.render_inline dest
  | .Symbolic1 s => dest.noscope_push s.data
  | .Symbolic2 s1 op s2 =>
    (s2.render_inline ((op.render_inline
      ((dest.noscope_push (("(").data)).noscope_push s1.data).space).space)).noscope_push
      ((")").data)
  | .UnarySymbolic op s => (op.render_inline dest).noscope_push s.data

mutual

/-- Inline width of a WEB type (`RenderInline for WebType` in `webtype.rs`;
the `WebArrayType` measurement is the flattened `Array` case, and the axis
summation specializes `measure_inline_seq` with separator width 2). -/

def WebType.measure_inline : WebType → Nat
  | .Integer => 7
  | .Real => 4
  | .Boolean => 7
  | .Range blo bhi => blo.measure_inline + bhi.measure_inline + 4
  | .PackedFileOf t => 15 + t.length
  | .Array is_packed axes element =>
    (if is_packed then 7 else 0) + 7 +
      measure_inline_seq (WebType.axesMeasures axes) 2 + 5 + element.measure_inline
  | .Record _ _ => NOT_INLINE
  | .Pointer ty => 1 + ty.measure_inline
  | .UserDefined s => s.length

/-- Per-axis inline widths of an array type's axes. -/

def WebType.axesMeasures : List WebType → List Nat
  | [] => []
  | t :: rest => t.measure_inline :: WebType.axesMeasures rest

end

mutual

/-- Inline rendering of a WEB type (`webtype.rs`; the `WebArrayType`
rendering is the flattened `Array` case; the `Record` case appends the
placeholder of the Rust source). -/

def WebType.render_inline : WebType → Prettifier → Prettifier
  | .Integer, dest => dest.noscope_push (("integer").data)
  | .Real, dest => dest.noscope_push (("real").data)
  | .Boolean, dest => dest.noscope_push (("boolean").data)
  | .Range blo bhi, dest =>
    bhi.render_inline ((blo.render_inline dest).noscope_push ((" .. ").data))
  | .PackedFileOf t, dest =>
    (dest.noscope_push (("packed file of ").data)).noscope_push t.data
  | .Array is_packed axes element, dest =>
    let dest := if is_packed then dest.noscope_push (("packed ").data) else dest
    let dest := dest.noscope_push (("array [").data)
    let dest := WebType.renderAxes axes true dest
    let dest := dest.noscope_push (("] of ").data)
    element.render_inline dest
  | .Record _ _, dest => dest.noscope_push (("XXXrecordXXX").data)
  | .Pointer ty, dest => ty.render_inline (dest.noscope_push (("^").data))
  | .UserDefined s, dest => dest.noscope_push s.data

/-- Axis-list rendering of an array type, specializing `render_inline_seq`
with separator `", "`; the flag tracks whether the next item is the first. -/

def WebType.renderAxes : List WebType → Bool → Prettifier → Prettifier
  | [], _, dest => dest
  | t :: rest, first, dest =>
    let dest := if first then dest else dest.noscope_push ((", ").data)
    WebType.renderAxes rest false (t.render_inline dest)

end

/-- Inline width of a WEB expression (`WebExpr::measure_inline` in
`expr.rs`): tokens and binary expressions are measured; every other variant
returns the `999` placeholder of the Rust source (whose `eprintln` logging is
dropped in this pure embedding). -/

def WebExpr.measure_inline : WebExpr → Nat
  | .Token tok => tok.measure_inline
  | .Binary lhs op rhs =>
    lhs.measure_inline + rhs.measure_inline + op.measure_inline + 2
  | _ => 999

/-- Inline rendering of a WEB expression (`WebExpr::render_inline` in
`expr.rs`): tokens and binary expressions render; every other variant falls
into the catch-all arm, which emits nothing. -/

def WebExpr.render_inline : WebExpr → Prettifier → Prettifier
  | .Token tok, dest => tok.render_inline dest
  | .Binary lhs op rhs, dest =>
    rhs.render_inline ((op.render_inline ((lhs.render_inline dest).space)).space)
  | _, dest => dest

/-- Flexible rendering of a WEB expression (`WebExpr::render_flex` in
`expr.rs`): tokens, prefix-unary and binary expressions render; every other
variant falls into the catch-all arm, which emits nothing. -/

def WebExpr.render_flex : WebExpr → Prettifier → Prettifier
  | .Token tok, dest => tok.render_inline dest
  | .PrefixUnary op inner, dest => inner.render_flex (op.render_inline dest)
  | .Binary lhs op rhs, dest =>
    let wl := lhs.measure_inline
    let wr := rhs.measure_inline
    let wo := op.measure_inline
    if dest.fits (wl + wr + wo + 2) then
      rhs.render_inline ((op.render_inline ((lhs.render_inline dest).space)).space)
    else
      let dest := (dest.indent_block).2
      let dest := dest.newline_indent
      let dest := lhs.render_flex dest
      let dest := dest.newline_indent
      let dest := op.render_inline dest
      let dest := dest.space
      let dest := rhs.render_flex dest
      let dest := (dest.dedent_block).2
      dest.newline_needed_set
  | _, dest => dest

/-- Toplevel renderer `tl_prettify::special_paren_two_ident` of `weblang.rs`
(the `WebToplevel::SpecialParenTwoIdent` branch of `WebToplevel::prettify`):
four unscoped pushes with no width check. -/

def tl_prettify.special_paren_two_ident (id1 id2 : String) (dest : Prettifier) :
    Prettifier :=
  (((dest.noscope_push [('(')]).noscope_push id1.data).noscope_push
    id2.data).noscope_push [(')')]

/-! ## Analysis machinery: lines of the output buffer, operation traces -/

/-- Decompose a character buffer into its newline-separated lines (the last,
possibly empty, line included). -/

def linesOf : List Char → List (List Char)
  | [] => [[]]
  | c :: rest =>
    if c = '\n' then [] :: linesOf rest
    else
      match linesOf rest with
      | [] => [[c]]
      | l :: ls => (c :: l) :: ls

/-- One first-order `Prettifier` operation.  `scope_begin`/`scope_end` are
the two bracketing halves of `with_scope`, so that arbitrary `with_scope`
nestings are expressible as traces. -/

inductive RenderOp where
  | indent_block
  | dedent_block
  | indent_small
  | dedent_small
  | newline_indent
  | newline_needed_set
  | toplevel_separator
  | noscope_push (s : List Char)
  | scope_push (scope : Scope) (s : List Char)
  | space
  | insert (ins : TexInsert) (text_next : Bool)
  | scope_begin (scope : Scope)
  | scope_end

/-- Apply one operation to the render context, through the embedded
`Prettifier` methods. -/

def RenderOp.apply (op : RenderOp) (p : Prettifier) : Prettifier :=
  match op with
  | .indent_block => (p.indent_block).2
  | .dedent_block => (p.dedent_block).2
  | .indent_small => (p.indent_small).2
  | .dedent_small => (p.dedent_small).2
  | .newline_indent => p.newline_indent
  | .newline_needed_set => p.newline_needed_set
  | .toplevel_separator => p.toplevel_separator
  | .noscope_push s => p.noscope_push s
  | .scope_push scope s => p.scope_push scope s
  | .space => p.space
  | .insert ins text_next => p.insert ins text_next
  | .scope_begin scope =>
    { p with ops := p.ops ++ [(p.text.length, ScopeStackOp.push scope)] }
  | .scope_end =>
    { p with ops := p.ops ++ [(p.text.length, ScopeStackOp.pop 1)] }

/-- Run a trace of operations. -/

def applyRenderOps (ops : List RenderOp) (p : Prettifier) : Prettifier :=
  ops.foldl (fun q op => op.apply q) p

/-- Guard of one operation at a state: a push is guarded when its span fits
at the decision point and holds no newline; a space when no newline is
pending and a column remains; everything else is always allowed. -/

def guardOK (p : Prettifier) : RenderOp → Bool
  | .noscope_push s => p.fits s.length && s.all (fun c => c ≠ '\n')
  | .scope_push _ s => p.fits s.length && s.all (fun c => c ≠ '\n')
  | .space => !p.newline_needed && p.fits 1
  | _ => true

/-- Check that a whole trace is guarded along its own trajectory. -/

def guardedRun : List RenderOp → Prettifier → Bool
  | [], _ => true
  | op :: rest, p => guardOK p op && guardedRun rest (op.apply p)

/-- One indent/dedent call of the claim about the indent bookkeeping. -/

inductive IndentOp where
  | indent_block
  | dedent_block
  | indent_small
  | dedent_small

/-- Apply one indent/dedent call (discarding the returned flag, as callers
that only adjust indentation do). -/

def IndentOp.apply (op : IndentOp) (p : Prettifier) : Prettifier :=
  match op with
  | .indent_block => (p.indent_block).2
  | .dedent_block => (p.dedent_block).2
  | .indent_small => (p.indent_small).2
  | .dedent_small => (p.dedent_small).2

/-- Run a sequence of indent/dedent calls. -/

def applyIndentOps (ops : List IndentOp) (p : Prettifier) : Prettifier :=
  ops.foldl (fun q op => op.apply q) p

/-- Invariant of a render context reachable through guarded operations: the
width is the configured 60, the indent stays within the page, every closed
line fits, and while no newline is pending the current line length and the
remaining width add up to the full width. -/

def LineInv (p : Prettifier) : Prop :=
  p.full_width = 60 ∧ 0 ≤ p.indent ∧ p.indent ≤ 60 ∧
  ∃ cs c, linesOf p.text = cs ++ [c] ∧ (∀ l ∈ cs, l.length ≤ 60) ∧
    c.length ≤ 60 ∧
    (p.newline_needed = false → (c.length : Int) + p.remaining_width = 60)

/-! ## Measure/render consistency machinery

Lexer wellformedness: every token carries at least one character of source
text, and no newline, so the embedding's wellformedness predicates require
exactly that of the collapsed payload strings. -/

/-- Wellformedness of one token's surface text. -/

def cleanTok (t : PascalToken) : Bool :=
  decide ((pascalTokenText t).length ≠ 0) &&
    (pascalTokenText t).all (fun c => c ≠ '\n')

/-- Wellformedness of one collapsed span string. -/

def cleanStr (s : String) : Bool :=
  decide (s.data.length ≠ 0) && s.data.all (fun c => c ≠ '\n')

/-- Wellformedness of a range bound. -/

def RangeBound.clean : RangeBound → Bool
  | .Literal t => cleanTok t
  | .Symbolic1 s => cleanStr s
  | .Symbolic2 s1 op s2 => cleanStr s1 && cleanTok op && cleanTok s2
  | .UnarySymbolic op s => cleanTok op && cleanStr s

mutual

/-- Wellformedness of a type's embedded texts (record internals exempt: the
inline path never visits them). -/

def WebType.clean : WebType → Bool
  | .Integer => true
  | .Real => true
  | .Boolean => true
  | .Range lo hi => lo.clean && hi.clean
  | .PackedFileOf s => cleanStr s
  | .Array _ axes element => WebType.axesClean axes && element.clean
  | .Record _ _ => true
  | .UserDefined s => cleanStr s
  | .Pointer inner => inner.clean

/-- Wellformedness of an axis list. -/

def WebType.axesClean : List WebType → Bool
  | [] => true
  | t :: rest => t.clean && WebType.axesClean rest

end

/-- Wellformedness of a special list-literal term. -/

def SpecialListLiteralTerm.clean : SpecialListLiteralTerm → Bool
  | .Single t => cleanTok t
  | .Range t1 t2 => cleanTok t1 && cleanTok t2
  | .Unary t1 t2 => cleanTok t1 && cleanTok t2

/-- Wellformedness of an expression's embedded texts (only the variants the
inline path renders are constrained). -/

def WebExpr.clean : WebExpr → Bool
  | .Token t => cleanTok t
  | .Binary lhs op rhs => lhs.clean && cleanTok op && rhs.clean
  | _ => true

/-- The measure/render agreement relation: whenever no newline is pending
and the measured width fits within a remaining width that is itself within
the page, the renderer appends exactly that many newline-free characters,
debits the remaining width by exactly that amount, and touches nothing
else of the bookkeeping. -/

def RendersExactly (meas : Nat) (render : Prettifier → Prettifier) : Prop :=
  ∀ p : Prettifier, p.newline_needed = false → p.remaining_width ≤ 60 →
    (meas : Int) ≤ p.remaining_width →
    ∃ s : List Char, (render p).text = p.text ++ s ∧ s.length = meas ∧
      (∀ ch ∈ s, ch ≠ '\n') ∧
      (render p).remaining_width = p.remaining_width - (meas : Int) ∧
      (render p).newline_needed = p.newline_needed ∧
      (render p).indent = p.indent ∧ (render p).full_width = p.full_width

/-- Tail width of an inline sequence after a positive-width head: each later
item is charged its separator of width 2 plus its own width. -/

def seqTail : List Nat → Nat
  | [] => 0
  | w :: rest => 2 + w + seqTail rest

/-! ## Settling the claims: offset monotonicity of the recorded lists -/

/-- Sortedness plus an offset bound for a recorded `(offset, payload)`
list. -/

def offsetsMono {α : Type} (l : List (Nat × α)) (n : Nat) : Prop :=
  List.Pairwise (fun a b => a.1 ≤ b.1) l ∧ ∀ e ∈ l, e.1 ≤ n

/-- Both recorded lists of a render context are sorted and bounded by the
text length. -/

def RecInv (p : Prettifier) : Prop :=
  offsetsMono p.ops p.text.length ∧ offsetsMono p.inserts p.text.length

theorem Consuming.nonIncreasing {α : Type} {p : P α} (h : Consuming p) :
    NonIncreasing p :=
  fun i r v hp => Nat.le_of_lt (h i r v hp)

theorem nonIncreasing_pfail {α : Type} : NonIncreasing (pfail (α := α)) := by
  intro i r v h
  simp [pfail] at h

theorem consuming_pfail {α : Type} : Consuming (pfail (α := α)) := by
  intro i r v h
  simp [pfail] at h

theorem nonIncreasing_ppure {α : Type} (a : α) : NonIncreasing (ppure a) := by
  intro i r v h
  simp [ppure] at h
  simp [h.1]

theorem nonIncreasing_pbind {α β : Type} {p : P α} {f : α → P β}
    (hp : NonIncreasing p) (hf : ∀ a, NonIncreasing (f a)) :
    NonIncreasing (pbind p f) := by
  intro i r v h
  unfold pbind at h
  cases hpi : p i with
  | none => rw [hpi] at h; simp at h
  | some x =>
    rw [hpi] at h
    exact Nat.le_trans (hf x.2 x.1 r v h) (hp i x.1 x.2 hpi)

theorem consuming_pbind_left {α β : Type} {p : P α} {f : α → P β}
    (hp : Consuming p) (hf : ∀ a, NonIncreasing (f a)) :
    Consuming (pbind p f) := by
  intro i r v h
  unfold pbind at h
  cases hpi : p i with
  | none => rw [hpi] at h; simp at h
  | some x =>
    rw [hpi] at h
    exact Nat.lt_of_le_of_lt (hf x.2 x.1 r v h) (hp i x.1 x.2 hpi)

theorem consuming_pbind_right {α β : Type} {p : P α} {f : α → P β}
    (hp : NonIncreasing p) (hf : ∀ a, Consuming (f a)) :
    Consuming (pbind p f) := by
  intro i r v h
  unfold pbind at h
  cases hpi : p i with
  | none => rw [hpi] at h; simp at h
  | some x =>
    rw [hpi] at h
    exact Nat.lt_of_lt_of_le (hf x.2 x.1 r v h) (hp i x.1 x.2 hpi)

theorem nonIncreasing_pmap {α β : Type} {p : P α} (f : α → β)
    (hp : NonIncreasing p) : NonIncreasing (pmap f p) := by
  intro i r v h
  unfold pmap at h
  cases hpi : p i with
  | none => rw [hpi] at h; simp at h
  | some x =>
    rw [hpi] at h
    simp at h
    rw [← h.1]
    exact hp i x.1 x.2 hpi

theorem consuming_pmap {α β : Type} {p : P α} (f : α → β)
    (hp : Consuming p) : Consuming (pmap f p) := by
  intro i r v h
  unfold pmap at h
  cases hpi : p i with
  | none => rw [hpi] at h; simp at h
  | some x =>
    rw [hpi] at h
    simp at h
    rw [← h.1]
    exact hp i x.1 x.2 hpi

theorem nonIncreasing_palt {α : Type} {p q : P α}
    (hp : NonIncreasing p) (hq : NonIncreasing q) : NonIncreasing (palt p q) := by
  intro i r v h
  unfold palt at h
  cases hpi : p i with
  | none => rw [hpi] at h; exact hq i r v h
  | some x => rw [hpi] at h; cases h; exact hp i r v hpi

theorem consuming_palt {α : Type} {p q : P α}
    (hp : Consuming p) (hq : Consuming q) : Consuming (palt p q) := by
  intro i r v h
  unfold palt at h
  cases hpi : p i with
  | none => rw [hpi] at h; exact hq i r v h
  | some x => rw [hpi] at h; cases h; exact hp i r v hpi

theorem nonIncreasing_paltList {α : Type} {ps : List (P α)}
    (h : ∀ p ∈ ps, NonIncreasing p) : NonIncreasing (paltList ps) := by
  induction ps with
  | nil => exact nonIncreasing_pfail
  | cons p rest ih =>
    exact nonIncreasing_palt (h p (by simp))
      (ih fun q hq => h q (by simp [hq]))

theorem consuming_paltList {α : Type} {ps : List (P α)}
    (h : ∀ p ∈ ps, Consuming p) : Consuming (paltList ps) := by
  induction ps with
  | nil => exact consuming_pfail
  | cons p rest ih =>
    exact consuming_palt (h p (by simp))
      (ih fun q hq => h q (by simp [hq]))

theorem nonIncreasing_popt {α : Type} {p : P α}
    (hp : NonIncreasing p) : NonIncreasing (popt p) := by
  intro i r v h
  unfold popt at h
  cases hpi : p i with
  | none => rw [hpi] at h; simp at h; simp [h.1]
  | some x =>
    rw [hpi] at h
    simp at h
    rw [← h.1]
    exact hp i x.1 x.2 hpi

theorem iterStep_nonIncreasing {σ : Type}
    {step : List WebToken → σ → Option (List WebToken × σ)}
    (hstep : ∀ i a i' a', step i a = some (i', a') → i'.length ≤ i.length) :
    ∀ f i a, (iterStep step f i a).1.length ≤ i.length := by
  intro f
  induction f with
  | zero => intro i a; simp [iterStep]
  | succ f ih =>
    intro i a
    unfold iterStep
    cases hs : step i a with
    | none => simp
    | some x =>
      exact Nat.le_trans (ih x.1 x.2) (hstep i a x.1 x.2 hs)

theorem nonIncreasing_many0P {α : Type} {p : P α}
    (hp : NonIncreasing p) : NonIncreasing (many0P p) := by
  intro i r v h
  unfold many0P at h
  have hstep : ∀ j a j' a', collectStep p j a = some (j', a') → j'.length ≤ j.length := by
    intro j a j' a' hc
    unfold collectStep at hc
    cases hpj : p j with
    | none => rw [hpj] at hc; simp at hc
    | some x =>
      rw [hpj] at hc
      simp at hc
      rw [← hc.1]
      exact hp j x.1 x.2 hpj
  have := iterStep_nonIncreasing hstep (i.length + 1) i ([] : List α)
  simp at h
  rw [h] at this
  exact this

theorem consuming_many1P {α : Type} {p : P α}
    (hp : Consuming p) : Consuming (many1P p) := by
  unfold many1P
  apply consuming_pbind_left hp
  intro a i r v h
  simp at h
  have hstep : ∀ j acc j' acc', collectStep p j acc = some (j', acc') → j'.length ≤ j.length := by
    intro j acc j' acc' hc
    unfold collectStep at hc
    cases hpj : p j with
    | none => rw [hpj] at hc; simp at hc
    | some x =>
      rw [hpj] at hc
      simp at hc
      rw [← hc.1]
      exact Nat.le_of_lt (hp j x.1 x.2 hpj)
  have := iterStep_nonIncreasing hstep (i.length + 1) i [a]
  rw [h] at this
  exact this

theorem consuming_sepList1 {α β : Type} {sep : P β} {p : P α}
    (hsep : NonIncreasing sep) (hp : Consuming p) : Consuming (sepList1 sep p) := by
  unfold sepList1
  apply consuming_pbind_left hp
  intro a i r v h
  simp at h
  have hstep : ∀ j acc j' acc', sepStep sep p j acc = some (j', acc') → j'.length ≤ j.length := by
    intro j acc j' acc' hc
    unfold sepStep at hc
    cases hsj : sep j with
    | none => simp only [hsj] at hc; exact Option.noConfusion hc
    | some x =>
      obtain ⟨i1, b⟩ := x
      simp only [hsj] at hc
      cases hpj : p i1 with
      | none => simp only [hpj] at hc; exact Option.noConfusion hc
      | some y =>
        obtain ⟨i2, c⟩ := y
        simp only [hpj] at hc
        simp at hc
        rw [← hc.1]
        exact Nat.le_trans (Nat.le_of_lt (hp i1 i2 c hpj)) (hsep j i1 b hsj)
  have := iterStep_nonIncreasing hstep (i.length + 1) i [a]
  rw [h] at this
  exact this

theorem nonIncreasing_sepList0 {α β : Type} {sep : P β} {p : P α}
    (hsep : NonIncreasing sep) (hp : Consuming p) : NonIncreasing (sepList0 sep p) := by
  unfold sepList0
  exact nonIncreasing_palt (Consuming.nonIncreasing (consuming_sepList1 hsep hp))
    (nonIncreasing_ppure [])

theorem nonIncreasing_take_while (pred : WebToken → Bool) :
    NonIncreasing (take_while pred) := by
  intro i
  induction i with
  | nil => intro r v h; simp [take_while] at h; simp [h]
  | cons t rest ih =>
    intro r v h
    unfold take_while at h
    by_cases hp : pred t
    · rw [if_pos hp] at h
      have := ih r v h
      simp
      omega
    · rw [if_neg hp] at h
      simp at h
      rw [← h]

/-! ### Fuel sufficiency for the iteration combinator -/

theorem iterStep_succ_none {σ : Type}
    {step : List WebToken → σ → Option (List WebToken × σ)}
    {i : List WebToken} {a : σ} (h : step i a = none) (f : Nat) :
    iterStep step (f + 1) i a = (i, a) := by
  simp [iterStep, h]

theorem iterStep_succ_some {σ : Type}
    {step : List WebToken → σ → Option (List WebToken × σ)}
    {i i' : List WebToken} {a a' : σ} (h : step i a = some (i', a')) (f : Nat) :
    iterStep step (f + 1) i a = iterStep step f i' a' := by
  simp [iterStep, h]

theorem iterStep_stable_aux {σ : Type}
    {step : List WebToken → σ → Option (List WebToken × σ)}
    (hstep : ∀ i a i' a', step i a = some (i', a') → i'.length < i.length) :
    ∀ n f i a, i.length ≤ n → n ≤ f →
      iterStep step f i a = iterStep step n i a := by
  intro n
  induction n with
  | zero =>
    intro f i a hlen _
    have hi : i = [] := List.length_eq_zero.mp (Nat.le_zero.mp hlen)
    subst hi
    cases f with
    | zero => rfl
    | succ f =>
      cases hs : step [] a with
      | none => rw [iterStep_succ_none hs]; rfl
      | some x =>
        have := hstep [] a x.1 x.2 (by rw [hs])
        simp at this
  | succ n ih =>
    intro f i a hlen hf
    cases f with
    | zero => omega
    | succ f =>
      cases hs : step i a with
      | none => rw [iterStep_succ_none hs, iterStep_succ_none hs]
      | some x =>
        obtain ⟨i1, a1⟩ := x
        have hx := hstep i a i1 a1 hs
        have h1 : i1.length ≤ n := by omega
        rw [iterStep_succ_some hs, iterStep_succ_some hs]
        rw [ih f i1 a1 h1 (by omega)]

/-- If every iteration step strictly consumes input, then any fuel of at
least the input length produces the same result as fuel `input.length`: the
loop reaches its fixed point in at most `input.length` iterations. -/

theorem iterStep_stable {σ : Type}
    {step : List WebToken → σ → Option (List WebToken × σ)}
    (hstep : ∀ i a i' a', step i a = some (i', a') → i'.length < i.length)
    (f : Nat) (i : List WebToken) (a : σ) (h : i.length ≤ f) :
    iterStep step f i a = iterStep step i.length i a :=
  iterStep_stable_aux hstep i.length f i a (Nat.le_refl _) h

theorem consuming_tokGate {α : Type} (check : WebToken → Option α) :
    Consuming (tokGate check) := by
  intro i r v h
  cases i with
  | nil => simp [tokGate] at h
  | cons t rest =>
    unfold tokGate at h
    cases hc : check t with
    | none => simp only [hc] at h; exact Option.noConfusion h
    | some a =>
      simp only [hc] at h
      simp at h
      rw [← h.1]
      simp

theorem mergeMore_length_le : ∀ i acc, (mergeMore i acc).1.length ≤ i.length := by
  intro i
  induction i with
  | nil => intro acc; simp [mergeMore]
  | cons t rest ih =>
    intro acc
    cases t with
    | Pascal pt =>
      cases pt with
      | StringLiteral s2 =>
        unfold mergeMore
        exact Nat.le_trans (ih (acc ++ s2)) (by simp)
      | _ => simp [mergeMore]
    | _ => simp [mergeMore]

theorem consuming_merged_string_literals : Consuming merged_string_literals := by
  intro i r v h
  unfold merged_string_literals at h
  cases i with
  | nil => exact Option.noConfusion h
  | cons t rest =>
    cases t with
    | Pascal pt =>
      cases pt with
      | StringLiteral s =>
        simp at h
        have hm := mergeMore_length_le rest s
        rw [← h.1]
        simp
        omega
      | _ => exact Option.noConfusion h
    | _ => exact Option.noConfusion h

theorem nonIncreasing_peek_end_of_define : NonIncreasing peek_end_of_define := by
  intro i r v h
  cases i with
  | nil => simp [peek_end_of_define] at h; simp [h]
  | cons t rest => simp [peek_end_of_define] at h

/-! ### Consumption properties of the expression grammar -/

theorem consuming_parse_token_expr : Consuming parse_token_expr :=
  consuming_tokGate _

theorem consuming_pascal_token (t : PascalToken) : Consuming (pascal_token t) :=
  consuming_tokGate _

theorem consuming_reserved_word (rw : PascalReservedWord) : Consuming (reserved_word rw) :=
  consuming_tokGate _

theorem consuming_identifier : Consuming identifier :=
  consuming_tokGate _

theorem consuming_identifier_as_token : Consuming identifier_as_token :=
  consuming_tokGate _

theorem consuming_int_literal : Consuming int_literal :=
  consuming_tokGate _

theorem consuming_open_delimiter (k : DelimiterKind) : Consuming (open_delimiter k) :=
  consuming_tokGate _

theorem consuming_close_delimiter (k : DelimiterKind) : Consuming (close_delimiter k) :=
  consuming_tokGate _

theorem consuming_formatted_identifier_like (rw : PascalReservedWord) :
    Consuming (formatted_identifier_like rw) :=
  consuming_tokGate _

theorem consuming_comment : Consuming comment :=
  consuming_tokGate _

theorem consuming_module_reference : Consuming module_reference :=
  consuming_tokGate _

theorem consuming_parse_paren_expr {pe : P WebExpr} (hpe : NonIncreasing pe) :
    Consuming (parse_paren_expr pe) := by
  apply consuming_pbind_left (consuming_pascal_token _)
  intro a
  apply nonIncreasing_pbind hpe
  intro e
  apply nonIncreasing_pbind (Consuming.nonIncreasing (consuming_pascal_token _))
  intro b
  exact nonIncreasing_ppure _

theorem consuming_parse_prefix_unary_expr {pe : P WebExpr} (hpe : NonIncreasing pe) :
    Consuming (parse_prefix_unary_expr pe) := by
  apply consuming_pbind_left (consuming_tokGate _)
  intro op
  exact nonIncreasing_pmap _ hpe

theorem consuming_binary_tail {pe : P WebExpr} (hpe : NonIncreasing pe) :
    Consuming (binary_tail pe) := by
  apply consuming_pbind_left (consuming_tokGate _)
  intro op
  exact nonIncreasing_pmap _ hpe

theorem consuming_postfix_unary_tail : Consuming postfix_unary_tail :=
  consuming_pmap _ (consuming_tokGate _)

theorem consuming_call_tail {pe : P WebExpr} (hpe : Consuming pe) :
    Consuming (call_tail pe) := by
  apply consuming_pbind_left (consuming_open_delimiter _)
  intro a
  apply nonIncreasing_pbind
    (nonIncreasing_sepList0 (Consuming.nonIncreasing (consuming_pascal_token _)) hpe)
  intro args
  apply nonIncreasing_pbind (Consuming.nonIncreasing (consuming_close_delimiter _))
  intro b
  exact nonIncreasing_ppure _

theorem consuming_range_index_term {pe : P WebExpr} (hpe : NonIncreasing pe) :
    Consuming (range_index_term pe) := by
  apply consuming_pbind_left consuming_parse_token_expr
  intro e1
  apply nonIncreasing_pbind (Consuming.nonIncreasing (consuming_pascal_token _))
  intro a
  exact nonIncreasing_pmap _ hpe

theorem consuming_index_term {pe : P WebExpr} (hpe : Consuming pe) :
    Consuming (index_term pe) :=
  consuming_palt (consuming_range_index_term (Consuming.nonIncreasing hpe))
    (consuming_pmap _ hpe)

theorem consuming_index_tail {pe : P WebExpr} (hpe : Consuming pe) :
    Consuming (index_tail pe) := by
  apply consuming_pbind_left (consuming_open_delimiter _)
  intro a
  apply nonIncreasing_pbind
    (nonIncreasing_sepList0 (Consuming.nonIncreasing (consuming_pascal_token _))
      (consuming_index_term hpe))
  intro args
  apply nonIncreasing_pbind (Consuming.nonIncreasing (consuming_close_delimiter _))
  intro b
  exact nonIncreasing_ppure _

theorem consuming_field_tail : Consuming field_tail := by
  apply consuming_pbind_left (consuming_pascal_token _)
  intro a
  exact nonIncreasing_pmap _ (Consuming.nonIncreasing consuming_identifier)

theorem consuming_format_tail : Consuming format_tail := by
  apply consuming_pbind_left (consuming_pascal_token _)
  intro a
  exact nonIncreasing_pmap _ (Consuming.nonIncreasing consuming_int_literal)

/-- Every successful tail step of the expression loop strictly consumes. -/

theorem exprTailStep_consumes {pe : P WebExpr} (hpe : Consuming pe) :
    ∀ i e i' e', exprTailStep pe i e = some (i', e') → i'.length < i.length := by
  intro i e i' e' h
  unfold exprTailStep at h
  have halt : Consuming (paltList [binary_tail pe, call_tail pe, index_tail pe,
      field_tail, format_tail, postfix_unary_tail]) := by
    apply consuming_paltList
    intro p hp
    simp at hp
    rcases hp with rfl | rfl | rfl | rfl | rfl | rfl
    · exact consuming_binary_tail (Consuming.nonIncreasing hpe)
    · exact consuming_call_tail hpe
    · exact consuming_index_tail hpe
    · exact consuming_field_tail
    · exact consuming_format_tail
    · exact consuming_postfix_unary_tail
  cases haltr : paltList [binary_tail pe, call_tail pe, index_tail pe,
      field_tail, format_tail, postfix_unary_tail] i with
  | none => rw [haltr] at h; exact Option.noConfusion h
  | some x =>
    rw [haltr] at h
    simp at h
    rw [← h.1]
    exact halt i x.1 x.2 haltr

theorem lhsTailStep_consumes {pe : P WebExpr} (hpe : Consuming pe) :
    ∀ i e i' e', lhsTailStep pe i e = some (i', e') → i'.length < i.length := by
  intro i e i' e' h
  unfold lhsTailStep at h
  have halt : Consuming (paltList [call_tail pe, index_tail pe, field_tail]) := by
    apply consuming_paltList
    intro p hp
    simp at hp
    rcases hp with rfl | rfl | rfl
    · exact consuming_call_tail hpe
    · exact consuming_index_tail hpe
    · exact consuming_field_tail
  cases haltr : paltList [call_tail pe, index_tail pe, field_tail] i with
  | none => rw [haltr] at h; exact Option.noConfusion h
  | some x =>
    rw [haltr] at h
    simp at h
    rw [← h.1]
    exact halt i x.1 x.2 haltr

/-- The expression parser strictly consumes input, at every fuel. -/

theorem consuming_parse_expr : ∀ f, Consuming (parse_expr f) := by
  intro f
  induction f with
  | zero => exact consuming_pfail
  | succ f ih =>
    intro i r v h
    unfold parse_expr at h
    have hhead : Consuming (paltList [parse_prefix_unary_expr (parse_expr f),
        parse_paren_expr (parse_expr f),
        pmap WebExpr.Token merged_string_literals,
        parse_token_expr]) := by
      apply consuming_paltList
      intro p hp
      simp at hp
      rcases hp with rfl | rfl | rfl | rfl
      · exact consuming_parse_prefix_unary_expr (Consuming.nonIncreasing ih)
      · exact consuming_parse_paren_expr (Consuming.nonIncreasing ih)
      · exact consuming_pmap _ consuming_merged_string_literals
      · exact consuming_parse_token_expr
    cases hh : paltList [parse_prefix_unary_expr (parse_expr f),
        parse_paren_expr (parse_expr f),
        pmap WebExpr.Token merged_string_literals,
        parse_token_expr] i with
    | none => rw [hh] at h; exact Option.noConfusion h
    | some x =>
      obtain ⟨i1, e1⟩ := x
      rw [hh] at h
      simp at h
      have hloop : (iterStep (exprTailStep (parse_expr f)) (i1.length + 1) i1 e1).1.length
          ≤ i1.length := by
        apply iterStep_nonIncreasing
        intro j a j' a' hs
        exact Nat.le_of_lt (exprTailStep_consumes ih j a j' a' hs)
      have hhc := hhead i i1 e1 hh
      rw [h] at hloop
      simp at hloop
      omega

theorem consuming_parse_lhs_expr (f : Nat) : Consuming (parse_lhs_expr f) := by
  intro i r v h
  unfold parse_lhs_expr at h
  cases hh : parse_token_expr i with
  | none => rw [hh] at h; exact Option.noConfusion h
  | some x =>
    obtain ⟨i1, e1⟩ := x
    rw [hh] at h
    simp at h
    have hloop : (iterStep (lhsTailStep (parse_expr f)) (i1.length + 1) i1 e1).1.length
        ≤ i1.length := by
      apply iterStep_nonIncreasing
      intro j a j' a' hs
      exact Nat.le_of_lt (lhsTailStep_consumes (consuming_parse_expr f) j a j' a' hs)
    have hhc := consuming_parse_token_expr i i1 e1 hh
    rw [h] at hloop
    simp at hloop
    omega

/-! ### Consumption properties of the statement grammar -/

theorem consuming_block_opener : Consuming block_opener :=
  consuming_tokGate _

theorem consuming_block_closer : Consuming block_closer :=
  consuming_tokGate _

theorem consuming_parse_statement_base : ∀ f, Consuming (parse_statement_base f) := by
  intro f
  induction f with
  | zero => exact consuming_pfail
  | succ f ih =>
    have hexprNI : NonIncreasing (parse_expr f) :=
      Consuming.nonIncreasing (consuming_parse_expr f)
    have hsbNI : NonIncreasing (parse_statement_base f) :=
      Consuming.nonIncreasing ih
    have hsemiNI : NonIncreasing (popt (pascal_token PascalToken.Semicolon)) :=
      nonIncreasing_popt (Consuming.nonIncreasing (consuming_pascal_token _))
    have hcommNI : NonIncreasing (popt comment) :=
      nonIncreasing_popt (Consuming.nonIncreasing consuming_comment)
    unfold parse_statement_base
    apply consuming_paltList
    intro p hp
    simp at hp
    rcases hp with rfl | rfl | rfl | rfl | rfl | rfl | rfl | rfl | rfl | rfl | rfl | rfl | rfl
    · -- parse_mod_ref_statement
      apply consuming_pbind_left consuming_module_reference
      intro s
      exact nonIncreasing_pbind hsemiNI fun _ => nonIncreasing_ppure _
    · -- parse_block
      apply consuming_pbind_left consuming_block_opener
      intro op
      apply nonIncreasing_pbind (nonIncreasing_many0P hsbNI)
      intro stmts
      apply nonIncreasing_pbind (Consuming.nonIncreasing consuming_block_closer)
      intro cl
      apply nonIncreasing_pbind hsemiNI
      intro a
      exact nonIncreasing_pbind hcommNI fun _ => nonIncreasing_ppure _
    · -- preprocessor directive
      exact consuming_pmap _ (consuming_tokGate _)
    · -- parse_goto
      apply consuming_pbind_left (consuming_reserved_word _)
      intro a
      apply nonIncreasing_pbind (Consuming.nonIncreasing consuming_identifier)
      intro label
      apply nonIncreasing_pbind hsemiNI
      intro b
      exact nonIncreasing_pbind hcommNI fun _ => nonIncreasing_ppure _
    · -- parse_if
      apply consuming_pbind_left (consuming_reserved_word _)
      intro a
      apply nonIncreasing_pbind hexprNI
      intro test
      apply nonIncreasing_pbind (Consuming.nonIncreasing (consuming_reserved_word _))
      intro b
      apply nonIncreasing_pbind hsbNI
      intro then_
      apply nonIncreasing_pbind
        (nonIncreasing_popt (nonIncreasing_pbind
          (Consuming.nonIncreasing (consuming_reserved_word _)) fun _ => hsbNI))
      intro else_
      exact nonIncreasing_ppure _
    · -- parse_while
      apply consuming_pbind_left (consuming_reserved_word _)
      intro a
      apply nonIncreasing_pbind hexprNI
      intro test
      apply nonIncreasing_pbind (Consuming.nonIncreasing (consuming_reserved_word _))
      intro b
      exact nonIncreasing_pmap _ hsbNI
    · -- parse_for
      apply consuming_pbind_left (consuming_reserved_word _)
      intro a
      apply nonIncreasing_pbind (Consuming.nonIncreasing consuming_identifier)
      intro var
      apply nonIncreasing_pbind (Consuming.nonIncreasing (consuming_pascal_token _))
      intro b
      apply nonIncreasing_pbind hexprNI
      intro start
      apply nonIncreasing_pbind (Consuming.nonIncreasing (consuming_reserved_word _))
      intro c
      apply nonIncreasing_pbind hexprNI
      intro stop
      apply nonIncreasing_pbind (Consuming.nonIncreasing (consuming_reserved_word _))
      intro d
      exact nonIncreasing_pmap _ hsbNI
    · -- parse_case
      apply consuming_pbind_left (consuming_reserved_word _)
      intro a
      apply nonIncreasing_pbind (Consuming.nonIncreasing consuming_identifier)
      intro var
      apply nonIncreasing_pbind (Consuming.nonIncreasing (consuming_reserved_word _))
      intro b
      have hitems : Consuming (paltList [parse_mod_ref_case_item,
          parse_other_cases_item (parse_statement_base f),
          parse_standard_case_item (parse_statement_base f)]) := by
        apply consuming_paltList
        intro q hq
        simp at hq
        rcases hq with rfl | rfl | rfl
        · apply consuming_pbind_left consuming_module_reference
          intro s
          exact nonIncreasing_pbind hsemiNI fun _ => nonIncreasing_ppure _
        · apply consuming_pbind_left (consuming_tokGate _)
          intro tag
          apply nonIncreasing_pbind hsbNI
          intro stmt
          apply nonIncreasing_pbind hsemiNI
          intro c
          exact nonIncreasing_pbind hcommNI fun _ => nonIncreasing_ppure _
        · apply consuming_pbind_left
            (consuming_sepList1 (Consuming.nonIncreasing (consuming_pascal_token _))
              (consuming_palt consuming_merged_string_literals (consuming_tokGate _)))
          intro ms
          apply nonIncreasing_pbind (Consuming.nonIncreasing (consuming_pascal_token _))
          intro c
          apply nonIncreasing_pbind hsbNI
          intro stmt
          apply nonIncreasing_pbind hsemiNI
          intro d
          exact nonIncreasing_pbind hcommNI fun _ => nonIncreasing_ppure _
      apply nonIncreasing_pbind (Consuming.nonIncreasing (consuming_many1P hitems))
      intro items
      apply nonIncreasing_pbind (Consuming.nonIncreasing (consuming_tokGate _))
      intro c
      apply nonIncreasing_pbind hsemiNI
      intro d
      exact nonIncreasing_ppure _
    · -- parse_assignment
      apply consuming_pbind_left (consuming_parse_lhs_expr f)
      intro lhs
      apply nonIncreasing_pbind (Consuming.nonIncreasing (consuming_pascal_token _))
      intro a
      apply nonIncreasing_pbind hexprNI
      intro rhs
      apply nonIncreasing_pbind hsemiNI
      intro b
      exact nonIncreasing_pbind hcommNI fun _ => nonIncreasing_ppure _
    · -- parse_label
      apply consuming_pbind_left consuming_identifier
      intro s
      apply nonIncreasing_pbind (Consuming.nonIncreasing (consuming_pascal_token _))
      intro a
      exact nonIncreasing_ppure _
    · -- parse_loop
      apply consuming_pbind_left (consuming_tokGate _)
      intro kw
      exact nonIncreasing_pmap _ hsbNI
    · -- parse_special_free_case
      apply consuming_pbind_left
        (consuming_sepList1 (Consuming.nonIncreasing (consuming_pascal_token _))
          consuming_merged_string_literals)
      intro ms
      apply nonIncreasing_pbind (Consuming.nonIncreasing (consuming_pascal_token _))
      intro a
      apply nonIncreasing_pbind hsbNI
      intro stmt
      exact nonIncreasing_pbind hsemiNI fun _ => nonIncreasing_ppure _
    · -- parse_expr_statement
      apply consuming_pbind_left (consuming_parse_expr f)
      intro e
      apply nonIncreasing_pbind hsemiNI
      intro a
      exact nonIncreasing_pbind hcommNI fun _ => nonIncreasing_ppure _

theorem consuming_named (name : String) (value : WebType) :
    Consuming (named name value) := by
  apply consuming_pbind_left consuming_identifier
  intro sv
  by_cases h : sv = name
  · rw [if_pos h]
    exact nonIncreasing_ppure _
  · rw [if_neg h]
    exact nonIncreasing_pfail

theorem consuming_parse_range_bound : Consuming parse_range_bound := by
  apply consuming_paltList
  intro p hp
  simp [parse_range_bound] at hp
  rcases hp with rfl | rfl | rfl | rfl | rfl
  · exact consuming_pmap _ consuming_int_literal
  · exact consuming_pmap _ consuming_merged_string_literals
  · apply consuming_pbind_left consuming_identifier
    intro s
    apply nonIncreasing_pbind
      (nonIncreasing_palt (Consuming.nonIncreasing (consuming_pascal_token _))
        (Consuming.nonIncreasing (consuming_pascal_token _)))
    intro op
    exact nonIncreasing_pmap _ (Consuming.nonIncreasing consuming_int_literal)
  · exact consuming_pmap _ consuming_identifier
  · apply consuming_pbind_left
      (consuming_palt (consuming_pascal_token _) (consuming_pascal_token _))
    intro op
    exact nonIncreasing_pmap _ (Consuming.nonIncreasing consuming_identifier)

theorem consuming_parse_type : ∀ f, Consuming (parse_type f) := by
  intro f
  induction f with
  | zero => exact consuming_pfail
  | succ f ih =>
    have hptNI : NonIncreasing (parse_type f) := Consuming.nonIncreasing ih
    unfold parse_type
    apply consuming_paltList
    intro p hp
    simp at hp
    rcases hp with rfl | rfl | rfl | rfl | rfl | rfl | rfl | rfl | rfl
    · exact consuming_named _ _
    · exact consuming_named _ _
    · exact consuming_named _ _
    · -- parse_pointer
      apply consuming_pbind_left (consuming_pascal_token _)
      intro a
      exact nonIncreasing_pmap _ hptNI
    · -- parse_packed_file_of
      apply consuming_pbind_left (consuming_reserved_word _)
      intro a
      apply nonIncreasing_pbind (Consuming.nonIncreasing (consuming_reserved_word _))
      intro b
      apply nonIncreasing_pbind (Consuming.nonIncreasing (consuming_reserved_word _))
      intro c
      exact nonIncreasing_pmap _ (Consuming.nonIncreasing consuming_identifier)
    · -- parse_record
      apply consuming_pbind_right
        (nonIncreasing_popt (Consuming.nonIncreasing (consuming_reserved_word _)))
      intro pk
      apply consuming_pbind_left (consuming_reserved_word _)
      intro a
      have hfield : Consuming (parse_record_field (parse_type f)) := by
        apply consuming_pbind_left
          (consuming_sepList1 (Consuming.nonIncreasing (consuming_pascal_token _))
            consuming_identifier_as_token)
        intro names
        apply nonIncreasing_pbind (Consuming.nonIncreasing (consuming_pascal_token _))
        intro b
        apply nonIncreasing_pbind hptNI
        intro ty
        apply nonIncreasing_pbind (Consuming.nonIncreasing (consuming_pascal_token _))
        intro c
        apply nonIncreasing_pbind
          (nonIncreasing_popt (Consuming.nonIncreasing consuming_comment))
        intro d
        exact nonIncreasing_ppure _
      apply nonIncreasing_pbind (Consuming.nonIncreasing (consuming_many1P hfield))
      intro fields
      apply nonIncreasing_pbind (Consuming.nonIncreasing (consuming_reserved_word _))
      intro b
      exact nonIncreasing_ppure _
    · -- parse_array
      apply consuming_pbind_right
        (nonIncreasing_popt (Consuming.nonIncreasing (consuming_reserved_word _)))
      intro pk
      apply consuming_pbind_left (consuming_reserved_word _)
      intro a
      apply nonIncreasing_pbind (Consuming.nonIncreasing (consuming_pascal_token _))
      intro b
      apply nonIncreasing_pbind
        (nonIncreasing_sepList0 (Consuming.nonIncreasing (consuming_pascal_token _)) ih)
      intro axes
      apply nonIncreasing_pbind (Consuming.nonIncreasing (consuming_pascal_token _))
      intro c
      apply nonIncreasing_pbind (Consuming.nonIncreasing (consuming_reserved_word _))
      intro d
      exact nonIncreasing_pmap _ hptNI
    · -- parse_range
      apply consuming_pbind_left consuming_parse_range_bound
      intro lo
      apply nonIncreasing_pbind (Consuming.nonIncreasing (consuming_pascal_token _))
      intro a
      exact nonIncreasing_pmap _ (Consuming.nonIncreasing consuming_parse_range_bound)
    · exact consuming_pmap _ consuming_identifier

/-! ### Consumption property of the toplevel dispatcher -/

theorem nonIncreasing_swallowRest : NonIncreasing swallowRest := by
  intro i r v h
  simp [swallowRest] at h
  rw [h.1]
  simp

theorem consuming_int_list_term : Consuming int_list_term := by
  apply consuming_paltList
  intro p hp
  simp [int_list_term] at hp
  rcases hp with rfl | rfl | rfl
  · apply consuming_pbind_left consuming_int_literal
    intro t1
    apply nonIncreasing_pbind (Consuming.nonIncreasing (consuming_pascal_token _))
    intro a
    exact nonIncreasing_pmap _ (Consuming.nonIncreasing consuming_int_literal)
  · exact consuming_pmap _
      (consuming_palt consuming_int_literal consuming_identifier_as_token)
  · apply consuming_pbind_left (consuming_pascal_token _)
    intro t1
    exact nonIncreasing_pmap _ (Consuming.nonIncreasing consuming_identifier_as_token)

theorem consuming_parse_special_comma_exprs (f : Nat) :
    Consuming (parse_special_comma_exprs f) := by
  intro i r v h
  have hinner : Consuming (pbind (sepList1 (pascal_token .Comma) (parse_expr f)) fun exprs =>
      pbind (popt (pascal_token .Comma)) fun tc =>
      pbind peek_end_of_define fun _ =>
      ppure (exprs, tc)) := by
    apply consuming_pbind_left
      (consuming_sepList1 (Consuming.nonIncreasing (consuming_pascal_token _))
        (consuming_parse_expr f))
    intro exprs
    apply nonIncreasing_pbind
      (nonIncreasing_popt (Consuming.nonIncreasing (consuming_pascal_token _)))
    intro tc
    exact nonIncreasing_pbind nonIncreasing_peek_end_of_define
      fun _ => nonIncreasing_ppure _
  cases hres : (pbind (sepList1 (pascal_token .Comma) (parse_expr f)) fun exprs =>
      pbind (popt (pascal_token .Comma)) fun tc =>
      pbind peek_end_of_define fun _ =>
      ppure (exprs, tc)) i with
  | none =>
    unfold parse_special_comma_exprs at h
    simp only [hres] at h
    exact Option.noConfusion h
  | some x =>
    obtain ⟨i', exprs, tc⟩ := x
    unfold parse_special_comma_exprs at h
    simp only [hres] at h
    by_cases hc : (decide (exprs.length < 2) && !tc.isSome) = true
    · simp only [hc] at h
      simp at h
    · simp only [hc] at h
      simp at h
      rw [← h.1]
      exact hinner i i' (exprs, tc) hres

theorem consuming_parse_var_declaration_base (f : Nat) :
    Consuming (parse_var_declaration_base f) := by
  apply consuming_pbind_left
    (consuming_sepList1 (Consuming.nonIncreasing (consuming_pascal_token _))
      consuming_identifier)
  intro names
  apply nonIncreasing_pbind (Consuming.nonIncreasing (consuming_pascal_token _))
  intro a
  apply nonIncreasing_pbind (Consuming.nonIncreasing (consuming_parse_type f))
  intro ty
  apply nonIncreasing_pbind (Consuming.nonIncreasing (consuming_pascal_token _))
  intro b
  apply nonIncreasing_pbind (nonIncreasing_popt (Consuming.nonIncreasing consuming_comment))
  intro c
  exact nonIncreasing_ppure _

theorem nonIncreasing_forward_base : NonIncreasing parse_forward_declaration_base := by
  apply Consuming.nonIncreasing
  apply consuming_pbind_left (consuming_tokGate _)
  intro kind
  apply nonIncreasing_pbind (Consuming.nonIncreasing consuming_identifier)
  intro name
  apply nonIncreasing_pbind (Consuming.nonIncreasing (consuming_pascal_token _))
  intro a
  apply nonIncreasing_pbind (Consuming.nonIncreasing (consuming_reserved_word _))
  intro b
  apply nonIncreasing_pbind
    (nonIncreasing_popt (Consuming.nonIncreasing (consuming_pascal_token _)))
  intro c
  exact nonIncreasing_ppure _

theorem nonIncreasing_function_base : NonIncreasing parse_function_definition_base := by
  apply Consuming.nonIncreasing
  apply consuming_pbind_left (consuming_tokGate _)
  intro kind
  apply nonIncreasing_pbind (Consuming.nonIncreasing consuming_identifier)
  intro name
  exact nonIncreasing_pmap _ nonIncreasing_swallowRest

/-- Every successful toplevel parse strictly consumes input, at every
fuel. -/

theorem consuming_parse_toplevel (f : Nat) : Consuming (parse_toplevel f) := by
  have hsemiNI : NonIncreasing (popt (pascal_token PascalToken.Semicolon)) :=
    nonIncreasing_popt (Consuming.nonIncreasing (consuming_pascal_token _))
  have hcommNI : NonIncreasing (popt comment) :=
    nonIncreasing_popt (Consuming.nonIncreasing consuming_comment)
  have hexprNI : NonIncreasing (parse_expr f) :=
    Consuming.nonIncreasing (consuming_parse_expr f)
  have hterm : NonIncreasing (sepList1 (pascal_token .Comma) int_list_term) :=
    Consuming.nonIncreasing
      (consuming_sepList1 (Consuming.nonIncreasing (consuming_pascal_token _))
        consuming_int_list_term)
  have hspecials : Consuming (paltList [parse_special_ifdef_forward,
      parse_special_ifdef_function,
      parse_special_ifdef_var_decl f,
      parse_special_paren_two_ident,
      parse_special_empty_brackets,
      parse_special_relational_expr f,
      parse_special_range f,
      parse_special_commented_out f,
      parse_special_array_macro f,
      parse_special_list_assignment,
      parse_special_int_list,
      parse_special_ident_in_int_list,
      parse_special_inline_define f,
      parse_special_comma_exprs f,
      parse_special_float_equality,
      parse_special_coeff_array,
      parse_special_imbalanced_end,
      parse_special_expr_period f]) := by
    apply consuming_paltList
    intro p hp
    simp at hp
    rcases hp with rfl | rfl | rfl | rfl | rfl | rfl | rfl | rfl | rfl | rfl | rfl | rfl | rfl | rfl | rfl | rfl | rfl | rfl
    · -- ifdef_forward
      apply consuming_pbind_left (consuming_formatted_identifier_like _)
      intro beg
      apply nonIncreasing_pbind nonIncreasing_forward_base
      intro fd
      exact nonIncreasing_pmap _
        (Consuming.nonIncreasing (consuming_formatted_identifier_like _))
    · -- ifdef_function
      apply consuming_pbind_left (consuming_formatted_identifier_like _)
      intro beg
      apply nonIncreasing_pbind nonIncreasing_function_base
      intro fd
      exact nonIncreasing_pmap _
        (Consuming.nonIncreasing (consuming_formatted_identifier_like _))
    · -- ifdef_var_decl
      apply consuming_pbind_right hcommNI
      intro c1
      apply consuming_pbind_left (consuming_formatted_identifier_like _)
      intro beg
      apply nonIncreasing_pbind
        (Consuming.nonIncreasing (consuming_many1P (consuming_parse_var_declaration_base f)))
      intro vds
      apply nonIncreasing_pbind
        (Consuming.nonIncreasing (consuming_formatted_identifier_like _))
      intro en
      exact nonIncreasing_pbind hcommNI fun _ => nonIncreasing_ppure _
    · -- paren_two_ident
      apply consuming_pbind_left (consuming_open_delimiter _)
      intro a
      apply nonIncreasing_pbind (Consuming.nonIncreasing consuming_identifier)
      intro id1
      apply nonIncreasing_pbind (Consuming.nonIncreasing consuming_identifier)
      intro id2
      apply nonIncreasing_pbind (Consuming.nonIncreasing (consuming_close_delimiter _))
      intro b
      exact nonIncreasing_ppure _
    · -- empty_brackets
      apply consuming_pbind_left (consuming_open_delimiter _)
      intro a
      apply nonIncreasing_pbind (Consuming.nonIncreasing (consuming_close_delimiter _))
      intro b
      exact nonIncreasing_ppure _
    · -- relational_expr
      apply consuming_pbind_left (consuming_tokGate _)
      intro op
      exact nonIncreasing_pmap _ hexprNI
    · -- range
      apply consuming_pbind_left (consuming_parse_expr f)
      intro e1
      apply nonIncreasing_pbind (Consuming.nonIncreasing (consuming_pascal_token _))
      intro a
      exact nonIncreasing_pmap _ hexprNI
    · -- commented_out
      apply consuming_pbind_left (consuming_pascal_token _)
      intro a
      apply nonIncreasing_pbind
        (Consuming.nonIncreasing (consuming_parse_statement_base f))
      intro stmt
      apply nonIncreasing_pbind (Consuming.nonIncreasing (consuming_pascal_token _))
      intro b
      exact nonIncreasing_ppure _
    · -- array_macro
      apply consuming_pbind_left (consuming_pascal_token _)
      intro a
      apply nonIncreasing_pbind hexprNI
      intro e1
      apply nonIncreasing_pbind (Consuming.nonIncreasing (consuming_pascal_token _))
      intro b
      apply nonIncreasing_pbind hexprNI
      intro e2
      apply nonIncreasing_pbind (Consuming.nonIncreasing (consuming_pascal_token _))
      intro c
      exact nonIncreasing_pmap _ (Consuming.nonIncreasing consuming_identifier)
    · -- list_assignment
      apply consuming_pbind_left (consuming_pascal_token _)
      intro a
      apply nonIncreasing_pbind hterm
      intro lhs
      apply nonIncreasing_pbind (Consuming.nonIncreasing (consuming_pascal_token _))
      intro b
      apply nonIncreasing_pbind (Consuming.nonIncreasing (consuming_pascal_token _))
      intro c
      apply nonIncreasing_pbind (Consuming.nonIncreasing (consuming_pascal_token _))
      intro d
      apply nonIncreasing_pbind hterm
      intro rhs
      apply nonIncreasing_pbind (Consuming.nonIncreasing (consuming_pascal_token _))
      intro e
      exact nonIncreasing_ppure _
    · -- int_list
      apply consuming_palt
      · apply consuming_pbind_left (consuming_pascal_token _)
        intro a
        apply nonIncreasing_pbind hterm
        intro terms
        apply nonIncreasing_pbind (Consuming.nonIncreasing (consuming_pascal_token _))
        intro b
        exact nonIncreasing_ppure _
      · apply consuming_pbind_left (consuming_pascal_token _)
        intro a
        apply nonIncreasing_pbind hterm
        intro terms
        apply nonIncreasing_pbind (Consuming.nonIncreasing (consuming_pascal_token _))
        intro b
        exact nonIncreasing_ppure _
    · -- ident_in_int_list
      apply consuming_pbind_left consuming_identifier
      intro id
      apply nonIncreasing_pbind (Consuming.nonIncreasing (consuming_reserved_word _))
      intro a
      apply nonIncreasing_pbind (Consuming.nonIncreasing (consuming_pascal_token _))
      intro b
      apply nonIncreasing_pbind hterm
      intro terms
      apply nonIncreasing_pbind (Consuming.nonIncreasing (consuming_pascal_token _))
      intro c
      exact nonIncreasing_ppure _
    · -- inline_define
      apply consuming_pbind_left (consuming_parse_expr f)
      intro lhs
      apply nonIncreasing_pbind (Consuming.nonIncreasing (consuming_pascal_token _))
      intro a
      exact nonIncreasing_pmap _ hexprNI
    · -- comma_exprs
      exact consuming_parse_special_comma_exprs f
    · -- float_equality
      apply consuming_pbind_left consuming_identifier
      intro id
      apply nonIncreasing_pbind (Consuming.nonIncreasing (consuming_pascal_token _))
      intro a
      apply nonIncreasing_pbind (Consuming.nonIncreasing (consuming_pascal_token _))
      intro b
      exact nonIncreasing_pmap _ (Consuming.nonIncreasing consuming_int_literal)
    · -- coeff_array
      apply consuming_pbind_left consuming_identifier
      intro name
      apply nonIncreasing_pbind (Consuming.nonIncreasing (consuming_pascal_token _))
      intro a
      apply nonIncreasing_pbind (Consuming.nonIncreasing consuming_int_literal)
      intro coeff
      apply nonIncreasing_pbind (Consuming.nonIncreasing consuming_identifier_as_token)
      intro base
      apply nonIncreasing_pbind (Consuming.nonIncreasing (consuming_pascal_token _))
      intro b
      exact nonIncreasing_ppure _
    · -- imbalanced_end
      apply consuming_pbind_left (consuming_reserved_word _)
      intro a
      apply nonIncreasing_pbind (Consuming.nonIncreasing (consuming_pascal_token _))
      intro b
      exact nonIncreasing_pbind nonIncreasing_peek_end_of_define
        fun _ => nonIncreasing_ppure _
    · -- expr_period
      apply consuming_pbind_left (consuming_parse_expr f)
      intro e
      apply nonIncreasing_pbind (Consuming.nonIncreasing (consuming_pascal_token _))
      intro a
      exact nonIncreasing_pbind nonIncreasing_peek_end_of_define
        fun _ => nonIncreasing_ppure _
  unfold parse_toplevel
  apply consuming_pbind_right (nonIncreasing_take_while _)
  intro u
  apply consuming_paltList
  intro p hp
  simp at hp
  rcases hp with rfl | rfl | rfl | rfl | rfl | rfl | rfl | rfl | rfl | rfl | rfl | rfl | rfl
  · -- define
    apply consuming_pbind_left (consuming_pascal_token _)
    intro a
    exact nonIncreasing_pmap _ nonIncreasing_swallowRest
  · -- format
    apply consuming_pbind_left (consuming_pascal_token _)
    intro a
    exact nonIncreasing_pmap _ nonIncreasing_swallowRest
  · -- program_definition
    apply consuming_pbind_left (consuming_reserved_word _)
    intro a
    exact nonIncreasing_pmap _ nonIncreasing_swallowRest
  · -- label_declaration
    apply consuming_pbind_left (consuming_reserved_word _)
    intro a
    apply nonIncreasing_pbind (Consuming.nonIncreasing consuming_identifier)
    intro name
    apply nonIncreasing_pbind (Consuming.nonIncreasing (consuming_pascal_token _))
    intro b
    exact nonIncreasing_pbind hcommNI fun _ => nonIncreasing_ppure _
  · -- modulified_declaration
    apply consuming_pbind_left (consuming_tokGate _)
    intro kind
    exact nonIncreasing_pmap _ (Consuming.nonIncreasing consuming_module_reference)
  · -- forward_declaration
    apply consuming_pmap
    apply consuming_pbind_left (consuming_tokGate _)
    intro kind
    apply nonIncreasing_pbind (Consuming.nonIncreasing consuming_identifier)
    intro name
    apply nonIncreasing_pbind (Consuming.nonIncreasing (consuming_pascal_token _))
    intro a
    apply nonIncreasing_pbind (Consuming.nonIncreasing (consuming_reserved_word _))
    intro b
    exact nonIncreasing_pbind hsemiNI fun _ => nonIncreasing_ppure _
  · -- function_definition
    apply consuming_pmap
    apply consuming_pbind_left (consuming_tokGate _)
    intro kind
    apply nonIncreasing_pbind (Consuming.nonIncreasing consuming_identifier)
    intro name
    exact nonIncreasing_pmap _ nonIncreasing_swallowRest
  · -- constant_declaration
    apply consuming_pbind_left consuming_identifier
    intro name
    apply nonIncreasing_pbind (Consuming.nonIncreasing (consuming_pascal_token _))
    intro a
    apply nonIncreasing_pbind (Consuming.nonIncreasing consuming_int_literal)
    intro value
    apply nonIncreasing_pbind (Consuming.nonIncreasing (consuming_pascal_token _))
    intro b
    exact nonIncreasing_pbind hcommNI fun _ => nonIncreasing_ppure _
  · -- var_declaration
    exact consuming_pmap _ (consuming_parse_var_declaration_base f)
  · -- type_declaration
    apply consuming_pbind_left consuming_identifier
    intro name
    apply nonIncreasing_pbind (Consuming.nonIncreasing (consuming_pascal_token _))
    intro a
    apply nonIncreasing_pbind (Consuming.nonIncreasing (consuming_parse_type f))
    intro ty
    apply nonIncreasing_pbind (Consuming.nonIncreasing (consuming_pascal_token _))
    intro b
    exact nonIncreasing_pbind hcommNI fun _ => nonIncreasing_ppure _
  · -- specials
    exact hspecials
  · -- statement
    apply consuming_pbind_left (consuming_parse_statement_base f)
    intro s
    exact nonIncreasing_pbind hcommNI fun _ => nonIncreasing_ppure _
  · -- standalone
    apply consuming_pbind_left (consuming_tokGate _)
    intro t
    exact nonIncreasing_pbind hcommNI fun _ => nonIncreasing_ppure _

theorem linesOf_ne_nil : ∀ t : List Char, linesOf t ≠ [] := by
  intro t
  induction t with
  | nil => simp [linesOf]
  | cons c rest ih =>
    unfold linesOf
    by_cases hc : c = '\n'
    · simp [hc]
    · rw [if_neg hc]
      cases hr : linesOf rest with
      | nil => simp
      | cons l ls => simp

theorem linesOf_no_newline : ∀ s : List Char, (∀ c ∈ s, c ≠ '\n') →
    linesOf s = [s] := by
  intro s
  induction s with
  | nil => intro h; rfl
  | cons c rest ih =>
    intro h
    have hc : c ≠ '\n' := h c (by simp)
    unfold linesOf
    rw [if_neg hc]
    rw [ih fun d hd => h d (by simp [hd])]

theorem linesOf_cons_newline (rest : List Char) :
    linesOf ('\n' :: rest) = [] :: linesOf rest := by
  simp [linesOf]

theorem linesOf_cons_other {c : Char} (h : c ≠ '\n') {rest : List Char}
    {l : List Char} {ls : List (List Char)} (hr : linesOf rest = l :: ls) :
    linesOf (c :: rest) = (c :: l) :: ls := by
  unfold linesOf
  rw [if_neg h, hr]

theorem linesOf_snoc_line : ∀ (t : List Char) (cs : List (List Char))
    (c s : List Char), linesOf t = cs ++ [c] → (∀ ch ∈ s, ch ≠ '\n') →
    linesOf (t ++ s) = cs ++ [c ++ s] := by
  intro t
  induction t with
  | nil =>
    intro cs c s ht hs
    cases cs with
    | nil =>
      have hc0 : c = [] := by simpa [linesOf] using ht.symm
      subst hc0
      simpa using linesOf_no_newline s hs
    | cons c0 cs' =>
      exfalso
      have hlen := congrArg List.length ht
      simp [linesOf] at hlen
  | cons ch t' ih =>
    intro cs c s ht hs
    by_cases hc : ch = '\n'
    · subst hc
      rw [linesOf_cons_newline] at ht
      cases cs with
      | nil =>
        simp at ht
        exact absurd ht.2 (linesOf_ne_nil t')
      | cons c0 cs' =>
        simp at ht
        have hrec := ih cs' c s ht.2 hs
        show linesOf ('\n' :: (t' ++ s)) = (c0 :: cs') ++ [c ++ s]
        rw [linesOf_cons_newline, hrec, ← ht.1]
        simp
    · cases hr : linesOf t' with
      | nil => exact absurd hr (linesOf_ne_nil t')
      | cons l ls =>
        rw [linesOf_cons_other hc hr] at ht
        cases cs with
        | nil =>
          simp at ht
          have hcl : c = ch :: l := ht.1.symm
          have hls : ls = [] := ht.2
          have hlt : linesOf t' = [] ++ [l] := by rw [hr, hls]; rfl
          have hrec := ih [] l s hlt hs
          simp at hrec
          cases hres : linesOf (t' ++ s) with
          | nil => exact absurd hres (linesOf_ne_nil (t' ++ s))
          | cons l2 ls2 =>
            rw [hres] at hrec
            simp at hrec
            show linesOf (ch :: (t' ++ s)) = [] ++ [c ++ s]
            rw [linesOf_cons_other hc hres, hrec.1, hrec.2, hcl]
            simp
        | cons c0 cs' =>
          simp at ht
          have hc0 : c0 = ch :: l := ht.1.symm
          have hls : ls = cs' ++ [c] := ht.2
          have hlt : linesOf t' = (l :: cs') ++ [c] := by rw [hr, hls]; rfl
          have hrec := ih (l :: cs') c s hlt hs
          have hres : linesOf (t' ++ s) = (l :: cs') ++ [c ++ s] := hrec
          show linesOf (ch :: (t' ++ s)) = (c0 :: cs') ++ [c ++ s]
          rw [linesOf_cons_other hc (by simpa using hres), hc0]
          simp

theorem linesOf_append_newline : ∀ t s : List Char,
    linesOf (t ++ '\n' :: s) = linesOf t ++ linesOf s := by
  intro t
  induction t with
  | nil => intro s; rfl
  | cons ch t' ih =>
    intro s
    by_cases hc : ch = '\n'
    · subst hc
      show linesOf ('\n' :: (t' ++ '\n' :: s)) = linesOf ('\n' :: t') ++ linesOf s
      rw [linesOf_cons_newline, linesOf_cons_newline, ih]
      simp
    · cases hr : linesOf t' with
      | nil => exact absurd hr (linesOf_ne_nil t')
      | cons l ls =>
        have hres : linesOf (t' ++ '\n' :: s) = (l :: ls) ++ linesOf s := by
          rw [ih, hr]
        show linesOf (ch :: (t' ++ '\n' :: s)) = linesOf (ch :: t') ++ linesOf s
        rw [linesOf_cons_other hc (by simpa using hres),
          linesOf_cons_other hc hr]
        simp

theorem lineInv_new : LineInv Prettifier.new := by
  refine ⟨rfl, by simp [Prettifier.new], by simp [Prettifier.new, WIDTH], [], [], rfl, by simp, by simp, ?_⟩
  intro _
  simp [Prettifier.new, WIDTH]

theorem lineInv_newline_indent {p : Prettifier} (h : LineInv p) :
    LineInv p.newline_indent := by
  obtain ⟨hfw, hi0, hi60, cs, c, hlines, hcs, hc, _⟩ := h
  refine ⟨hfw, hi0, hi60, cs ++ [c], List.replicate p.indent.toNat ' ', ?_, ?_, ?_, ?_⟩
  · show linesOf (p.text ++ '\n' :: List.replicate p.indent.toNat ' ') = _
    rw [linesOf_append_newline, hlines,
      linesOf_no_newline (List.replicate p.indent.toNat ' ')
        (by intro ch hch; rw [List.eq_of_mem_replicate hch]; simp)]
  · intro l hl
    simp at hl
    rcases hl with hl | hl
    · exact hcs l hl
    · rw [hl]; exact hc
  · simp
    omega
  · intro _
    show (((List.replicate p.indent.toNat ' ').length : Nat) : Int) + (p.full_width - p.indent) = 60
    rw [List.length_replicate, Int.toNat_of_nonneg hi0, hfw]
    omega

theorem maybe_newline_not_needed (p : Prettifier) :
    (p.maybe_newline).newline_needed = false := by
  unfold Prettifier.maybe_newline
  by_cases h : p.newline_needed
  · rw [if_pos h]
    rfl
  · rw [if_neg h]
    simpa using h

theorem lineInv_maybe_newline {p : Prettifier} (h : LineInv p) :
    LineInv p.maybe_newline := by
  unfold Prettifier.maybe_newline
  by_cases hn : p.newline_needed
  · rw [if_pos hn]
    exact lineInv_newline_indent h
  · rw [if_neg hn]
    exact h

theorem maybe_newline_fw (p : Prettifier) :
    (p.maybe_newline).full_width = p.full_width := by
  unfold Prettifier.maybe_newline
  by_cases hn : p.newline_needed
  · rw [if_pos hn]; rfl
  · rw [if_neg hn]

theorem maybe_newline_indent (p : Prettifier) :
    (p.maybe_newline).indent = p.indent := by
  unfold Prettifier.maybe_newline
  by_cases hn : p.newline_needed
  · rw [if_pos hn]; rfl
  · rw [if_neg hn]

theorem fits_le_maybe_rem {p : Prettifier} (h : LineInv p) {w : Nat}
    (hf : p.fits w = true) : (w : Int) ≤ (p.maybe_newline).remaining_width := by
  obtain ⟨hfw, hi0, hi60, cs, c, hlines, hcs, hc, heq⟩ := h
  unfold Prettifier.fits at hf
  unfold Prettifier.maybe_newline
  by_cases hn : p.newline_needed
  · rw [if_pos hn]
    simp only [hn, if_pos] at hf
    simp at hf
    show (w : Int) ≤ p.full_width - p.indent
    exact hf
  · rw [if_neg hn]
    simp only [hn] at hf
    simp at hf
    exact hf

theorem lineInv_append {p : Prettifier} (h : LineInv p)
    (hn : p.newline_needed = false) {s : List Char}
    (hw : (s.length : Int) ≤ p.remaining_width) (hs : ∀ ch ∈ s, ch ≠ '\n') :
    LineInv { p with text := p.text ++ s, remaining_width := satSub p.remaining_width (s.length : Int) } := by
  obtain ⟨hfw, hi0, hi60, cs, c, hlines, hcs, hc, heq⟩ := h
  have heq' := heq hn
  refine ⟨hfw, hi0, hi60, cs, c ++ s, ?_, hcs, ?_, ?_⟩
  · show linesOf (p.text ++ s) = _
    exact linesOf_snoc_line p.text cs c s hlines hs
  · have h1 : (c.length : Int) + (s.length : Int) ≤ 60 := by omega
    have h2 : (c ++ s).length = c.length + s.length := by simp
    omega
  · intro _
    show ((c ++ s).length : Int) + satSub p.remaining_width (s.length : Int) = 60
    rw [List.length_append]
    unfold satSub
    have hmax : max (p.remaining_width - (s.length : Int)) 0
        = p.remaining_width - (s.length : Int) := by omega
    rw [hmax]
    push_cast
    omega

theorem lineInv_of_fields {p q : Prettifier} (h : LineInv p)
    (hfw : q.full_width = p.full_width) (hi : q.indent = p.indent)
    (hr : q.remaining_width = p.remaining_width)
    (hn : q.newline_needed = p.newline_needed) (ht : q.text = p.text) :
    LineInv q := by
  obtain ⟨h1, h2, h3, cs, c, hlines, hcs, hc, heq⟩ := h
  refine ⟨by rw [hfw, h1], by rw [hi]; exact h2, by rw [hi]; exact h3,
    cs, c, by rw [ht, hlines], hcs, hc, ?_⟩
  intro hf
  rw [hr]
  exact heq (by rw [← hn, hf])

theorem lineInv_indent_only {p : Prettifier} (h : LineInv p) {j : Int}
    (h0 : 0 ≤ j) (h60 : j ≤ 60) : LineInv { p with indent := j } := by
  obtain ⟨h1, h2, h3, cs, c, hlines, hcs, hc, heq⟩ := h
  exact ⟨h1, h0, h60, cs, c, hlines, hcs, hc, heq⟩

theorem lineInv_toplevel_separator {p : Prettifier} (h : LineInv p) :
    LineInv p.toplevel_separator := by
  obtain ⟨hfw, hi0, hi60, cs, c, hlines, hcs, hc, _⟩ := h
  refine ⟨hfw, hi0, hi60, (cs ++ [c]) ++ [[]],
    List.replicate p.indent.toNat ' ', ?_, ?_, ?_, ?_⟩
  · show linesOf ((p.text ++ ['\n']) ++ '\n' :: List.replicate p.indent.toNat ' ') = _
    rw [linesOf_append_newline, linesOf_append_newline, hlines,
      linesOf_no_newline (List.replicate p.indent.toNat ' ')
        (by intro ch hch; rw [List.eq_of_mem_replicate hch]; simp)]
    rfl
  · intro l hl
    simp at hl
    rcases hl with hl | hl | hl
    · exact hcs l hl
    · rw [hl]; exact hc
    · rw [hl]; simp
  · rw [List.length_replicate]
    omega
  · intro _
    show (((List.replicate p.indent.toNat ' ').length : Nat) : Int) + (p.full_width - p.indent) = 60
    rw [List.length_replicate, Int.toNat_of_nonneg hi0, hfw]
    omega

theorem lineInv_step {p : Prettifier} {op : RenderOp} (h : LineInv p)
    (hg : guardOK p op = true) : LineInv (op.apply p) := by
  have hfw := h.1
  have hi0 := h.2.1
  have hi60 := h.2.2.1
  cases op with
  | indent_block =>
    show LineInv (p.indent_block).2
    unfold Prettifier.indent_block
    by_cases hcond : p.full_width - p.indent > 4
    · rw [if_pos hcond]
      exact lineInv_indent_only h (by omega) (by omega)
    · rw [if_neg hcond]
      exact h
  | dedent_block =>
    show LineInv (p.dedent_block).2
    unfold Prettifier.dedent_block
    by_cases hcond : p.indent > 3
    · rw [if_pos hcond]
      exact lineInv_indent_only h (by omega) (by omega)
    · rw [if_neg hcond]
      exact h
  | indent_small =>
    show LineInv (p.indent_small).2
    unfold Prettifier.indent_small
    by_cases hcond : p.full_width - p.indent > 2
    · rw [if_pos hcond]
      exact lineInv_indent_only h (by omega) (by omega)
    · rw [if_neg hcond]
      exact h
  | dedent_small =>
    show LineInv (p.dedent_small).2
    unfold Prettifier.dedent_small
    by_cases hcond : p.indent > 1
    · rw [if_pos hcond]
      exact lineInv_indent_only h (by omega) (by omega)
    · rw [if_neg hcond]
      exact h
  | newline_indent => exact lineInv_newline_indent h
  | newline_needed_set =>
    obtain ⟨h1, h2, h3, cs, c, hlines, hcs, hc, heq⟩ := h
    refine ⟨h1, h2, h3, cs, c, hlines, hcs, hc, ?_⟩
    intro hf
    simp [RenderOp.apply, Prettifier.newline_needed_set] at hf
  | toplevel_separator => exact lineInv_toplevel_separator h
  | noscope_push s =>
    simp only [guardOK, Bool.and_eq_true] at hg
    have hchars : ∀ ch ∈ s, ch ≠ '\n' := by
      intro ch hch
      have := hg.2
      rw [List.all_eq_true] at this
      simpa using this ch hch
    have hfit := fits_le_maybe_rem h hg.1
    show LineInv (p.noscope_push s)
    unfold Prettifier.noscope_push
    exact lineInv_append (lineInv_maybe_newline h) (maybe_newline_not_needed p)
      hfit hchars
  | scope_push scope s =>
    simp only [guardOK, Bool.and_eq_true] at hg
    have hchars : ∀ ch ∈ s, ch ≠ '\n' := by
      intro ch hch
      have := hg.2
      rw [List.all_eq_true] at this
      simpa using this ch hch
    have hfit := fits_le_maybe_rem h hg.1
    have hbase := lineInv_append (lineInv_maybe_newline h)
      (maybe_newline_not_needed p) hfit hchars
    apply lineInv_of_fields hbase
    · simp [RenderOp.apply, Prettifier.scope_push]
    · simp [RenderOp.apply, Prettifier.scope_push]
    · simp [RenderOp.apply, Prettifier.scope_push]
    · simp [RenderOp.apply, Prettifier.scope_push]
    · simp [RenderOp.apply, Prettifier.scope_push]
  | space =>
    simp only [guardOK, Bool.and_eq_true] at hg
    have hflag : p.newline_needed = false := by
      have := hg.1
      simpa using this
    have hfit : ((1 : Nat) : Int) ≤ p.remaining_width := by
      have := hg.2
      unfold Prettifier.fits at this
      rw [hflag] at this
      simpa using this
    have hbase := lineInv_append h hflag
      (by simpa using hfit : (([' '] : List Char).length : Int) ≤ p.remaining_width)
      (by intro ch hch; simp at hch; rw [hch]; simp)
    apply lineInv_of_fields hbase
    · simp [RenderOp.apply, Prettifier.space]
    · simp [RenderOp.apply, Prettifier.space]
    · simp [RenderOp.apply, Prettifier.space]
    · simp [RenderOp.apply, Prettifier.space]
    · simp [RenderOp.apply, Prettifier.space]
  | insert ins text_next =>
    show LineInv (p.insert ins text_next)
    unfold Prettifier.insert
    by_cases hn : text_next
    · rw [if_pos hn]
      apply lineInv_of_fields (lineInv_maybe_newline h) <;> simp
    · rw [if_neg hn]
      apply lineInv_of_fields h <;> simp
  | scope_begin scope =>
    apply lineInv_of_fields h <;> simp [RenderOp.apply]
  | scope_end =>
    apply lineInv_of_fields h <;> simp [RenderOp.apply]

theorem guardedRun_lineInv : ∀ (ops : List RenderOp) (p : Prettifier),
    LineInv p → guardedRun ops p = true → LineInv (applyRenderOps ops p) := by
  intro ops
  induction ops with
  | nil => intro p h _; exact h
  | cons op rest ih =>
    intro p h hg
    unfold guardedRun at hg
    rw [Bool.and_eq_true] at hg
    have hstep := lineInv_step h hg.1
    exact ih (op.apply p) hstep hg.2

theorem rendersExactly_congr {m m' : Nat} {f g : Prettifier → Prettifier}
    (h : RendersExactly m' g) (hm : m = m') (hfg : ∀ p, f p = g p) :
    RendersExactly m f := by
  subst hm
  intro p h1 h2 h3
  obtain ⟨s, hs1, hs2, hs3, hs4, hs5, hs6, hs7⟩ := h p h1 h2 h3
  rw [← hfg p] at hs1 hs4 hs5 hs6 hs7
  exact ⟨s, hs1, hs2, hs3, hs4, hs5, hs6, hs7⟩

theorem rendersExactly_noscope_push {s : List Char}
    (hs : ∀ ch ∈ s, ch ≠ '\n') :
    RendersExactly s.length (fun p => p.noscope_push s) := by
  intro p h1 h2 h3
  refine ⟨s, ?_, rfl, hs, ?_, ?_, ?_, ?_⟩ <;>
    simp [Prettifier.noscope_push, Prettifier.maybe_newline, h1, satSub]
  omega

theorem rendersExactly_scope_push {scope : Scope} {s : List Char}
    (hs : ∀ ch ∈ s, ch ≠ '\n') :
    RendersExactly s.length (fun p => p.scope_push scope s) := by
  intro p h1 h2 h3
  refine ⟨s, ?_, rfl, hs, ?_, ?_, ?_, ?_⟩ <;>
    simp [Prettifier.scope_push, Prettifier.maybe_newline, h1, satSub]
  omega

theorem rendersExactly_space : RendersExactly 1 Prettifier.space := by
  intro p h1 h2 h3
  refine ⟨[' '], ?_, rfl, ?_, ?_, ?_, ?_, ?_⟩ <;>
    simp [Prettifier.space, satSub]
  omega

theorem rendersExactly_comp {m1 m2 : Nat} {f g : Prettifier → Prettifier}
    (hf : RendersExactly m1 f) (hg : RendersExactly m2 g) :
    RendersExactly (m1 + m2) (fun p => g (f p)) := by
  intro p h1 h2 h3
  obtain ⟨s1, ht1, hl1, hn1, hr1, hnn1, hi1, hw1⟩ :=
    hf p h1 h2 (by omega)
  obtain ⟨s2, ht2, hl2, hn2, hr2, hnn2, hi2, hw2⟩ :=
    hg (f p) (by rw [hnn1]; exact h1) (by rw [hr1]; omega)
      (by rw [hr1]; omega)
  refine ⟨s1 ++ s2, ?_, ?_, ?_, ?_, ?_, ?_, ?_⟩
  · rw [ht2, ht1, List.append_assoc]
  · simp [hl1, hl2]
  · intro ch hch
    rcases List.mem_append.mp hch with hch | hch
    · exact hn1 ch hch
    · exact hn2 ch hch
  · rw [hr2, hr1]
    push_cast
    omega
  · rw [hnn2, hnn1]
  · rw [hi2, hi1]
  · rw [hw2, hw1]

theorem rendersExactly_id : RendersExactly 0 (fun p => p) := by
  intro p h1 h2 h3
  exact ⟨[], by simp, rfl, by simp, by simp, rfl, rfl, rfl⟩

theorem len_paren_open : ((("(").data).length) = 1 := by decide

theorem len_paren_close : (((")").data).length) = 1 := by decide

theorem len_dotdot_sep : (((" .. ").data).length) = 4 := by decide

theorem chars_paren_open : ∀ ch ∈ ("(").data, ch ≠ '\n' := by decide

theorem chars_paren_close : ∀ ch ∈ (")").data, ch ≠ '\n' := by decide

theorem chars_dotdot_sep : ∀ ch ∈ (" .. ").data, ch ≠ '\n' := by decide

theorem chars_space_char : ∀ ch ∈ ([' '] : List Char), ch ≠ '\n' := by decide

theorem cleanTok_chars {t : PascalToken} (h : cleanTok t = true) :
    ∀ ch ∈ pascalTokenText t, ch ≠ '\n' := by
  unfold cleanTok at h
  rw [Bool.and_eq_true] at h
  intro ch hch
  have := h.2
  rw [List.all_eq_true] at this
  simpa using this ch hch

theorem cleanTok_pos {t : PascalToken} (h : cleanTok t = true) :
    1 ≤ t.measure_inline := by
  unfold cleanTok at h
  rw [Bool.and_eq_true] at h
  have h1 := h.1
  rw [decide_eq_true_eq] at h1
  unfold PascalToken.measure_inline
  omega

theorem cleanStr_chars {s : String} (h : cleanStr s = true) :
    ∀ ch ∈ s.data, ch ≠ '\n' := by
  unfold cleanStr at h
  rw [Bool.and_eq_true] at h
  intro ch hch
  have := h.2
  rw [List.all_eq_true] at this
  simpa using this ch hch

theorem cleanStr_pos {s : String} (h : cleanStr s = true) : 1 ≤ s.length := by
  unfold cleanStr at h
  rw [Bool.and_eq_true] at h
  have h1 := h.1
  rw [decide_eq_true_eq] at h1
  show 1 ≤ s.data.length
  omega

theorem pascalToken_renders (t : PascalToken) (h : cleanTok t = true) :
    RendersExactly t.measure_inline t.render_inline := by
  have hch := cleanTok_chars h
  cases t
  case ReservedWord => exact rendersExactly_scope_push hch
  case IntLiteral => exact rendersExactly_scope_push hch
  case StringLiteral => exact rendersExactly_scope_push hch
  all_goals exact rendersExactly_noscope_push hch

theorem rangeBound_renders (b : RangeBound) (h : b.clean = true) :
    RendersExactly b.measure_inline b.render_inline := by
  cases b with
  | Literal t => exact pascalToken_renders t h
  | Symbolic1 s =>
    unfold RangeBound.clean at h
    exact rendersExactly_noscope_push (cleanStr_chars h)
  | Symbolic2 s1 op s2 =>
    unfold RangeBound.clean at h
    rw [Bool.and_eq_true, Bool.and_eq_true] at h
    obtain ⟨⟨hs1, hop⟩, hs2⟩ := h
    refine rendersExactly_congr
      (rendersExactly_comp (rendersExactly_comp (rendersExactly_comp
        (rendersExactly_comp (rendersExactly_comp
          (rendersExactly_noscope_push chars_paren_open)
          (rendersExactly_noscope_push (cleanStr_chars hs1)))
        rendersExactly_space) (pascalToken_renders op hop)) rendersExactly_space)
        (rendersExactly_comp (pascalToken_renders s2 hs2)
          (rendersExactly_noscope_push chars_paren_close)))
      ?_ (fun p => rfl)
    show s1.data.length + op.measure_inline + s2.measure_inline + 4 = _
    rw [len_paren_open, len_paren_close]
    omega
  | UnarySymbolic op s =>
    unfold RangeBound.clean at h
    rw [Bool.and_eq_true] at h
    exact rendersExactly_congr
      (rendersExactly_comp (pascalToken_renders op h.1)
        (rendersExactly_noscope_push (cleanStr_chars h.2))) rfl (fun p => rfl)

theorem specialListLiteralTerm_renders (t : SpecialListLiteralTerm)
    (h : t.clean = true) :
    RendersExactly t.measure_inline t.render_inline := by
  cases t with
  | Single t => exact pascalToken_renders t h
  | Range t1 t2 =>
    unfold SpecialListLiteralTerm.clean at h
    rw [Bool.and_eq_true] at h
    refine rendersExactly_congr
      (rendersExactly_comp (rendersExactly_comp (pascalToken_renders t1 h.1)
        (rendersExactly_noscope_push chars_dotdot_sep))
        (pascalToken_renders t2 h.2))
      rfl (fun p => rfl)
  | Unary t1 t2 =>
    unfold SpecialListLiteralTerm.clean at h
    rw [Bool.and_eq_true] at h
    exact rendersExactly_congr
      (rendersExactly_comp (pascalToken_renders t1 h.1)
        (pascalToken_renders t2 h.2)) rfl (fun p => rfl)

theorem rendersExactly_of_large {m : Nat} (f : Prettifier → Prettifier)
    (h : 60 < m) : RendersExactly m f := by
  intro p h1 h2 h3
  exfalso
  have hc : ((m : Nat) : Int) ≤ 60 := le_trans h3 h2
  have hc2 : (60 : Int) < (m : Nat) := by exact_mod_cast h
  omega

theorem len_comma_sep : (((", ").data).length) = 2 := by decide

theorem chars_comma_sep : ∀ ch ∈ (", ").data, ch ≠ '\n' := by decide

theorem chars_integer_text : ∀ ch ∈ ("integer").data, ch ≠ '\n' := by decide

theorem chars_real_text : ∀ ch ∈ ("real").data, ch ≠ '\n' := by decide

theorem chars_boolean_text : ∀ ch ∈ ("boolean").data, ch ≠ '\n' := by decide

theorem len_packed_file_of : ((("packed file of ").data).length) = 15 := by
  decide

theorem chars_packed_file_of : ∀ ch ∈ ("packed file of ").data, ch ≠ '\n' := by
  decide

theorem len_packed_kw : ((("packed ").data).length) = 7 := by decide

theorem chars_packed_kw : ∀ ch ∈ ("packed ").data, ch ≠ '\n' := by decide

theorem len_array_open : ((("array [").data).length) = 7 := by decide

theorem chars_array_open : ∀ ch ∈ ("array [").data, ch ≠ '\n' := by decide

theorem len_bracket_close_of : ((("] of ").data).length) = 5 := by decide

theorem chars_bracket_close_of : ∀ ch ∈ ("] of ").data, ch ≠ '\n' := by decide

theorem len_caret_text : ((("^").data).length) = 1 := by decide

theorem chars_caret_text : ∀ ch ∈ ("^").data, ch ≠ '\n' := by decide

theorem seq_shift (ws : List Nat) (n : Nat) (hn : 0 < n) :
    ws.foldl (fun a w => (if a ≠ 0 then a + 2 else a) + w) n = n + seqTail ws := by
  induction ws generalizing n with
  | nil => simp [seqTail]
  | cons w rest ih =>
    rw [List.foldl_cons]
    have hstep : (if n ≠ 0 then n + 2 else n) + w = n + 2 + w := by
      rw [if_pos (show n ≠ 0 by omega)]
    rw [hstep, ih (n + 2 + w) (by omega), seqTail]
    omega

theorem measure_inline_seq_cons_pos (w : Nat) (rest : List Nat) (hw : 0 < w) :
    measure_inline_seq (w :: rest) 2 = w + seqTail rest := by
  unfold measure_inline_seq
  rw [List.foldl_cons]
  have h0 : (if (0 : Nat) ≠ 0 then 0 + 2 else 0) + w = w := by simp
  rw [h0]
  exact seq_shift rest w hw

theorem axesClean_mem {axes : List WebType}
    (h : WebType.axesClean axes = true) : ∀ t ∈ axes, t.clean = true := by
  induction axes with
  | nil => intro t ht; cases ht
  | cons u rest ih =>
    rw [WebType.axesClean, Bool.and_eq_true] at h
    intro t ht
    rcases List.mem_cons.mp ht with ht | ht
    · rw [ht]; exact h.1
    · exact ih h.2 t ht

theorem webType_measure_pos (ty : WebType) (h : ty.clean = true) :
    1 ≤ ty.measure_inline := by
  cases ty with
  | Integer => simp [WebType.measure_inline]
  | Real => simp [WebType.measure_inline]
  | Boolean => simp [WebType.measure_inline]
  | Range lo hi => simp only [WebType.measure_inline]; omega
  | PackedFileOf s => simp only [WebType.measure_inline]; omega
  | Array is_packed axes element =>
    simp only [WebType.measure_inline]
    split <;> omega
  | Record is_packed fields =>
    simp only [WebType.measure_inline, NOT_INLINE]; omega
  | UserDefined s =>
    simp only [WebType.measure_inline]
    rw [WebType.clean] at h
    exact cleanStr_pos h
  | Pointer inner => simp only [WebType.measure_inline]; omega

theorem renderAxes_rest (axes : List WebType)
    (hall : ∀ t ∈ axes, RendersExactly t.measure_inline t.render_inline) :
    RendersExactly (seqTail (WebType.axesMeasures axes))
      (WebType.renderAxes axes false) := by
  induction axes with
  | nil =>
    refine rendersExactly_congr rendersExactly_id ?_ ?_
    · rw [WebType.axesMeasures, seqTail]
    · intro p; rw [WebType.renderAxes]
  | cons t rest ih =>
    have ht := hall t (List.mem_cons_self t rest)
    have hrest := ih (fun u hu => hall u (List.mem_cons_of_mem t hu))
    refine rendersExactly_congr
      (rendersExactly_comp (rendersExactly_comp
        (rendersExactly_noscope_push chars_comma_sep) ht) hrest)
      ?_ ?_
    · rw [WebType.axesMeasures, seqTail, len_comma_sep]
    · intro p; simp [WebType.renderAxes]

theorem renderAxes_first (axes : List WebType)
    (hall : ∀ t ∈ axes, RendersExactly t.measure_inline t.render_inline)
    (hpos : ∀ t ∈ axes, 1 ≤ t.measure_inline) :
    RendersExactly (measure_inline_seq (WebType.axesMeasures axes) 2)
      (WebType.renderAxes axes true) := by
  cases axes with
  | nil =>
    refine rendersExactly_congr rendersExactly_id ?_ ?_
    · rw [WebType.axesMeasures]; rfl
    · intro p; rw [WebType.renderAxes]
  | cons t rest =>
    have ht := hall t (List.mem_cons_self t rest)
    have hrest := renderAxes_rest rest (fun u hu => hall u (List.mem_cons_of_mem t hu))
    refine rendersExactly_congr (rendersExactly_comp ht hrest) ?_ ?_
    · rw [WebType.axesMeasures]
      exact measure_inline_seq_cons_pos _ _ (hpos t (List.mem_cons_self t rest))
    · intro p; simp [WebType.renderAxes]

theorem webType_renders_aux (n : Nat) : ∀ ty : WebType, sizeOf ty ≤ n →
    ty.clean = true → RendersExactly ty.measure_inline ty.render_inline := by
  induction n with
  | zero =>
    intro ty hsz h
    exfalso
    cases ty <;> simp at hsz
  | succ n ih =>
    intro ty hsz h
    cases ty with
    | Integer =>
      refine rendersExactly_congr (rendersExactly_noscope_push chars_integer_text) ?_ ?_
      · simp only [WebType.measure_inline]; decide
      · intro p; simp [WebType.render_inline]
    | Real =>
      refine rendersExactly_congr (rendersExactly_noscope_push chars_real_text) ?_ ?_
      · simp only [WebType.measure_inline]; decide
      · intro p; simp [WebType.render_inline]
    | Boolean =>
      refine rendersExactly_congr (rendersExactly_noscope_push chars_boolean_text) ?_ ?_
      · simp only [WebType.measure_inline]; decide
      · intro p; simp [WebType.render_inline]
    | Range lo hi =>
      rw [WebType.clean, Bool.and_eq_true] at h
      refine rendersExactly_congr
        (rendersExactly_comp (rendersExactly_comp (rangeBound_renders lo h.1)
          (rendersExactly_noscope_push chars_dotdot_sep))
          (rangeBound_renders hi h.2))
        ?_ ?_
      · simp only [WebType.measure_inline]; rw [len_dotdot_sep]; omega
      · intro p; simp [WebType.render_inline]
    | PackedFileOf s =>
      rw [WebType.clean] at h
      refine rendersExactly_congr
        (rendersExactly_comp (rendersExactly_noscope_push chars_packed_file_of)
          (rendersExactly_noscope_push (cleanStr_chars h)))
        ?_ ?_
      · simp only [WebType.measure_inline]
        rw [len_packed_file_of]
        show 15 + s.data.length = 15 + s.data.length
        rfl
      · intro p; simp [WebType.render_inline]
    | Array is_packed axes element =>
      rw [WebType.clean, Bool.and_eq_true] at h
      simp only [WebType.Array.sizeOf_spec] at hsz
      have hmemclean := axesClean_mem h.1
      have hmem : ∀ t ∈ axes, RendersExactly t.measure_inline t.render_inline := by
        intro t htm
        have hlt := List.sizeOf_lt_of_mem htm
        exact ih t (by omega) (hmemclean t htm)
      have hpos : ∀ t ∈ axes, 1 ≤ t.measure_inline :=
        fun t htm => webType_measure_pos t (hmemclean t htm)
      have hax := renderAxes_first axes hmem hpos
      have he := ih element (by omega) h.2
      cases is_packed with
      | true =>
        refine rendersExactly_congr
          (rendersExactly_comp (rendersExactly_comp (rendersExactly_comp
            (rendersExactly_comp (rendersExactly_noscope_push chars_packed_kw)
              (rendersExactly_noscope_push chars_array_open)) hax)
            (rendersExactly_noscope_push chars_bracket_close_of)) he)
          ?_ ?_
        · simp only [WebType.measure_inline, if_true]
          rw [len_packed_kw, len_array_open, len_bracket_close_of]
        · intro p; simp [WebType.render_inline]
      | false =>
        refine rendersExactly_congr
          (rendersExactly_comp (rendersExactly_comp (rendersExactly_comp
            (rendersExactly_noscope_push chars_array_open) hax)
            (rendersExactly_noscope_push chars_bracket_close_of)) he)
          ?_ ?_
        · simp only [WebType.measure_inline, Bool.false_eq_true, if_false]
          rw [len_array_open, len_bracket_close_of]
        · intro p; simp [WebType.render_inline]
    | Record is_packed fields =>
      refine rendersExactly_of_large _ ?_
      simp only [WebType.measure_inline, NOT_INLINE]
      omega
    | UserDefined s =>
      rw [WebType.clean] at h
      refine rendersExactly_congr
        (rendersExactly_noscope_push (cleanStr_chars h)) ?_ ?_
      · simp only [WebType.measure_inline]
        rfl
      · intro p; simp [WebType.render_inline]
    | Pointer inner =>
      rw [WebType.clean] at h
      simp only [WebType.Pointer.sizeOf_spec] at hsz
      have hi := ih inner (by omega) h
      refine rendersExactly_congr
        (rendersExactly_comp (rendersExactly_noscope_push chars_caret_text) hi)
        ?_ ?_
      · simp only [WebType.measure_inline]
        rw [len_caret_text]
      · intro p; simp [WebType.render_inline]

theorem webType_renders (ty : WebType) (h : ty.clean = true) :
    RendersExactly ty.measure_inline ty.render_inline :=
  webType_renders_aux (sizeOf ty) ty (le_refl _) h

theorem webExpr_renders_aux (n : Nat) : ∀ e : WebExpr, sizeOf e ≤ n →
    e.clean = true → RendersExactly e.measure_inline e.render_inline := by
  induction n with
  | zero =>
    intro e hsz h
    exfalso
    cases e <;> simp at hsz
  | succ n ih =>
    intro e hsz h
    cases e with
    | Token t =>
      rw [WebExpr.clean] at h
      refine rendersExactly_congr (pascalToken_renders t h) ?_ ?_
      · simp only [WebExpr.measure_inline]
      · intro p; simp [WebExpr.render_inline]
    | Binary lhs op rhs =>
      rw [WebExpr.clean, Bool.and_eq_true, Bool.and_eq_true] at h
      obtain ⟨⟨hl, hop⟩, hr⟩ := h
      simp only [WebExpr.Binary.sizeOf_spec] at hsz
      have hlr := ih lhs (by omega) hl
      have hrr := ih rhs (by omega) hr
      refine rendersExactly_congr
        (rendersExactly_comp (rendersExactly_comp (rendersExactly_comp
          (rendersExactly_comp hlr rendersExactly_space)
          (pascalToken_renders op hop)) rendersExactly_space) hrr)
        ?_ ?_
      · simp only [WebExpr.measure_inline]; omega
      · intro p; simp [WebExpr.render_inline]
    | PrefixUnary op inner =>
      refine rendersExactly_of_large _ ?_
      simp only [WebExpr.measure_inline]; omega
    | PostfixUnary inner op =>
      refine rendersExactly_of_large _ ?_
      simp only [WebExpr.measure_inline]; omega
    | Call target args =>
      refine rendersExactly_of_large _ ?_
      simp only [WebExpr.measure_inline]; omega
    | Index target args =>
      refine rendersExactly_of_large _ ?_
      simp only [WebExpr.measure_inline]; omega
    | Field item field =>
      refine rendersExactly_of_large _ ?_
      simp only [WebExpr.measure_inline]; omega
    | Format inner width =>
      refine rendersExactly_of_large _ ?_
      simp only [WebExpr.measure_inline]; omega
    | Paren inner =>
      refine rendersExactly_of_large _ ?_
      simp only [WebExpr.measure_inline]; omega

theorem webExpr_renders (e : WebExpr) (h : e.clean = true) :
    RendersExactly e.measure_inline e.render_inline :=
  webExpr_renders_aux (sizeOf e) e (le_refl _) h

/-! ## Settling the claims: expression grouping -/

theorem tokenExpr_not_prefix (a : PascalToken) (ha : isTokenExprTok a = true) :
    isPrefixUnaryOpTok a = false := by
  cases a <;> simp_all [isTokenExprTok, isPrefixUnaryOpTok]

theorem tokenExpr_ne_open (a : PascalToken) (ha : isTokenExprTok a = true) :
    a ≠ PascalToken.OpenDelimiter DelimiterKind.Paren := by
  cases a <;> simp_all [isTokenExprTok]

theorem tokenExpr_not_string (a : PascalToken) (ha : isTokenExprTok a = true) :
    ∀ s, a ≠ PascalToken.StringLiteral s := by
  cases a <;> simp_all [isTokenExprTok]

theorem merged_string_literals_none (a : PascalToken)
    (h : ∀ s, a ≠ PascalToken.StringLiteral s) (rest : List WebToken) :
    merged_string_literals (WebToken.Pascal a :: rest) = none := by
  cases a with
  | StringLiteral s => exact absurd rfl (h s)
  | _ => rfl

theorem exprHead_token (pe : P WebExpr) (a : PascalToken)
    (ha : isTokenExprTok a = true) (rest : List WebToken) :
    paltList [parse_prefix_unary_expr pe, parse_paren_expr pe,
        pmap WebExpr.Token merged_string_literals, parse_token_expr]
      (WebToken.Pascal a :: rest) = some (rest, WebExpr.Token a) := by
  have h1 : isPrefixUnaryOpTok a = false := tokenExpr_not_prefix a ha
  have h2 : a ≠ PascalToken.OpenDelimiter DelimiterKind.Paren :=
    tokenExpr_ne_open a ha
  have h3 := merged_string_literals_none a (tokenExpr_not_string a ha) rest
  simp [paltList, palt, parse_prefix_unary_expr, prefix_unary_expr_op,
    parse_paren_expr, pascal_token, tokGate, pbind, pmap, h1, h2, h3,
    parse_token_expr, ha, pfail]

theorem exprTailStep_nil (pe : P WebExpr) (e : WebExpr) :
    exprTailStep pe [] e = none := rfl

theorem iterStep_of_step_none {σ : Type}
    {step : List WebToken → σ → Option (List WebToken × σ)}
    {i : List WebToken} {a : σ} (h : step i a = none) :
    ∀ f, iterStep step f i a = (i, a) := by
  intro f
  cases f with
  | zero => rfl
  | succ f => exact iterStep_succ_none h f

theorem exprTailStep_binary (pe : P WebExpr) (o : PascalToken)
    (ho : isBinaryOpTok o = true) (rest r : List WebToken) (rhs : WebExpr)
    (hpe : pe rest = some (r, rhs)) (e : WebExpr) :
    exprTailStep pe (WebToken.Pascal o :: rest) e =
      some (r, WebExpr.Binary e o rhs) := by
  simp [exprTailStep, paltList, palt, binary_tail, binary_expr_op, tokGate,
    pbind, pmap, ho, hpe, LeftRecursiveTail.finalize]

theorem parse_expr_atom (f : Nat) (c : PascalToken)
    (hc : isTokenExprTok c = true) :
    parse_expr (f + 1) [WebToken.Pascal c] = some ([], WebExpr.Token c) := by
  have hh := exprHead_token (parse_expr f) c hc []
  unfold parse_expr
  simp only [hh]
  rw [iterStep_of_step_none (exprTailStep_nil _ _)]

theorem parse_expr_chain2 (f : Nat) (b o2 c : PascalToken)
    (hb : isTokenExprTok b = true) (ho2 : isBinaryOpTok o2 = true)
    (hc : isTokenExprTok c = true) :
    parse_expr (f + 2) [WebToken.Pascal b, WebToken.Pascal o2, WebToken.Pascal c] =
      some ([], WebExpr.Binary (WebExpr.Token b) o2 (WebExpr.Token c)) := by
  have hh := exprHead_token (parse_expr (f + 1)) b hb
    [WebToken.Pascal o2, WebToken.Pascal c]
  show parse_expr (f + 1 + 1) _ = _
  unfold parse_expr
  simp only [hh]
  have hstep := exprTailStep_binary (parse_expr (f + 1)) o2 ho2
    [WebToken.Pascal c] [] (WebExpr.Token c) (parse_expr_atom f c hc)
    (WebExpr.Token b)
  rw [iterStep_succ_some hstep, iterStep_of_step_none (exprTailStep_nil _ _)]

/-- C2: parsing the five-token form `a ⊕ b ⊗ c` (atom, binary operator,
atom, binary operator, atom) yields the right-nested tree
`Binary a ⊕ (Binary b ⊗ c)` with nothing left over — and that tree is not
the left-nested association — because `binary_tail` recurses into the full
expression parser for its right operand. -/

theorem claim_C2 (f : Nat) (a o1 b o2 c : PascalToken)
    (ha : isTokenExprTok a = true) (ho1 : isBinaryOpTok o1 = true)
    (hb : isTokenExprTok b = true) (ho2 : isBinaryOpTok o2 = true)
    (hc : isTokenExprTok c = true) :
    parse_expr (f + 3) [WebToken.Pascal a, WebToken.Pascal o1,
        WebToken.Pascal b, WebToken.Pascal o2, WebToken.Pascal c] =
      some ([], WebExpr.Binary (WebExpr.Token a) o1
        (WebExpr.Binary (WebExpr.Token b) o2 (WebExpr.Token c))) ∧
    WebExpr.Binary (WebExpr.Token a) o1
        (WebExpr.Binary (WebExpr.Token b) o2 (WebExpr.Token c)) ≠
      WebExpr.Binary (WebExpr.Binary (WebExpr.Token a) o1 (WebExpr.Token b))
        o2 (WebExpr.Token c) := by
  constructor
  · have hh := exprHead_token (parse_expr (f + 2)) a ha
      [WebToken.Pascal o1, WebToken.Pascal b, WebToken.Pascal o2,
        WebToken.Pascal c]
    show parse_expr (f + 2 + 1) _ = _
    unfold parse_expr
    simp only [hh]
    have hstep := exprTailStep_binary (parse_expr (f + 2)) o1 ho1
      [WebToken.Pascal b, WebToken.Pascal o2, WebToken.Pascal c] []
      (WebExpr.Binary (WebExpr.Token b) o2 (WebExpr.Token c))
      (parse_expr_chain2 f b o2 c hb ho2 hc) (WebExpr.Token a)
    rw [iterStep_succ_some hstep, iterStep_of_step_none (exprTailStep_nil _ _)]
  · intro hne
    injection hne with h1 h2 h3
    exact WebExpr.noConfusion h1

theorem claim_C2_witness :
    parse_expr 3 [WebToken.Pascal (PascalToken.Identifier "a"),
        WebToken.Pascal PascalToken.Plus,
        WebToken.Pascal (PascalToken.Identifier "b"),
        WebToken.Pascal PascalToken.Plus,
        WebToken.Pascal (PascalToken.Identifier "c")] =
      some ([], WebExpr.Binary (WebExpr.Token (PascalToken.Identifier "a"))
        PascalToken.Plus
        (WebExpr.Binary (WebExpr.Token (PascalToken.Identifier "b"))
          PascalToken.Plus (WebExpr.Token (PascalToken.Identifier "c")))) ∧
    WebExpr.Binary (WebExpr.Token (PascalToken.Identifier "a"))
        PascalToken.Plus
        (WebExpr.Binary (WebExpr.Token (PascalToken.Identifier "b"))
          PascalToken.Plus (WebExpr.Token (PascalToken.Identifier "c"))) ≠
      WebExpr.Binary
        (WebExpr.Binary (WebExpr.Token (PascalToken.Identifier "a"))
          PascalToken.Plus (WebExpr.Token (PascalToken.Identifier "b")))
        PascalToken.Plus (WebExpr.Token (PascalToken.Identifier "c")) :=
  claim_C2 0 (PascalToken.Identifier "a") PascalToken.Plus
    (PascalToken.Identifier "b") PascalToken.Plus (PascalToken.Identifier "c")
    (by decide) (by decide) (by decide) (by decide) (by decide)

/-! ## Settling the claims: parse dichotomy, empty input, termination -/

/-- C1: `WebCode.parse` has exactly two outcomes.  Every success is either
the empty-input `Empty` singleton or a run of the toplevel repetition with
an empty remainder (every input token accounted for); whenever the
repetition leaves a nonempty remainder, or fails outright, the result is
`none` and no partial tree is produced. -/

theorem claim_C1 :
    (∀ (toks : List WebToken) (code : WebCode),
      WebCode.parse toks = some code →
        (toks = [] ∧ code = ⟨[WebToplevel.Empty]⟩) ∨
        many1P (parse_toplevel (toks.length + 1)) toks =
          some ([], code.toplevels)) ∧
    (∀ (toks r : List WebToken) (v : List WebToplevel), toks ≠ [] →
      many1P (parse_toplevel (toks.length + 1)) toks = some (r, v) →
      r ≠ [] → WebCode.parse toks = none) ∧
    (∀ toks : List WebToken, toks ≠ [] →
      many1P (parse_toplevel (toks.length + 1)) toks = none →
      WebCode.parse toks = none) := by
  refine ⟨?_, ?_, ?_⟩
  · intro toks code h
    unfold WebCode.parse at h
    split at h
    · next hlen =>
      left
      exact ⟨List.length_eq_zero.mp hlen, (Option.some.inj h).symm⟩
    · next hlen =>
      right
      split at h
      · next r v hm =>
        split at h
        · exact Option.noConfusion h
        · next hr =>
          have hr0 : r = [] := List.length_eq_zero.mp (by omega)
          have hc : code = ⟨v⟩ := (Option.some.inj h).symm
          rw [hc, ← hr0]
          exact hm
      · exact Option.noConfusion h
  · intro toks r v hne hm hr
    have hpos : r.length > 0 := by
      cases r with
      | nil => exact absurd rfl hr
      | cons x xs => simp
    unfold WebCode.parse
    rw [if_neg (fun h => hne (List.length_eq_zero.mp h))]
    simp only [hm, if_pos hpos]
  · intro toks hne hm
    unfold WebCode.parse
    rw [if_neg (fun h => hne (List.length_eq_zero.mp h))]
    simp only [hm]

theorem claim_C1_witness :
    (([] : List WebToken) = [] ∧
      (⟨[WebToplevel.Empty]⟩ : WebCode) = ⟨[WebToplevel.Empty]⟩) ∨
    many1P (parse_toplevel (([] : List WebToken).length + 1)) [] =
      some ([], (⟨[WebToplevel.Empty]⟩ : WebCode).toplevels) :=
  claim_C1.1 [] ⟨[WebToplevel.Empty]⟩ rfl

/-- C7: the empty token sequence parses successfully to exactly one
toplevel, the `Empty` marker. -/

theorem claim_C7 : WebCode.parse [] = some ⟨[WebToplevel.Empty]⟩ := rfl

/-- C10: parsing terminates on every finite input.  Every successful
toplevel parse and every successful expression parse strictly advances the
cursor; each iteration of the tail-accumulation loop of `parse_expr`
strictly advances the cursor; and therefore both that loop and the
one-or-more toplevel repetition reach their fixed points within
`input.length` iterations — fuel of at least the input length changes
nothing. -/

theorem claim_C10 :
    (∀ f, Consuming (parse_toplevel f)) ∧
    (∀ f, Consuming (parse_expr f)) ∧
    (∀ pe : P WebExpr, Consuming pe →
      ∀ i e i' e', exprTailStep pe i e = some (i', e') →
        i'.length < i.length) ∧
    (∀ pe : P WebExpr, Consuming pe → ∀ f i e, i.length ≤ f →
      iterStep (exprTailStep pe) f i e =
        iterStep (exprTailStep pe) i.length i e) ∧
    (∀ p : P WebToplevel, Consuming p → ∀ f i acc, i.length ≤ f →
      iterStep (collectStep p) f i acc =
        iterStep (collectStep p) i.length i acc) := by
  refine ⟨consuming_parse_toplevel, consuming_parse_expr,
    fun pe hpe => exprTailStep_consumes hpe, ?_, ?_⟩
  · intro pe hpe f i e hf
    exact iterStep_stable (exprTailStep_consumes hpe) f i e hf
  · intro p hp f i acc hf
    refine iterStep_stable ?_ f i acc hf
    intro i1 a1 i2 a2 hs
    unfold collectStep at hs
    cases hps : p i1 with
    | none => rw [hps] at hs; exact Option.noConfusion hs
    | some x =>
      rw [hps] at hs
      have := hp i1 x.1 x.2 (by rw [hps])
      have hx : x.1 = i2 := by
        obtain ⟨x1, x2⟩ := x
        simpa using congrArg Prod.fst (Option.some.inj hs)
      rw [hx] at this
      exact this

theorem claim_C10_witness :
    iterStep (collectStep (parse_toplevel 1)) 5 [] [] =
      iterStep (collectStep (parse_toplevel 1))
        ((([] : List WebToken)).length) [] [] :=
  claim_C10.2.2.2.2 (parse_toplevel 1) (consuming_parse_toplevel 1) 5 [] []
    (by decide)

/-! ## Settling the claims: rendering totality -/

/-- C6: the code falsifies the claimed totality of rendering over `WebExpr`.
For the parenthesized expression `(x)` — a `Paren` node, producible by the
parser — both `render_inline` and `render_flex` fall into the catch-all arm
and emit nothing at all, and `measure_inline` returns the `999` placeholder
rather than a real width. -/

theorem claim_C6 :
    (∀ p : Prettifier,
      (WebExpr.Paren (WebExpr.Token (PascalToken.Identifier "x"))).render_inline
        p = p) ∧
    (∀ p : Prettifier,
      (WebExpr.Paren (WebExpr.Token (PascalToken.Identifier "x"))).render_flex
        p = p) ∧
    (WebExpr.Paren
      (WebExpr.Token (PascalToken.Identifier "x"))).measure_inline = 999 := by
  refine ⟨?_, ?_, ?_⟩
  · intro p; simp [WebExpr.render_inline]
  · intro p; simp [WebExpr.render_flex]
  · simp [WebExpr.measure_inline]

/-! ## Settling the claims: indent bookkeeping -/

theorem indentInv_step (op : IndentOp) (p : Prettifier) (h1 : 0 ≤ p.indent)
    (h2 : (2 : Int) ∣ p.indent) :
    0 ≤ (op.apply p).indent ∧ (2 : Int) ∣ (op.apply p).indent := by
  cases op with
  | indent_block =>
    simp only [IndentOp.apply]
    unfold Prettifier.indent_block
    split
    · exact ⟨by show 0 ≤ p.indent + 4; omega,
        by show (2 : Int) ∣ p.indent + 4; omega⟩
    · exact ⟨h1, h2⟩
  | dedent_block =>
    simp only [IndentOp.apply]
    unfold Prettifier.dedent_block
    split
    · next hg =>
      exact ⟨by show 0 ≤ p.indent - 4; omega,
        by show (2 : Int) ∣ p.indent - 4; omega⟩
    · exact ⟨h1, h2⟩
  | indent_small =>
    simp only [IndentOp.apply]
    unfold Prettifier.indent_small
    split
    · exact ⟨by show 0 ≤ p.indent + 2; omega,
        by show (2 : Int) ∣ p.indent + 2; omega⟩
    · exact ⟨h1, h2⟩
  | dedent_small =>
    simp only [IndentOp.apply]
    unfold Prettifier.dedent_small
    split
    · next hg =>
      exact ⟨by show 0 ≤ p.indent - 2; omega,
        by show (2 : Int) ∣ p.indent - 2; omega⟩
    · exact ⟨h1, h2⟩

theorem indentInv_run : ∀ (ops : List IndentOp) (p : Prettifier),
    0 ≤ p.indent → (2 : Int) ∣ p.indent →
    0 ≤ (applyIndentOps ops p).indent ∧
      (2 : Int) ∣ (applyIndentOps ops p).indent := by
  intro ops
  induction ops with
  | nil => intro p h1 h2; exact ⟨h1, h2⟩
  | cons op rest ih =>
    intro p h1 h2
    have hstep := indentInv_step op p h1 h2
    exact ih (op.apply p) hstep.1 hstep.2

/-- C3 (corrected): along every sequence of indent/dedent calls from
`Prettifier.new`, the indent stays a non-negative multiple of 2; a
successful block step moves it by exactly 4 and a successful small step by
exactly 2, a refused call returns `false` and leaves the state untouched —
but the code's acceptance conditions are `4 < full_width - indent`,
`3 < indent`, `2 < full_width - indent` and `1 < indent`, not the claimed
"at least the step size of margin would remain". -/

theorem claim_C3 :
    (∀ ops : List IndentOp,
      0 ≤ (applyIndentOps ops Prettifier.new).indent ∧
      (2 : Int) ∣ (applyIndentOps ops Prettifier.new).indent) ∧
    (∀ p : Prettifier,
      ((p.indent_block).1 = true ∧ (p.indent_block).2.indent = p.indent + 4 ∧
        4 < p.full_width - p.indent) ∨
      ((p.indent_block).1 = false ∧ (p.indent_block).2 = p ∧
        p.full_width - p.indent ≤ 4)) ∧
    (∀ p : Prettifier,
      ((p.dedent_block).1 = true ∧ (p.dedent_block).2.indent = p.indent - 4 ∧
        3 < p.indent) ∨
      ((p.dedent_block).1 = false ∧ (p.dedent_block).2 = p ∧ p.indent ≤ 3)) ∧
    (∀ p : Prettifier,
      ((p.indent_small).1 = true ∧ (p.indent_small).2.indent = p.indent + 2 ∧
        2 < p.full_width - p.indent) ∨
      ((p.indent_small).1 = false ∧ (p.indent_small).2 = p ∧
        p.full_width - p.indent ≤ 2)) ∧
    (∀ p : Prettifier,
      ((p.dedent_small).1 = true ∧ (p.dedent_small).2.indent = p.indent - 2 ∧
        1 < p.indent) ∨
      ((p.dedent_small).1 = false ∧ (p.dedent_small).2 = p ∧
        p.indent ≤ 1)) := by
  refine ⟨?_, ?_, ?_, ?_, ?_⟩
  · intro ops
    exact indentInv_run ops Prettifier.new (by exact le_refl 0) ⟨0, rfl⟩
  · intro p
    by_cases hg : 4 < p.full_width - p.indent
    · left
      unfold Prettifier.indent_block
      rw [if_pos hg]
      exact ⟨rfl, rfl, hg⟩
    · right
      unfold Prettifier.indent_block
      rw [if_neg hg]
      exact ⟨rfl, rfl, by omega⟩
  · intro p
    by_cases hg : 3 < p.indent
    · left
      unfold Prettifier.dedent_block
      rw [if_pos hg]
      exact ⟨rfl, rfl, hg⟩
    · right
      unfold Prettifier.dedent_block
      rw [if_neg hg]
      exact ⟨rfl, rfl, by omega⟩
  · intro p
    by_cases hg : 2 < p.full_width - p.indent
    · left
      unfold Prettifier.indent_small
      rw [if_pos hg]
      exact ⟨rfl, rfl, hg⟩
    · right
      unfold Prettifier.indent_small
      rw [if_neg hg]
      exact ⟨rfl, rfl, by omega⟩
  · intro p
    by_cases hg : 1 < p.indent
    · left
      unfold Prettifier.dedent_small
      rw [if_pos hg]
      exact ⟨rfl, rfl, hg⟩
    · right
      unfold Prettifier.dedent_small
      rw [if_neg hg]
      exact ⟨rfl, rfl, by omega⟩

set_option maxRecDepth 8000 in

theorem claim_C3_cex :
    ((applyIndentOps (List.replicate 27 IndentOp.indent_small)
        Prettifier.new).indent_block).1 = true ∧
    (applyIndentOps (List.replicate 27 IndentOp.indent_small)
        Prettifier.new).full_width -
      (((applyIndentOps (List.replicate 27 IndentOp.indent_small)
        Prettifier.new).indent_block).2).indent < 4 := by
  decide

/-! ## Settling the claims: measure/render consistency -/

/-- C4: measure/render agreement for every inline-renderable node — range
bounds, types (the flattened `Array` constructor is the `WebArrayType` of
the Rust), special list-literal terms, and expressions (whose `Token` and
`Binary` variants are the measured ones; the placeholder-measured variants
hold vacuously, their 999/9999 measures never fitting the 60-wide page).
Whenever no newline is pending and the measured width fits within the
remaining width at the decision point, inline rendering appends exactly
`measure_inline` characters, none of them a newline, and debits exactly
that width. -/

theorem claim_C4 :
    (∀ b : RangeBound, b.clean = true →
      RendersExactly b.measure_inline b.render_inline) ∧
    (∀ ty : WebType, ty.clean = true →
      RendersExactly ty.measure_inline ty.render_inline) ∧
    (∀ t : SpecialListLiteralTerm, t.clean = true →
      RendersExactly t.measure_inline t.render_inline) ∧
    (∀ e : WebExpr, e.clean = true →
      RendersExactly e.measure_inline e.render_inline) :=
  ⟨rangeBound_renders, webType_renders, specialListLiteralTerm_renders,
    webExpr_renders⟩

theorem claim_C4_witness :
    RendersExactly (RangeBound.Symbolic1 "max").measure_inline
      (RangeBound.Symbolic1 "max").render_inline ∧
    RendersExactly (WebType.Array true [WebType.Integer]
        WebType.Real).measure_inline
      (WebType.Array true [WebType.Integer] WebType.Real).render_inline ∧
    RendersExactly (SpecialListLiteralTerm.Range (PascalToken.IntLiteral 0)
        (PascalToken.IntLiteral 9)).measure_inline
      (SpecialListLiteralTerm.Range (PascalToken.IntLiteral 0)
        (PascalToken.IntLiteral 9)).render_inline ∧
    RendersExactly (WebExpr.Binary (WebExpr.Token (PascalToken.Identifier "x"))
        PascalToken.Plus
        (WebExpr.Token (PascalToken.IntLiteral 1))).measure_inline
      (WebExpr.Binary (WebExpr.Token (PascalToken.Identifier "x"))
        PascalToken.Plus
        (WebExpr.Token (PascalToken.IntLiteral 1))).render_inline :=
  ⟨claim_C4.1 _ (by decide),
    claim_C4.2.1 _ (by simp [WebType.clean, WebType.axesClean]),
    claim_C4.2.2.1 _ (by decide),
    claim_C4.2.2.2 _ (by simp only [WebExpr.clean]; decide)⟩

/-! ## Settling the claims: width bound -/

/-- C5 (corrected): along any trace of prettifier operations from
`Prettifier.new` in which every push fits at its decision point (and spans
hold no newline) and every space is taken with a column remaining, every
line of the text buffer stays within the configured width of 60.  The
unconditional claim fails: the code also pushes without checking. -/

theorem claim_C5 : ∀ ops : List RenderOp,
    guardedRun ops Prettifier.new = true →
    ∀ l ∈ linesOf (applyRenderOps ops Prettifier.new).text, l.length ≤ 60 := by
  intro ops hg l hl
  obtain ⟨-, -, -, cs, c, hlines, hcs, hc, -⟩ :=
    guardedRun_lineInv ops Prettifier.new lineInv_new hg
  rw [hlines] at hl
  rcases List.mem_append.mp hl with h | h
  · exact hcs l h
  · rw [List.mem_singleton.mp h]
    exact hc

theorem claim_C5_witness :
    guardedRun [RenderOp.noscope_push [('h'), ('i')], RenderOp.newline_indent]
      Prettifier.new = true ∧
    ([('h'), ('i')] : List Char).length ≤ 60 :=
  ⟨by decide,
    claim_C5 [RenderOp.noscope_push [('h'), ('i')], RenderOp.newline_indent]
      (by decide) [('h'), ('i')] (by decide)⟩

theorem claim_C5_cex :
    ∃ l ∈ linesOf (tl_prettify.special_paren_two_ident
        "aaaaaaaaaaaaaaaaaaaaaaaaaaaaaa" "bbbbbbbbbbbbbbbbbbbbbbbbbbbbbb"
        Prettifier.new).text, 60 < l.length := by
  decide

theorem offsetsMono_mono {α : Type} {l : List (Nat × α)} {n m : Nat}
    (h : offsetsMono l n) (hnm : n ≤ m) : offsetsMono l m :=
  ⟨h.1, fun e he => le_trans (h.2 e he) hnm⟩

theorem offsetsMono_snoc {α : Type} {l : List (Nat × α)} {n : Nat} (x : α)
    (h : offsetsMono l n) : offsetsMono (l ++ [(n, x)]) n := by
  constructor
  · rw [List.pairwise_append]
    refine ⟨h.1, List.pairwise_singleton _ _, ?_⟩
    intro a ha b hb
    rw [List.mem_singleton.mp hb]
    exact h.2 a ha
  · intro e he
    rcases List.mem_append.mp he with he | he
    · exact h.2 e he
    · rw [List.mem_singleton.mp he]

theorem recInv_of_fields {p q : Prettifier} (h : RecInv p)
    (hops : q.ops = p.ops) (hins : q.inserts = p.inserts)
    (htext : p.text.length ≤ q.text.length) : RecInv q := by
  constructor
  · rw [hops]
    exact offsetsMono_mono h.1 htext
  · rw [hins]
    exact offsetsMono_mono h.2 htext

theorem maybe_newline_ops (p : Prettifier) : (p.maybe_newline).ops = p.ops := by
  unfold Prettifier.maybe_newline
  split <;> rfl

theorem maybe_newline_inserts (p : Prettifier) :
    (p.maybe_newline).inserts = p.inserts := by
  unfold Prettifier.maybe_newline
  split <;> rfl

theorem maybe_newline_text_len (p : Prettifier) :
    p.text.length ≤ (p.maybe_newline).text.length := by
  unfold Prettifier.maybe_newline Prettifier.newline_indent
  split <;> simp

theorem recInv_maybe_newline {p : Prettifier} (h : RecInv p) :
    RecInv p.maybe_newline :=
  recInv_of_fields h (maybe_newline_ops p) (maybe_newline_inserts p)
    (maybe_newline_text_len p)

theorem recInv_step (op : RenderOp) (p : Prettifier) (h : RecInv p) :
    RecInv (op.apply p) := by
  cases op with
  | indent_block =>
    simp only [RenderOp.apply]
    unfold Prettifier.indent_block
    split
    · exact recInv_of_fields h rfl rfl (le_refl _)
    · exact h
  | dedent_block =>
    simp only [RenderOp.apply]
    unfold Prettifier.dedent_block
    split
    · exact recInv_of_fields h rfl rfl (le_refl _)
    · exact h
  | indent_small =>
    simp only [RenderOp.apply]
    unfold Prettifier.indent_small
    split
    · exact recInv_of_fields h rfl rfl (le_refl _)
    · exact h
  | dedent_small =>
    simp only [RenderOp.apply]
    unfold Prettifier.dedent_small
    split
    · exact recInv_of_fields h rfl rfl (le_refl _)
    · exact h
  | newline_indent =>
    refine recInv_of_fields h rfl rfl ?_
    show p.text.length ≤ (p.text ++ _).length
    simp
  | newline_needed_set =>
    exact recInv_of_fields h rfl rfl (le_refl _)
  | toplevel_separator =>
    refine recInv_of_fields h rfl rfl ?_
    show p.text.length ≤ ((p.text ++ [('\n')]) ++ _).length
    simp
  | noscope_push s =>
    refine recInv_of_fields (recInv_maybe_newline h) rfl rfl ?_
    show (p.maybe_newline).text.length ≤ ((p.maybe_newline).text ++ s).length
    simp
  | space =>
    refine recInv_of_fields h rfl rfl ?_
    show p.text.length ≤ (p.text ++ [(' ')]).length
    simp
  | scope_push scope s =>
    have h1 := recInv_maybe_newline h
    constructor
    · show offsetsMono (((p.maybe_newline).ops ++
        [((p.maybe_newline).text.length, ScopeStackOp.push scope)]) ++
        [(((p.maybe_newline).text ++ s).length, ScopeStackOp.pop 1)])
        ((p.maybe_newline).text ++ s).length
      refine offsetsMono_snoc _ (offsetsMono_mono (offsetsMono_snoc _ h1.1) ?_)
      simp
    · show offsetsMono (p.maybe_newline).inserts
        ((p.maybe_newline).text ++ s).length
      refine offsetsMono_mono h1.2 ?_
      simp
  | insert ins text_next =>
    cases text_next with
    | true =>
      have h1 := recInv_maybe_newline h
      constructor
      · exact h1.1
      · exact offsetsMono_snoc _ h1.2
    | false =>
      exact ⟨h.1, offsetsMono_snoc _ h.2⟩
  | scope_begin scope =>
    exact ⟨offsetsMono_snoc _ h.1, h.2⟩
  | scope_end =>
    exact ⟨offsetsMono_snoc _ h.1, h.2⟩

theorem recInv_run : ∀ (ops : List RenderOp) (p : Prettifier),
    RecInv p → RecInv (applyRenderOps ops p) := by
  intro ops
  induction ops with
  | nil => intro p h; exact h
  | cons op rest ih =>
    intro p h
    exact ih (op.apply p) (recInv_step op p h)

theorem recInv_new : RecInv Prettifier.new := by
  constructor <;> exact ⟨List.Pairwise.nil, by intro e he; cases he⟩

/-- C9: along any sequence of prettifier operations from `Prettifier.new`,
the scope-operation list and the TeX-insert list stay sorted by
non-decreasing offset, and every recorded offset is at most the length of
the (append-only) text buffer. -/

theorem claim_C9 : ∀ ops : List RenderOp,
    List.Pairwise (fun a b => a.1 ≤ b.1)
      (applyRenderOps ops Prettifier.new).ops ∧
    (∀ e ∈ (applyRenderOps ops Prettifier.new).ops,
      e.1 ≤ (applyRenderOps ops Prettifier.new).text.length) ∧
    List.Pairwise (fun a b => a.1 ≤ b.1)
      (applyRenderOps ops Prettifier.new).inserts ∧
    (∀ e ∈ (applyRenderOps ops Prettifier.new).inserts,
      e.1 ≤ (applyRenderOps ops Prettifier.new).text.length) := by
  intro ops
  have h := recInv_run ops Prettifier.new recInv_new
  exact ⟨h.1.1, h.1.2, h.2.1, h.2.2⟩

theorem claim_C9_witness :
    ((0 : Nat), ScopeStackOp.push KEYWORD_SCOPE).1 ≤
      (applyRenderOps [RenderOp.scope_push KEYWORD_SCOPE [('i'), ('f')]]
        Prettifier.new).text.length :=
  (claim_C9 [RenderOp.scope_push KEYWORD_SCOPE [('i'), ('f')]]).2.1
    (0, ScopeStackOp.push KEYWORD_SCOPE) (by decide)

/-! ## Settling the claims: constant declarations -/

set_option maxRecDepth 8000 in

/-- C8 (corrected): the constant-declaration production takes no `const`
keyword — the four tokens `foo = 42 ;` alone parse to the single
`ConstDeclaration` toplevel with name `"foo"` and value `42`. -/

theorem claim_C8 :
    WebCode.parse [WebToken.Pascal (PascalToken.Identifier "foo"),
        WebToken.Pascal PascalToken.Equals,
        WebToken.Pascal (PascalToken.IntLiteral 42),
        WebToken.Pascal PascalToken.Semicolon] =
      some ⟨[WebToplevel.ConstDeclaration
        ⟨"foo", PascalToken.IntLiteral 42, none⟩]⟩ := rfl

set_option maxRecDepth 8000 in

theorem claim_C8_cex :
    WebCode.parse [WebToken.Pascal (PascalToken.ReservedWord
          PascalReservedWord.Const),
        WebToken.Pascal (PascalToken.Identifier "foo"),
        WebToken.Pascal PascalToken.Equals,
        WebToken.Pascal (PascalToken.IntLiteral 42),
        WebToken.Pascal PascalToken.Semicolon] =
      some ⟨[WebToplevel.Standalone
          ⟨PascalToken.ReservedWord PascalReservedWord.Const, none⟩,
        WebToplevel.ConstDeclaration
          ⟨"foo", PascalToken.IntLiteral 42, none⟩]⟩ ∧
    (⟨[WebToplevel.Standalone
          ⟨PascalToken.ReservedWord PascalReservedWord.Const, none⟩,
        WebToplevel.ConstDeclaration
          ⟨"foo", PascalToken.IntLiteral 42, none⟩]⟩ : WebCode) ≠
      ⟨[WebToplevel.ConstDeclaration
        ⟨"foo", PascalToken.IntLiteral 42, none⟩]⟩ := by
  refine ⟨rfl, ?_⟩
  intro hcontra
  have hjl := congrArg (fun w => w.toplevels.length) hcontra
  simp at hjl

end TtWeave
